import Mathlib

/-!
luck-app-backend: aspect detection and personalised scoring.

A shallow embedding of `src/astrology/aspects.js`, `src/astrology/zodiac.js` and
`src/astrology/scoring.js`.

Conventions of the embedding:

* JavaScript numbers are modelled by exact rationals (`ℚ`).  The one way a value that is
  not a number enters the scoring code is a table lookup that finds a property inherited from
  `Object.prototype`; arithmetic on it yields `NaN`, which is modelled by `none` in `Option ℚ`.
* The weighted sum behind `overall` has integer operands and is rounded to an integer, so the
  binary64 rounding of its products and sums decides the ties; it is evaluated with
  `roundDouble`, the rounding of IEEE 754 binary64.
* A JavaScript object used as a map from body names to longitudes is an association list in
  `Object.keys` order; its keys are pairwise distinct.
* `Array.prototype.sort` is a stable sort; for a comparator that is a total preorder the result
  is the one computed by `List.insertionSort` (an element is inserted in front of the first
  element that does not have to precede it).
-/

namespace LuckApp

/-! ## aspects.js -/

/-- One row of the `ASPECTS` table. -/
structure AspectDef where
  name : String
  angle : ℚ
  baseWeight : ℚ
  defaultPolarity : ℚ
deriving DecidableEq

/-- The table `ASPECTS`. -/
def ASPECTS : List AspectDef :=
  [ { name := "Conjunction", angle := 0,   baseWeight := 10, defaultPolarity := 0 },
    { name := "Sextile",     angle := 60,  baseWeight := 6,  defaultPolarity := 1 },
    { name := "Square",      angle := 90,  baseWeight := 8,  defaultPolarity := -55/100 },
    { name := "Trine",       angle := 120, baseWeight := 8,  defaultPolarity := 1 },
    { name := "Opposition",  angle := 180, baseWeight := 10, defaultPolarity := -65/100 } ]

/-- The remainder operator `x % m` of JavaScript for a non-negative `x` and positive `m`. -/
def fmod (x m : ℚ) : ℚ := x - m * (⌊x / m⌋ : ℤ)

/-- The function `angleSepDeg(a, b)`. -/
def angleSepDeg (a b : ℚ) : ℚ :=
  let d := fmod |a - b| 360
  if d > 180 then 360 - d else d

/-- The function `orbForPair(bodyA, bodyB, aspectName)`. -/
def orbForPair (bodyA bodyB aspectName : String) : ℚ :=
  if aspectName = "Sextile" then
    if bodyA = "Sun" ∨ bodyB = "Sun" ∨ bodyA = "Moon" ∨ bodyB = "Moon" then 5 else 4
  else if bodyA = "Sun" ∨ bodyB = "Sun" ∨ bodyA = "Moon" ∨ bodyB = "Moon" then 8
  else 6

/-- The function `conjunctionPolarity(bodyA, bodyB)`. -/
def conjunctionPolarity (bodyA bodyB : String) : ℚ :=
  if bodyA = "Venus" ∨ bodyB = "Venus" ∨ bodyA = "Jupiter" ∨ bodyB = "Jupiter" then 1
  else if bodyA = "Saturn" ∨ bodyB = "Saturn" then -1
  else if bodyA = "Mars" ∨ bodyB = "Mars" then 0
  else 0

/-- The record pushed onto `found` by `computeTransitNatalAspects`. -/
structure DetectedAspect where
  transitBody : String
  natalBody : String
  aspect : String
  angle : ℚ
  separation_deg : ℚ
  orb_deg : ℚ
  distance_from_exact_deg : ℚ
  strength : ℚ
  baseWeight : ℚ
  polarity : ℚ
  isMoonAspect : Bool
deriving DecidableEq

/-- A longitude object: its own keys, in `Object.keys` order, each with its value. -/
abbrev LongitudeMap := List (String × ℚ)

/-- The record built in the body of the innermost loop for transit body `t` at `lt`, natal
body `n` at `ln` and table row `asp`. -/
def mkAspect (t : String) (lt : ℚ) (n : String) (ln : ℚ) (asp : AspectDef) : DetectedAspect :=
  let sep := angleSepDeg lt ln
  let orb := orbForPair t n asp.name
  let dist := |sep - asp.angle|
  { transitBody := t
    natalBody := n
    aspect := asp.name
    angle := asp.angle
    separation_deg := sep
    orb_deg := orb
    distance_from_exact_deg := dist
    strength := 1 - dist / orb
    baseWeight := asp.baseWeight
    polarity := if asp.name = "Conjunction" then conjunctionPolarity t n else asp.defaultPolarity
    isMoonAspect := decide (t = "Moon" ∨ n = "Moon") }

/-- The guard `dist <= orb` of the innermost loop. -/
def inOrb (t : String) (lt : ℚ) (n : String) (ln : ℚ) (asp : AspectDef) : Prop :=
  |angleSepDeg lt ln - asp.angle| ≤ orbForPair t n asp.name

instance (t : String) (lt : ℚ) (n : String) (ln : ℚ) (asp : AspectDef) :
    Decidable (inOrb t lt n ln asp) := by
  unfold inOrb; infer_instance

/-- The array `found` after the three nested loops, before it is sorted. -/
def foundAspects (transitLongitudes natalLongitudes : LongitudeMap) : List DetectedAspect :=
  transitLongitudes.flatMap fun t =>
    natalLongitudes.flatMap fun n =>
      (ASPECTS.filter fun asp => decide (inOrb t.1 t.2 n.1 n.2 asp)).map
        fun asp => mkAspect t.1 t.2 n.1 n.2 asp

/-- The ranking key of the comparator: `strength + (isMoonAspect ? 0.05 : 0)`. -/
def rankKey (a : DetectedAspect) : ℚ :=
  a.strength + (if a.isMoonAspect then 5/100 else 0)

/-- The order induced by the comparator `(a, b) => rankKey b - rankKey a`: `a` may stay in
front of `b` when the comparator is not positive. -/
def rankBefore (a b : DetectedAspect) : Prop := rankKey b - rankKey a ≤ 0

instance : DecidableRel rankBefore := fun a b => by
  unfold rankBefore; infer_instance

instance : IsTotal DetectedAspect rankBefore :=
  ⟨fun a b => by
    unfold rankBefore
    rw [sub_nonpos, sub_nonpos]
    exact le_total _ _⟩

instance : IsTrans DetectedAspect rankBefore :=
  ⟨fun a b c hab hbc => by
    unfold rankBefore at *
    rw [sub_nonpos] at *
    exact le_trans hbc hab⟩

/-- The function `computeTransitNatalAspects(transitLongitudes, natalLongitudes)`. -/
def computeTransitNatalAspects (transitLongitudes natalLongitudes : LongitudeMap) :
    List DetectedAspect :=
  List.insertionSort rankBefore (foundAspects transitLongitudes natalLongitudes)

/-! ## zodiac.js -/

/-- The list `WESTERN_SIGNS`. -/
def WESTERN_SIGNS : List String :=
  ["Aries", "Taurus", "Gemini", "Cancer", "Leo", "Virgo",
   "Libra", "Scorpio", "Sagittarius", "Capricorn", "Aquarius", "Pisces"]

/-- The code points removed by `String.prototype.trim`: the ECMAScript `WhiteSpace` and
`LineTerminator` productions. -/
def isJsWhitespace (c : Char) : Bool :=
  let n := c.toNat
  n = 0x09 || n = 0x0A || n = 0x0B || n = 0x0C || n = 0x0D || n = 0x20 || n = 0xA0 ||
  n = 0x1680 || (0x2000 ≤ n && n ≤ 0x200A) || n = 0x2028 || n = 0x2029 || n = 0x202F ||
  n = 0x205F || n = 0x3000 || n = 0xFEFF

/-- The method `String.prototype.trim`. -/
def jsTrim (s : String) : String :=
  String.mk ((s.data.dropWhile isJsWhitespace).reverse.dropWhile isJsWhitespace).reverse

/-- The method `String.prototype.toLowerCase` on the letters `A` to `Z`; every other character
is kept.  `normalizeSign` only compares the result with the lower-cased sign names, which are
made of ASCII letters other than `k`; no character outside `A` to `Z` has a lower-case form
made of those letters, so the comparison has the same outcome as in JavaScript. -/
def jsToLowerCase (s : String) : String := String.mk (s.data.map Char.toLower)

/-- The function `normalizeSign(sign)` for a string argument. -/
def normalizeSign (sign : String) : String :=
  let s := jsToLowerCase (jsTrim sign)
  if s = "" then ""
  else (WESTERN_SIGNS.find? fun x => decide (jsToLowerCase x = s)).getD ""

/-- The own properties of the object `map` in `getRulerPlanet`. -/
def rulerMap : List (String × String) :=
  [("Aries", "Mars"), ("Taurus", "Venus"), ("Gemini", "Mercury"), ("Cancer", "Moon"),
   ("Leo", "Sun"), ("Virgo", "Mercury"), ("Libra", "Venus"), ("Scorpio", "Mars"),
   ("Sagittarius", "Jupiter"), ("Capricorn", "Saturn"), ("Aquarius", "Uranus"),
   ("Pisces", "Neptune")]

/-- The function `getRulerPlanet(sign)`: the key looked up is a result of `normalizeSign`, so
it is a sign name or the empty string, and `map[s] || 'Sun'` is the table entry or `Sun`. -/
def getRulerPlanet (sign : String) : String :=
  let s := normalizeSign sign
  (rulerMap.lookup s).getD "Sun"

/-! ## scoring.js -/

/-- The function `clamp(n, lo, hi)`. -/
def clamp (n lo hi : ℚ) : ℚ := max lo (min hi n)

/-- The function `Math.round`: the nearest integer, a tie going up. -/
def jsRound (x : ℚ) : ℚ := ((⌊x + 1 / 2⌋ : ℤ) : ℚ)

/-- The five keys of `DOMAINS`. -/
inductive Domain where
  | Career | Fortune | Love | Social | Study
deriving DecidableEq, Repr

/-- The list `DOMAINS`. -/
def DOMAINS : List Domain :=
  [Domain.Career, Domain.Fortune, Domain.Love, Domain.Social, Domain.Study]

/-- The own properties of `DOMAIN_RELEVANCE[domain]`. -/
def DOMAIN_RELEVANCE : Domain → List (String × ℚ)
  | Domain.Career =>
    [("Sun", 6/10), ("Moon", 2/10), ("Mercury", 4/10), ("Venus", 1/10), ("Mars", 7/10),
     ("Jupiter", 4/10), ("Saturn", 8/10), ("Uranus", 3/10), ("Neptune", 1/10), ("Pluto", 3/10)]
  | Domain.Fortune =>
    [("Sun", 2/10), ("Moon", 1/10), ("Mercury", 3/10), ("Venus", 6/10), ("Mars", 2/10),
     ("Jupiter", 8/10), ("Saturn", 4/10), ("Uranus", 3/10), ("Neptune", 1/10), ("Pluto", 2/10)]
  | Domain.Love =>
    [("Sun", 2/10), ("Moon", 7/10), ("Mercury", 2/10), ("Venus", 9/10), ("Mars", 5/10),
     ("Jupiter", 2/10), ("Saturn", 1/10), ("Uranus", 2/10), ("Neptune", 5/10), ("Pluto", 3/10)]
  | Domain.Social =>
    [("Sun", 2/10), ("Moon", 5/10), ("Mercury", 7/10), ("Venus", 5/10), ("Mars", 2/10),
     ("Jupiter", 5/10), ("Saturn", 1/10), ("Uranus", 3/10), ("Neptune", 2/10), ("Pluto", 1/10)]
  | Domain.Study =>
    [("Sun", 2/10), ("Moon", 2/10), ("Mercury", 9/10), ("Venus", 1/10), ("Mars", 2/10),
     ("Jupiter", 4/10), ("Saturn", 6/10), ("Uranus", 3/10), ("Neptune", 1/10), ("Pluto", 1/10)]

/-- The property names every object literal inherits from `Object.prototype`; reading one of
them from a table yields a function or an object, never `undefined`. -/
def objectPrototypeKeys : List String :=
  ["constructor", "__defineGetter__", "__defineSetter__", "hasOwnProperty",
   "__lookupGetter__", "__lookupSetter__", "isPrototypeOf", "propertyIsEnumerable",
   "toString", "valueOf", "__proto__", "toLocaleString"]

/-- The expression `DOMAIN_RELEVANCE[domain][planet] ?? 0`: the own entry when there is one;
`0` when the property is absent; and, for an inherited property, a value that is not a number
(`none`), which `??` keeps because it is neither `null` nor `undefined`. -/
def relevanceOrZero (domain : Domain) (planet : String) : Option ℚ :=
  match (DOMAIN_RELEVANCE domain).lookup planet with
  | some r => some r
  | none => if planet ∈ objectPrototypeKeys then none else some 0

/-- The function `pairDomainRelevance(domain, transitPlanet, natalPlanet)`; `none` is `NaN`,
the value of `(ra + rb) / 1.5` as soon as `ra` or `rb` is not a number, which `Math.min` and
`Math.max` propagate. -/
def pairDomainRelevance (domain : Domain) (transitPlanet natalPlanet : String) : Option ℚ :=
  match relevanceOrZero domain transitPlanet, relevanceOrZero domain natalPlanet with
  | some ra, some rb => some (clamp ((ra + rb) / (3 / 2)) 0 1)
  | _, _ => none

/-- The function `tuneConjunctionPolarityFallback(transitBody, natalBody)`. -/
def tuneConjunctionPolarityFallback (transitBody natalBody : String) : ℚ :=
  if transitBody = "Venus" ∨ natalBody = "Venus" ∨ transitBody = "Moon" ∨ natalBody = "Moon"
  then 6/10
  else if transitBody = "Mercury" ∨ natalBody = "Mercury" then 5/10
  else if transitBody = "Jupiter" ∨ natalBody = "Jupiter" then 5/10
  else if transitBody = "Mars" ∨ natalBody = "Mars" ∨ transitBody = "Sun" ∨ natalBody = "Sun"
  then 3/10
  else if transitBody = "Saturn" ∨ natalBody = "Saturn" then -4/10
  else 0

/-- The own properties of `SIGN_BASE`, each row listed in the order of `DOMAINS`. -/
def SIGN_BASE : List (String × (Domain → ℚ)) :=
  let row (c f l so st : ℚ) : Domain → ℚ := fun d =>
    match d with
    | Domain.Career => c
    | Domain.Fortune => f
    | Domain.Love => l
    | Domain.Social => so
    | Domain.Study => st
  [("Aries",       row 2 0 0 1 (-1)),
   ("Taurus",      row 0 2 1 0 0),
   ("Gemini",      row 1 0 0 2 2),
   ("Cancer",      row 0 0 2 0 0),
   ("Leo",         row 2 0 1 1 (-1)),
   ("Virgo",       row 1 1 0 0 2),
   ("Libra",       row 0 0 2 1 0),
   ("Scorpio",     row 1 0 1 (-1) 0),
   ("Sagittarius", row 1 0 0 1 0),
   ("Capricorn",   row 2 1 (-1) (-1) 2),
   ("Aquarius",    row 1 0 0 1 1),
   ("Pisces",      row 0 0 1 0 0)]

/-- The expression `SIGN_BASE[s] || { Career: 0, Fortune: 0, Love: 0, Social: 0, Study: 0 }`
for a key `s` returned by `normalizeSign`. -/
def signBase (s : String) : Domain → ℚ :=
  (SIGN_BASE.lookup s).getD fun _ => 0

/-- The object `negCaps`. -/
def negCaps : Domain → ℚ
  | Domain.Social => -18
  | _ => -20

/-- The object `posCaps`. -/
def posCaps : Domain → ℚ
  | Domain.Social => 22
  | _ => 24

/-- The value of `pol` after the conjunction fallback. -/
def effectivePolarity (asp : DetectedAspect) : ℚ :=
  if asp.aspect = "Conjunction" ∧ asp.polarity = 0 then
    tuneConjunctionPolarityFallback asp.transitBody asp.natalBody
  else asp.polarity

/-- The value of `moonBoost`. -/
def moonBoost (asp : DetectedAspect) : ℚ := if asp.isMoonAspect then 112/100 else 1

/-- The value of `rulerBonus`. -/
def rulerBonus (ruler : String) (asp : DetectedAspect) : ℚ :=
  if asp.transitBody = ruler ∨ asp.natalBody = ruler then 112/100 else 1

/-- One round of the loop `for (const domain of DOMAINS)` for the aspect `asp`: a relevance
that is a number and `<= 0` skips the domain; otherwise the contribution is added to
`accum[domain]`, and a relevance that is `NaN` is not skipped and turns `accum[domain]` into
`NaN`. -/
def addContribution (ruler : String) (asp : DetectedAspect) (accum : Domain → Option ℚ)
    (domain : Domain) : Domain → Option ℚ :=
  match pairDomainRelevance domain asp.transitBody asp.natalBody with
  | some rel =>
    if rel ≤ 0 then accum
    else
      let contrib := asp.strength * asp.baseWeight * effectivePolarity asp * rel
        * moonBoost asp * rulerBonus ruler asp
      Function.update accum domain ((accum domain).map fun x => x + contrib)
  | none => Function.update accum domain none

/-- The object `accum` after the loop `for (const asp of top)`. -/
def accumulate (ruler : String) (top : List DetectedAspect) : Domain → Option ℚ :=
  top.foldl (fun accum asp => DOMAINS.foldl (addContribution ruler asp) accum) fun _ => some 0

/-- The final value of `scores[domain]`: `50 + base[domain]`, plus `10`, plus the clamped
`accum[domain]`, rounded and clamped to `0..100`; `NaN` stays `NaN`. -/
def domainScore (base : Domain → ℚ) (accum : Domain → Option ℚ) (domain : Domain) : Option ℚ :=
  (accum domain).map fun x =>
    clamp (jsRound (50 + base domain + 10 + clamp x (negCaps domain) (posCaps domain))) 0 100

/-- The power `2 ^ e` for an integer exponent. -/
def pow2 (e : ℤ) : ℚ :=
  if 0 ≤ e then ((2 ^ e.toNat : ℕ) : ℚ) else 1 / ((2 ^ (-e).toNat : ℕ) : ℚ)

/-- Rounding to the nearest integer, a tie going to the even neighbour. -/
def roundHalfEven (y : ℚ) : ℤ :=
  if y - ⌊y⌋ < 1 / 2 then ⌊y⌋
  else if 1 / 2 < y - ⌊y⌋ then ⌊y⌋ + 1
  else if ⌊y⌋ % 2 = 0 then ⌊y⌋ else ⌊y⌋ + 1

/-- The number of halvings that bring `n` below 2, at most `fuel` of them. -/
def log2Fuel : ℕ → ℕ → ℕ
  | 0, _ => 0
  | fuel + 1, n => if 2 ≤ n then log2Fuel fuel (n / 2) + 1 else 0

/-- The binary logarithm of a natural number, rounded down. -/
def natLog2 (n : ℕ) : ℕ := log2Fuel n n

/-- The binary exponent of a non-zero number: the `e` with `2 ^ e ≤ |x| < 2 ^ (e + 1)`. -/
def binade (x : ℚ) : ℤ :=
  let e : ℤ := (natLog2 x.num.natAbs : ℤ) - (natLog2 x.den : ℤ)
  if pow2 e ≤ |x| then e else e - 1

/-- The spacing of the binary64 numbers around `x`: 52 fraction bits under the leading bit,
and `2 ^ (-1074)` below `2 ^ (-1022)`. -/
def ulp (x : ℚ) : ℚ := pow2 (max (binade x) (-1022) - 52)

/-- The value of an arithmetic result or of a decimal literal as a JavaScript number: the
binary64 number nearest to `x`, a tie going to the even significand.  Magnitudes from
`2 ^ 1024` on, which JavaScript turns into `Infinity`, do not arise from the clamped scores. -/
def roundDouble (x : ℚ) : ℚ :=
  if x = 0 then 0 else (roundHalfEven (x / ulp x) : ℚ) * ulp x

/-- The expression `0.22 * scores.Career + 0.18 * scores.Fortune + 0.22 * scores.Love +
0.18 * scores.Social + 0.20 * scores.Study` as JavaScript evaluates it: every literal, every
product and every sum, taken from left to right, is rounded to binary64. -/
def weightedSum (c f l so st : ℚ) : ℚ :=
  roundDouble (roundDouble (roundDouble (roundDouble
    (roundDouble (roundDouble (22 / 100) * c) + roundDouble (roundDouble (18 / 100) * f))
    + roundDouble (roundDouble (22 / 100) * l))
    + roundDouble (roundDouble (18 / 100) * so))
    + roundDouble (roundDouble (20 / 100) * st))

/-- The value of `overall` computed from the five final domain scores. -/
def overallOf (career fortune love social study : Option ℚ) : Option ℚ :=
  match career, fortune, love, social, study with
  | some c, some f, some l, some so, some st =>
    some (clamp (jsRound (weightedSum c f l so st)) 0 100)
  | _, _, _, _, _ => none

/-- The order induced by the comparator of `pickTopExplanations`: `a` may stay in front of
`b` when the comparator is not positive. -/
def explainBefore (a b : DetectedAspect) : Prop :=
  let am : ℚ := if a.isMoonAspect then 1 else 0
  let bm : ℚ := if b.isMoonAspect then 1 else 0
  if bm ≠ am then bm - am ≤ 0 else b.strength - a.strength ≤ 0

instance : DecidableRel explainBefore := fun a b => by
  unfold explainBefore; infer_instance

instance : IsTotal DetectedAspect explainBefore :=
  ⟨fun a b => by
    unfold explainBefore
    cases a.isMoonAspect <;> cases b.isMoonAspect <;> simp <;> exact le_total _ _⟩

instance : IsTrans DetectedAspect explainBefore :=
  ⟨fun a b c => by
    unfold explainBefore
    cases a.isMoonAspect <;> cases b.isMoonAspect <;> cases c.isMoonAspect <;> simp <;>
      intro h1 h2 <;> exact le_trans h2 h1⟩

/-- The template string `transitBody-aspect-natalBody` used as the key of `seen`. -/
def explanationKey (a : DetectedAspect) : String :=
  a.transitBody ++ "-" ++ a.aspect ++ "-" ++ a.natalBody

/-- The deduplicating loop of `pickTopExplanations` over the rest of `sorted`, with the
current `seen` and `out`. -/
def pickLoop (n : Nat) : List DetectedAspect → List String → List DetectedAspect →
    List DetectedAspect
  | [], _, out => out
  | a :: rest, seen, out =>
    if explanationKey a ∈ seen then pickLoop n rest seen out
    else if (out ++ [a]).length ≥ n then out ++ [a]
    else pickLoop n rest (explanationKey a :: seen) (out ++ [a])

/-- The function `pickTopExplanations(aspects, n)`. -/
def pickTopExplanations (aspects : List DetectedAspect) (n : Nat) : List DetectedAspect :=
  pickLoop n (List.insertionSort explainBefore aspects) [] []

/-- The object `scores` returned by `scorePersonalDay`; `none` is `NaN`. -/
structure Scores where
  overall : Option ℚ
  career : Option ℚ
  fortune : Option ℚ
  love : Option ℚ
  social : Option ℚ
  study : Option ℚ
deriving DecidableEq

/-- The object returned by `scorePersonalDay`. -/
structure ScoreResult where
  scores : Scores
  topAspects : List DetectedAspect
deriving DecidableEq

/-- The function `scorePersonalDay({ sunSign, aspects })` for a string `sunSign`. -/
def scorePersonalDay (sunSign : String) (aspects : List DetectedAspect) : ScoreResult :=
  let s := normalizeSign sunSign
  let ruler := getRulerPlanet s
  let base := signBase s
  let top := aspects.take 25
  let accum := accumulate ruler top
  let career := domainScore base accum Domain.Career
  let fortune := domainScore base accum Domain.Fortune
  let love := domainScore base accum Domain.Love
  let social := domainScore base accum Domain.Social
  let study := domainScore base accum Domain.Study
  { scores :=
      { overall := overallOf career fortune love social study
        career := career
        fortune := fortune
        love := love
        social := social
        study := study }
    topAspects := pickTopExplanations aspects 8 }

/-! ## aspects.js, continued -/

/-- The function `aspectToHumanText(a)`. -/
def aspectToHumanText (a : DetectedAspect) : String :=
  let bodies := a.transitBody ++ " " ++ a.aspect ++ " natal " ++ a.natalBody
  let intensity :=
    if a.strength ≥ 75 / 100 then "strong"
    else if a.strength ≥ 45 / 100 then "moderate" else "mild"
  let tone :=
    if a.polarity > 0 then "supportive"
    else if a.polarity < 0 then "challenging" else "mixed"
  bodies ++ " (" ++ intensity ++ ", " ++ tone ++ ")"

/-! ## zodiac.js and planets.js, continued -/

/-- The remainder operator `x % m` of JavaScript for a positive `m`: the quotient is truncated
toward zero, so the result has the sign of `x`. -/
def jsRem (x m : ℚ) : ℚ :=
  x - m * ((if 0 ≤ x / m then ⌊x / m⌋ else ⌈x / m⌉ : ℤ) : ℚ)

/-- The element access `arr[idx]` for an integer `idx`; `none` is `undefined`. -/
def jsIndex {α : Type} (arr : List α) (idx : ℤ) : Option α :=
  if 0 ≤ idx then arr[idx.toNat]? else none

/-- The function `signFromLongitude(lonDeg)`. -/
def signFromLongitude (lonDeg : ℚ) : Option String :=
  let norm := jsRem (jsRem lonDeg 360 + 360) 360
  let idx := ⌊norm / 30⌋
  jsIndex WESTERN_SIGNS idx

/-- The function `norm360`, the same in `planets.js` and `ascendant.js`. -/
def norm360 (deg : ℚ) : ℚ :=
  let d := jsRem deg 360
  if d < 0 then d + 360 else d

/-! ## daily_picker.js -/

/-- The list `LUCK_COLORS`. -/
def LUCK_COLORS : List String :=
  ["Red", "Orange", "Yellow", "Green", "Blue", "Indigo", "Violet",
   "Pink", "Purple", "Teal", "Cyan", "Magenta",
   "Black", "White", "Gray", "Brown",
   "Gold", "Silver", "Navy", "Maroon"]

/-- The inner function `fmt(h24)` of `formatHourRange`, for an integer hour. -/
def fmt (h24 : ℤ) : String :=
  let ampm := if h24 ≥ 12 then "PM" else "AM"
  let h := Int.tmod h24 12
  let h := if h = 0 then 12 else h
  toString h ++ ampm

/-- The function `formatHourRange(startHour24)`, for an integer hour. -/
def formatHourRange (startHour24 : ℤ) : String :=
  let endHour24 := Int.tmod (startHour24 + 2) 24
  fmt startHour24 ++ "-" ++ fmt endHour24

/-- A generator closure: the state it has captured and the function that each call runs, which
returns a value and leaves a new state. -/
structure Rng (σ : Type) where
  state : σ
  next : σ → ℚ × σ

/-- One call `rng()`: the value returned and the generator afterwards. -/
def Rng.call {σ : Type} (rng : Rng σ) : ℚ × Rng σ :=
  ((rng.next rng.state).1, { rng with state := (rng.next rng.state).2 })

/-- The function `Math.imul` on 32-bit patterns. -/
def imul (x y : ℕ) : ℕ := (x * y) % 4294967296

/-- The function returned by `mulberry32`, on the 32-bit pattern of `a`. -/
def mulberry32Next (a : ℕ) : ℚ × ℕ :=
  let a := (a + 0x6D2B79F5) % 4294967296
  let t := imul (a ^^^ (a >>> 15)) (1 ||| a)
  let t := ((t + imul (t ^^^ (t >>> 7)) (61 ||| t)) % 4294967296) ^^^ t
  ((((t ^^^ (t >>> 14)) % 4294967296 : ℕ) : ℚ) / 4294967296, a)

/-- The function `mulberry32(seed)`. -/
def mulberry32 (seed : ℕ) : Rng ℕ :=
  { state := seed % 4294967296, next := mulberry32Next }

/-- The function `pickOne(rng, arr)`; the generator is not used again by any caller, so its
state after the call is not returned. -/
def pickOne {σ α : Type} (rng : Rng σ) (arr : List α) : Except String (Option α) :=
  if arr.length = 0 then Except.error "List is empty."
  else
    let idx := ⌊rng.call.1 * (arr.length : ℚ)⌋
    Except.ok (jsIndex arr idx)

/-- The call `copy.splice(idx, 1)` for an integer `idx`: a negative start counts from the end,
a start beyond the end removes nothing. -/
def jsSplice1 {α : Type} (copy : List α) (idx : ℤ) : List α :=
  let start : ℤ := if idx < 0 then max ((copy.length : ℤ) + idx) 0 else min idx copy.length
  copy.eraseIdx start.toNat

/-- The loop of `pickNUnique` with `k` rounds left. -/
def pickNLoop {σ α : Type} : ℕ → Rng σ → List α → List (Option α) → List (Option α)
  | 0, _, _, out => out
  | k + 1, rng, copy, out =>
    let idx := ⌊rng.call.1 * (copy.length : ℚ)⌋
    pickNLoop k rng.call.2 (jsSplice1 copy idx) (out ++ [jsIndex copy idx])

/-- The function `pickNUnique(rng, arr, n)` for a count `n`. -/
def pickNUnique {σ α : Type} (rng : Rng σ) (arr : List α) (n : ℕ) : List (Option α) :=
  pickNLoop (min n arr.length) rng arr []

/-- The object returned by `loadLists`. -/
structure ContentLists where
  lifeAdvices : List String
  suggestToDo : List String
  avoidToDo : List String
  dailyTasks : List String
  foods : List String
deriving DecidableEq

/-- The object returned by `getDailyContent`; `none` is `undefined`. -/
structure DailyContent where
  life_advice : Option String
  suggest_to_do : List (Option String)
  avoid_to_do : List (Option String)
  lucky_food : Option String
  daily_tasks : List (Option String)
  lucky_color : Option String
  lucky_numbers : List (Option ℕ)
  lucky_time : String
deriving DecidableEq

/-- The value of `startHour` for the generator `rngTime`. -/
def startHourOf {σ : Type} (rngTime : Rng σ) : ℤ :=
  8 + ⌊rngTime.call.1 * (21 - 8 + 1)⌋

/-- The function `getDailyContent({ userId, localDate, tz })` for string arguments.  The
digest of `hashToUint32` (the first four bytes of a SHA-256, little-endian) and the lists read
by `loadLists` are parameters. -/
def getDailyContent (hashToUint32 : String → ℕ) (lists : ContentLists)
    (userId localDate tz : String) : Except String DailyContent :=
  let seedBase := userId ++ "|" ++ localDate ++ "|" ++ tz
  let rngAdvice := mulberry32 (hashToUint32 (seedBase ++ "|advice"))
  let rngSuggest := mulberry32 (hashToUint32 (seedBase ++ "|suggest"))
  let rngAvoid := mulberry32 (hashToUint32 (seedBase ++ "|avoid"))
  let rngFood := mulberry32 (hashToUint32 (seedBase ++ "|food"))
  let rngTasks := mulberry32 (hashToUint32 (seedBase ++ "|tasks"))
  let rngColor := mulberry32 (hashToUint32 (seedBase ++ "|color"))
  let rngNumbers := mulberry32 (hashToUint32 (seedBase ++ "|numbers"))
  let rngTime := mulberry32 (hashToUint32 (seedBase ++ "|time"))
  if lists.lifeAdvices.length = 0 then Except.error "life_advices.txt is empty."
  else if lists.suggestToDo.length = 0 then Except.error "suggest_to_do.txt is empty."
  else if lists.avoidToDo.length = 0 then Except.error "avoid_to_do.txt is empty."
  else if lists.foods.length = 0 then Except.error "foods.txt is empty."
  else if lists.dailyTasks.length = 0 then Except.error "daily_tasks.txt is empty."
  else do
    let luckyColor ← pickOne rngColor LUCK_COLORS
    let luckyNumbers := pickNUnique rngNumbers (List.range' 1 99) 2
    let luckyTime := formatHourRange (startHourOf rngTime)
    let lifeAdvice ← pickOne rngAdvice lists.lifeAdvices
    let suggestToDo := pickNUnique rngSuggest lists.suggestToDo 2
    let avoidToDo := pickNUnique rngAvoid lists.avoidToDo 2
    let luckyFood ← pickOne rngFood lists.foods
    let dailyTasks := pickNUnique rngTasks lists.dailyTasks 3
    pure
      { life_advice := lifeAdvice
        suggest_to_do := suggestToDo
        avoid_to_do := avoidToDo
        lucky_food := luckyFood
        daily_tasks := dailyTasks
        lucky_color := luckyColor
        lucky_numbers := luckyNumbers
        lucky_time := luckyTime }

/-! ## routes/users.js and db/migrations.js: GET /daily-personal -/

/-- The parsed `natal_json` of a `users` row, as far as the handler reads it;
`risingSign` is `natal.ascendant?.risingSign`. -/
structure Natal where
  longitudes_deg : LongitudeMap
  sunSign : String
  moonSign : String
  risingSign : Option String
deriving DecidableEq

/-- The primary key `(user_id, local_date, tz)` of `daily_scores`, also the object
`meta.cache_key`. -/
structure CacheKey where
  userId : String
  localDate : String
  tz : String
deriving DecidableEq

/-- The object `payload.meta`; `cache_key` is absent until a cached payload is returned. -/
structure PayloadMeta where
  userId : String
  tz : String
  local_date : String
  anchored_local_noon : String
  anchored_utc : String
  cached : Bool
  cache_key : Option CacheKey
deriving DecidableEq

/-- The object `payload.natalSummary`. -/
structure NatalSummary where
  sunSign : String
  moonSign : String
  risingSign : Option String
deriving DecidableEq

/-- The response payload, which is also the value kept as `result_json`: both the stored text
and the response body are the JSON text of this object. -/
structure Payload where
  meta : PayloadMeta
  natalSummary : NatalSummary
  scores : Scores
  explanations : List String
  daily_content : DailyContent
deriving DecidableEq

/-- A row of the table `daily_scores`. -/
structure DailyRow where
  user_id : String
  local_date : String
  tz : String
  anchored_local_noon : String
  anchored_utc : String
  result_json : Payload
  created_at : String
deriving DecidableEq

/-- The two tables: `users` as the pairs of `id` and parsed `natal_json`, and `daily_scores`. -/
structure Db where
  users : List (String × Natal)
  daily_scores : List DailyRow
deriving DecidableEq

/-- The result of `getLocalNoonUTCDate`: `localNoon.toISO()`, `utcDate.toISOString()` and the
instant `utcDate` in epoch milliseconds. -/
structure NoonAnchor where
  localNoonText : String
  utcText : String
  utcDate : ℤ
deriving DecidableEq

/-- The collaborators that do not change between requests: the local-noon anchor of a time zone
and date, the ephemeris, the digest and the content lists. -/
structure Env where
  getLocalNoonUTCDate : String → String → Except String NoonAnchor
  getLongitudesDeg : ℤ → LongitudeMap
  hashToUint32 : String → ℕ
  lists : ContentLists

/-- What a request reads from the clock: the result of `getLocalDateKey({ tz, dateStr })`, which
is today's date in `tz` when no date is given, and `new Date().toISOString()`. -/
structure RequestClock where
  getLocalDateKey : String → String → Except String String
  now : String

/-- The query parameters of a request; `none` is an absent parameter. -/
structure Query where
  userId : Option String
  tz : Option String
  date : Option String
  refresh : Option String
deriving DecidableEq

/-- What the handler does with the response: `res.json(payload)`,
`res.status(code).json({ error, message })`, or `next(err)` for a thrown error. -/
inductive Response where
  | json (payload : Payload)
  | status (code : ℕ) (error message : String)
  | next (err : String)
deriving DecidableEq

/-- The primary key of a row. -/
def DailyRow.key (r : DailyRow) : CacheKey :=
  { userId := r.user_id, localDate := r.local_date, tz := r.tz }

/-- The query `SELECT result_json FROM daily_scores WHERE user_id = ? AND local_date = ? AND
tz = ?` of `db.get`: the first matching row. -/
def selectDaily (rows : List DailyRow) (userId localDate tz : String) : Option DailyRow :=
  rows.find? fun r => decide (r.user_id = userId ∧ r.local_date = localDate ∧ r.tz = tz)

/-- The statement `INSERT INTO daily_scores ... ON CONFLICT(user_id, local_date, tz) DO UPDATE
SET ...`: a row with the same key gets the four other columns of the new row, otherwise the
new row is added. -/
def upsertDaily (rows : List DailyRow) (r : DailyRow) : List DailyRow :=
  if rows.any (fun x => decide (x.key = r.key)) then
    rows.map fun x =>
      if x.key = r.key then
        { x with
          anchored_local_noon := r.anchored_local_noon
          anchored_utc := r.anchored_utc
          result_json := r.result_json
          created_at := r.created_at }
      else x
  else rows ++ [r]

/-- Steps 3 to 5 of the handler and the assembly of `payload`, for the natal record of the
user; an error is a thrown exception. -/
def computeDaily (env : Env) (userId tz localDateKey : String) (natal : Natal) :
    Except String (NoonAnchor × Payload) := do
  let anchor ← env.getLocalNoonUTCDate tz localDateKey
  let transitLongitudes := env.getLongitudesDeg anchor.utcDate
  let aspects := computeTransitNatalAspects transitLongitudes natal.longitudes_deg
  let scored := scorePersonalDay natal.sunSign aspects
  let explanations := scored.topAspects.map aspectToHumanText
  let dailyContent ← getDailyContent env.hashToUint32 env.lists userId localDateKey tz
  pure (anchor,
    { meta :=
        { userId := userId
          tz := tz
          local_date := localDateKey
          anchored_local_noon := anchor.localNoonText
          anchored_utc := anchor.utcText
          cached := false
          cache_key := none }
      natalSummary :=
        { sunSign := natal.sunSign, moonSign := natal.moonSign, risingSign := natal.risingSign }
      scores := scored.scores
      explanations := explanations
      daily_content := dailyContent })

/-- The payload returned on a cache hit: the stored payload with `meta.cached = true` and
`meta.cache_key` set. -/
def annotateCached (payload : Payload) (userId localDateKey tz : String) : Payload :=
  { payload with
    meta :=
      { payload.meta with
        cached := true
        cache_key := some { userId := userId, localDate := localDateKey, tz := tz } } }

/-- The handler of `GET /daily-personal`: the response and the database afterwards. -/
def dailyPersonal (env : Env) (clock : RequestClock) (db : Db) (q : Query) : Response × Db :=
  let userId := jsTrim (q.userId.getD "")
  let tz := jsTrim (q.tz.getD "")
  let dateStr := jsTrim (q.date.getD "")
  let refresh := decide (jsTrim (q.refresh.getD "") = "1")
  if userId = "" then (Response.status 400 "BadRequest" "Missing userId.", db)
  else if tz = "" then
    (Response.status 400 "BadRequest" "Missing tz (IANA), e.g. Asia/Tokyo.", db)
  else
    match clock.getLocalDateKey tz dateStr with
    | Except.error e => (Response.next e, db)
    | Except.ok localDateKey =>
      match (if refresh then none else selectDaily db.daily_scores userId localDateKey tz) with
      | some cached => (Response.json (annotateCached cached.result_json userId localDateKey tz), db)
      | none =>
        match db.users.lookup userId with
        | none => (Response.status 404 "NotFound" "User not found.", db)
        | some natal =>
          match computeDaily env userId tz localDateKey natal with
          | Except.error e => (Response.next e, db)
          | Except.ok (anchor, payload) =>
            (Response.json payload,
              { db with
                daily_scores :=
                  upsertDaily db.daily_scores
                    { user_id := userId
                      local_date := localDateKey
                      tz := tz
                      anchored_local_noon := anchor.localNoonText
                      anchored_utc := anchor.utcText
                      result_json := payload
                      created_at := clock.now } })

/-- The statement `INSERT INTO users` of `POST /users`: one new row under the new id; an id
that the table already holds violates its primary key and the statement fails. -/
def insertUser (db : Db) (id : String) (natal : Natal) : Except String Db :=
  match db.users.lookup id with
  | some _ => Except.error "SQLITE_CONSTRAINT: UNIQUE constraint failed: users.id"
  | none => Except.ok { db with users := db.users ++ [(id, natal)] }

/-! ## Notions used to state the properties -/

/-- The score of a domain in the object `scores`. -/
def Scores.ofDomain (r : Scores) : Domain → Option ℚ
  | Domain.Career => r.career
  | Domain.Fortune => r.fortune
  | Domain.Love => r.love
  | Domain.Social => r.social
  | Domain.Study => r.study

/-- The ten body names of `getLongitudesDeg`, the keys of every relevance table. -/
def BODIES : List String :=
  ["Sun", "Moon", "Mercury", "Venus", "Mars", "Jupiter", "Saturn", "Uranus", "Neptune", "Pluto"]

/-- The table entry `relevance[domain][body]` of one of the ten bodies. -/
def relevance (domain : Domain) (body : String) : ℚ :=
  ((DOMAIN_RELEVANCE domain).lookup body).getD 0

/-- What one aspect does to `accum[domain]` in the loop over `DOMAINS`. -/
def stepDomain (ruler : String) (asp : DetectedAspect) (domain : Domain) (x : Option ℚ) :
    Option ℚ :=
  match pairDomainRelevance domain asp.transitBody asp.natalBody with
  | some rel =>
    if rel ≤ 0 then x
    else x.map fun v => v + asp.strength * asp.baseWeight * effectivePolarity asp * rel
      * moonBoost asp * rulerBonus ruler asp
  | none => none

/-- The triple by which the explanations are meant to be told apart. -/
def tripleOf (a : DetectedAspect) : String × String × String :=
  (a.transitBody, a.aspect, a.natalBody)

/-- The entries of a list whose key is not in `seen` and not the key of an earlier entry. -/
def keepFirst : List String → List DetectedAspect → List DetectedAspect
  | _, [] => []
  | seen, a :: l =>
    if explanationKey a ∈ seen then keepFirst seen l
    else a :: keepFirst (explanationKey a :: seen) l

/-- A generator whose every call returns a value in `[0, 1)`. -/
def Rng.InUnit {σ : Type} (rng : Rng σ) : Prop :=
  ∀ s : σ, 0 ≤ (rng.next s).1 ∧ (rng.next s).1 < 1

/-- The seed string of a category: `seedBase` followed by the category suffix. -/
def categorySeed (userId localDate tz suffix : String) : String :=
  userId ++ "|" ++ localDate ++ "|" ++ tz ++ suffix

/-- The element read by `pickOne(rng, arr)` when it does not throw. -/
def pickOneValue {σ α : Type} (rng : Rng σ) (arr : List α) : Option α :=
  jsIndex arr ⌊rng.call.1 * (arr.length : ℚ)⌋

/-- All five source lists have an entry. -/
def ContentLists.Valid (lists : ContentLists) : Prop :=
  0 < lists.lifeAdvices.length ∧ 0 < lists.suggestToDo.length ∧ 0 < lists.avoidToDo.length ∧
    0 < lists.foods.length ∧ 0 < lists.dailyTasks.length

instance (lists : ContentLists) : Decidable lists.Valid := by
  unfold ContentLists.Valid; infer_instance

/-- The row of `Leo` in `SIGN_BASE`. -/
def leoFlavor : Domain → ℤ
  | Domain.Career => 2
  | Domain.Fortune => 0
  | Domain.Love => 1
  | Domain.Social => 1
  | Domain.Study => -1

/-- The row written by the handler for a computed payload. -/
def rowOf (clock : RequestClock) (userId tz localDateKey : String) (anchor : NoonAnchor)
    (payload : Payload) : DailyRow :=
  { user_id := userId
    local_date := localDateKey
    tz := tz
    anchored_local_noon := anchor.localNoonText
    anchored_utc := anchor.utcText
    result_json := payload
    created_at := clock.now }

/-- The constraint `PRIMARY KEY (user_id, local_date, tz)` of `daily_scores`. -/
def Db.PrimaryKeyOk (db : Db) : Prop := (db.daily_scores.map DailyRow.key).Nodup

/-- The constraint `FOREIGN KEY (user_id) REFERENCES users(id)` of `daily_scores`. -/
def Db.ForeignKeyOk (db : Db) : Prop :=
  ∀ r ∈ db.daily_scores, ∃ natal, db.users.lookup r.user_id = some natal

/-- The response carries a payload that was computed by this request, not read from the
cache. -/
def Response.isComputed : Response → Bool
  | Response.json payload => !payload.meta.cached
  | _ => false

/-- The databases that the routes can produce from the empty one: `POST /users` inserts a
user, `GET /daily-personal` may upsert a cached day; no route deletes a row. -/
inductive Db.Reachable : Db → Prop
  | empty : Db.Reachable ⟨[], []⟩
  | addUser {db db₁ : Db} (id : String) (natal : Natal) :
      Db.Reachable db → insertUser db id natal = Except.ok db₁ → Db.Reachable db₁
  | daily {db : Db} (env : Env) (clock : RequestClock) (q : Query) :
      Db.Reachable db → Db.Reachable (dailyPersonal env clock db q).2

/-- An example of the fixed collaborators: every date has its noon anchor, the only transit
body is the Sun at 120 degrees, and each content list has one entry. -/
def exampleEnv : Env :=
  { getLocalNoonUTCDate := fun _ d => Except.ok ⟨d ++ "T12:00", d ++ "T03:00Z", 0⟩
    getLongitudesDeg := fun _ => [("Sun", 120)]
    hashToUint32 := fun _ => 7
    lists := ⟨["a"], ["s"], ["v"], ["t"], ["f"]⟩ }

/-- An example clock reading at the instant `now`: a given date is its own key. -/
def exampleClock (now : String) : RequestClock :=
  { getLocalDateKey := fun _ d => Except.ok d, now := now }

/-- An example database: one user with the natal Sun at 0 degrees and no cached day. -/
def exampleDb : Db :=
  { users := [("u1", ⟨[("Sun", 0)], "Leo", "Aries", some "Virgo"⟩)], daily_scores := [] }

/-- An example request for user `u1` on 2026-01-06 in Asia/Tokyo. -/
def exampleQuery (refresh : Option String) : Query :=
  { userId := some "u1", tz := some "Asia/Tokyo", date := some "2026-01-06", refresh := refresh }

/-- The weighted sum of the five domain scores in exact arithmetic. -/
def exactSum (c f l so st : ℚ) : ℚ :=
  22 / 100 * c + 18 / 100 * f + 22 / 100 * l + 18 / 100 * so + 20 / 100 * st

/-- The overall score computed in exact arithmetic: the weighted sum rounded to the nearest
integer, a tie going up, and clamped to `0..100`. -/
def overallExact (career fortune love social study : Option ℚ) : Option ℚ :=
  match career, fortune, love, social, study with
  | some c, some f, some l, some so, some st =>
    some (clamp (jsRound (exactSum c f l so st)) 0 100)
  | _, _, _, _, _ => none

/-! ## Properties of the aspect detector -/

theorem rankBefore_iff (a b : DetectedAspect) : rankBefore a b ↔ rankKey b ≤ rankKey a := by
  unfold rankBefore
  exact sub_nonpos

theorem mem_foundAspects (transit natal : LongitudeMap) (e : DetectedAspect) :
    e ∈ foundAspects transit natal ↔
      ∃ t ∈ transit, ∃ n ∈ natal, ∃ asp ∈ ASPECTS,
        inOrb t.1 t.2 n.1 n.2 asp ∧ e = mkAspect t.1 t.2 n.1 n.2 asp := by
  unfold foundAspects
  simp only [List.mem_flatMap, List.mem_map, List.mem_filter, decide_eq_true_eq]
  constructor
  · rintro ⟨t, ht, n, hn, asp, ⟨hasp, hin⟩, rfl⟩
    exact ⟨t, ht, n, hn, asp, hasp, hin, rfl⟩
  · rintro ⟨t, ht, n, hn, asp, hasp, hin, rfl⟩
    exact ⟨t, ht, n, hn, asp, ⟨hasp, hin⟩, rfl⟩

theorem mem_computeTransitNatalAspects (transit natal : LongitudeMap) (e : DetectedAspect) :
    e ∈ computeTransitNatalAspects transit natal ↔ e ∈ foundAspects transit natal :=
  (List.perm_insertionSort rankBefore _).mem_iff

theorem sorted_computeTransitNatalAspects (transit natal : LongitudeMap) :
    List.Sorted rankBefore (computeTransitNatalAspects transit natal) :=
  List.sorted_insertionSort rankBefore _

theorem orbForPair_pos (a b name : String) : 0 < orbForPair a b name := by
  unfold orbForPair
  split_ifs <;> norm_num

theorem orbForPair_values (a b name : String) :
    orbForPair a b name = 4 ∨ orbForPair a b name = 5 ∨ orbForPair a b name = 6 ∨
      orbForPair a b name = 8 := by
  unfold orbForPair
  split_ifs <;> simp

/-- Filtering a concatenation of blocks when only the block of `x` can pass the filter. -/
theorem filter_flatMap_unique {α β : Type} (p : β → Bool) (g : α → List β) (x : α) :
    ∀ l : List α, l.Nodup → x ∈ l → (∀ y ∈ l, y ≠ x → ∀ b ∈ g y, p b = false) →
      (l.flatMap g).filter p = (g x).filter p := by
  intro l
  induction l with
  | nil => intro _ hx; simp at hx
  | cons y l ih =>
    intro hnd hx hrej
    rw [List.nodup_cons] at hnd
    rw [List.flatMap_cons, List.filter_append]
    by_cases hyx : y = x
    · subst hyx
      have hrest : (l.flatMap g).filter p = [] := by
        rw [List.filter_eq_nil_iff]
        intro b hb
        rw [List.mem_flatMap] at hb
        obtain ⟨z, hz, hbz⟩ := hb
        have hzy : z ≠ y := fun h => hnd.1 (h ▸ hz)
        simp [hrej z (List.mem_cons_of_mem _ hz) hzy b hbz]
      rw [hrest, List.append_nil]
    · have hxl : x ∈ l := by
        rcases List.mem_cons.mp hx with h | h
        · exact absurd h.symm hyx
        · exact h
      have hhead : (g y).filter p = [] := by
        rw [List.filter_eq_nil_iff]
        intro b hb
        simp [hrej y (List.mem_cons_self _ _) hyx b hb]
      rw [hhead, List.nil_append]
      exact ih hnd.2 hxl fun z hz hzx => hrej z (List.mem_cons_of_mem _ hz) hzx


theorem map_filter_eq_flatMap {α β : Type} (q : α → Bool) (f : α → β) (l : List α) :
    (l.filter q).map f = l.flatMap fun a => if q a then [f a] else [] := by
  induction l with
  | nil => rfl
  | cons a l ih =>
    rw [List.flatMap_cons, ← ih]
    by_cases h : q a <;> simp [List.filter_cons, h]

theorem ASPECTS_names_nodup : (ASPECTS.map AspectDef.name).Nodup := by decide

theorem fst_ne_of_ne {l : LongitudeMap} (hl : (l.map Prod.fst).Nodup) {x y : String × ℚ}
    (hx : x ∈ l) (hy : y ∈ l) (hne : y ≠ x) : y.1 ≠ x.1 :=
  fun h => hne (List.inj_on_of_nodup_map hl hy hx h)

theorem filter_foundAspects_triple (transit natal : LongitudeMap)
    (ht : (transit.map Prod.fst).Nodup) (hn : (natal.map Prod.fst).Nodup)
    (t : String × ℚ) (htm : t ∈ transit) (n : String × ℚ) (hnm : n ∈ natal)
    (A : AspectDef) (hA : A ∈ ASPECTS) (hin : inOrb t.1 t.2 n.1 n.2 A) :
    (foundAspects transit natal).filter
        (fun e => decide (e.transitBody = t.1 ∧ e.natalBody = n.1 ∧ e.aspect = A.name)) =
      [mkAspect t.1 t.2 n.1 n.2 A] := by
  unfold foundAspects
  rw [filter_flatMap_unique _ _ t transit ht.of_map htm, filter_flatMap_unique _ _ n natal
    hn.of_map hnm, map_filter_eq_flatMap, filter_flatMap_unique _ _ A ASPECTS
    ASPECTS_names_nodup.of_map hA]
  · simp [hin, mkAspect]
  · intro B hB hBA b hb
    have hname : B.name ≠ A.name :=
      fun h => hBA (List.inj_on_of_nodup_map ASPECTS_names_nodup hB hA h)
    split_ifs at hb
    · rw [List.mem_singleton] at hb
      subst hb
      simp [mkAspect, hname]
    · simp at hb
  · intro y hy hyn b hb
    have hkey := fst_ne_of_ne hn hnm hy hyn
    simp only [List.mem_map, List.mem_filter] at hb
    obtain ⟨B, _, rfl⟩ := hb
    simp [mkAspect, hkey]
  · intro y hy hyt b hb
    have hkey := fst_ne_of_ne ht htm hy hyt
    simp only [List.mem_flatMap, List.mem_map, List.mem_filter] at hb
    obtain ⟨m, _, B, _, rfl⟩ := hb
    simp [mkAspect, hkey]


theorem strength_mkAspect (t : String) (lt : ℚ) (n : String) (ln : ℚ) (A : AspectDef) :
    (mkAspect t lt n ln A).strength =
      1 - |angleSepDeg lt ln - A.angle| / orbForPair t n A.name := rfl

/-- C2: for longitude objects (distinct keys) the detector returns, as a set, exactly the
records of the triples (transit body, natal body, table aspect) whose distance from the exact
angle is within the orb, each exactly once and nothing else; the orb is 5 or 4 for a Sextile and
8 or 6 otherwise (the larger value when Sun or Moon is in the pair); the strength is
`1 - distance / orb`, which is 1 at the exact angle and 0 at the edge of the orb; and a pair
beyond the orb of all five aspects has no record. -/
theorem computeTransitNatalAspects_entries (transit natal : LongitudeMap)
    (ht : (transit.map Prod.fst).Nodup) (hn : (natal.map Prod.fst).Nodup) :
    (∀ e, e ∈ computeTransitNatalAspects transit natal ↔
        ∃ t ∈ transit, ∃ n ∈ natal, ∃ A ∈ ASPECTS,
          |angleSepDeg t.2 n.2 - A.angle| ≤ orbForPair t.1 n.1 A.name ∧
            e = mkAspect t.1 t.2 n.1 n.2 A) ∧
    (∀ t ∈ transit, ∀ n ∈ natal, ∀ A ∈ ASPECTS,
        |angleSepDeg t.2 n.2 - A.angle| ≤ orbForPair t.1 n.1 A.name →
          (computeTransitNatalAspects transit natal).filter
              (fun e => decide (e.transitBody = t.1 ∧ e.natalBody = n.1 ∧ e.aspect = A.name)) =
            [mkAspect t.1 t.2 n.1 n.2 A]) ∧
    (∀ t ∈ transit, ∀ n ∈ natal,
        (∀ A ∈ ASPECTS, orbForPair t.1 n.1 A.name < |angleSepDeg t.2 n.2 - A.angle|) →
          ∀ e ∈ computeTransitNatalAspects transit natal,
            ¬ (e.transitBody = t.1 ∧ e.natalBody = n.1)) ∧
    (∀ (t : String) (lt : ℚ) (n : String) (ln : ℚ) (A : AspectDef),
        orbForPair t n A.name =
          (if A.name = "Sextile" then
            (if t = "Sun" ∨ n = "Sun" ∨ t = "Moon" ∨ n = "Moon" then 5 else 4)
          else (if t = "Sun" ∨ n = "Sun" ∨ t = "Moon" ∨ n = "Moon" then 8 else 6)) ∧
        (mkAspect t lt n ln A).strength =
          1 - |angleSepDeg lt ln - A.angle| / orbForPair t n A.name ∧
        (angleSepDeg lt ln = A.angle → (mkAspect t lt n ln A).strength = 1) ∧
        (|angleSepDeg lt ln - A.angle| = orbForPair t n A.name →
          (mkAspect t lt n ln A).strength = 0)) := by
  refine ⟨?_, ?_, ?_, ?_⟩
  · intro e
    rw [mem_computeTransitNatalAspects, mem_foundAspects]
    rfl
  · intro t htm n hnm A hA hin
    have hperm := (List.perm_insertionSort rankBefore (foundAspects transit natal)).filter
      (fun e => decide (e.transitBody = t.1 ∧ e.natalBody = n.1 ∧ e.aspect = A.name))
    rw [filter_foundAspects_triple transit natal ht hn t htm n hnm A hA hin] at hperm
    exact List.perm_singleton.mp hperm
  · intro t htm n hnm hout e he
    rw [mem_computeTransitNatalAspects, mem_foundAspects] at he
    obtain ⟨t', ht', n', hn', A, hA, hin, rfl⟩ := he
    rintro ⟨h1, h2⟩
    have e1 : t' = t := List.inj_on_of_nodup_map ht ht' htm h1
    have e2 : n' = n := List.inj_on_of_nodup_map hn hn' hnm h2
    subst e1 e2
    exact absurd hin (not_le.mpr (hout A hA))
  · intro t lt n ln A
    refine ⟨?_, rfl, ?_, ?_⟩
    · unfold orbForPair
      simp only [or_assoc]
    · intro h
      rw [strength_mkAspect, h, sub_self, abs_zero, zero_div, sub_zero]
    · intro h
      rw [strength_mkAspect, h, div_self (orbForPair_pos t n A.name).ne', sub_self]

/-- C2, at a concrete input: transit Sun at 8 and Moon at 123 against natal Sun at 0 and Venus
at 122.5 has exactly one Moon-Venus record among the conjunctions. -/
theorem computeTransitNatalAspects_entries_witness :
    ([("Sun", (8 : ℚ)), ("Moon", 123)].map Prod.fst).Nodup ∧
    ([("Sun", (0 : ℚ)), ("Venus", 245 / 2)].map Prod.fst).Nodup ∧
    (computeTransitNatalAspects [("Sun", 8), ("Moon", 123)] [("Sun", 0), ("Venus", 245 / 2)]).filter
        (fun e => decide (e.transitBody = "Moon" ∧ e.natalBody = "Venus" ∧
          e.aspect = "Conjunction")) =
      [mkAspect "Moon" 123 "Venus" (245 / 2) ⟨"Conjunction", 0, 10, 0⟩] :=
  ⟨by decide, by decide,
    (computeTransitNatalAspects_entries [("Sun", 8), ("Moon", 123)]
      [("Sun", 0), ("Venus", 245 / 2)] (by decide) (by decide)).2.1
      ("Moon", 123) (by simp) ("Venus", 245 / 2) (by simp) ⟨"Conjunction", 0, 10, 0⟩
      (by simp [ASPECTS]) (by decide!)⟩

/-- C3, as stated, fails: transit Sun at 8 against natal Sun at 0 is a conjunction at exactly
the orb, and its record has strength 0. -/
theorem strength_pos_counterexample :
    ¬ ∀ e ∈ computeTransitNatalAspects [("Sun", 8)] [("Sun", 0)],
        0 < e.strength ∧ e.strength ≤ 1 := by
  decide!

/-- C3, amended: every record returned by the detector has a strength in the closed interval
from 0 to 1, and the strength is 0 exactly when the distance from the exact angle equals the
orb. -/
theorem strength_mem_Icc (transit natal : LongitudeMap) (e : DetectedAspect)
    (he : e ∈ computeTransitNatalAspects transit natal) :
    0 ≤ e.strength ∧ e.strength ≤ 1 ∧
      (e.strength = 0 ↔ e.distance_from_exact_deg = e.orb_deg) := by
  rw [mem_computeTransitNatalAspects, mem_foundAspects] at he
  obtain ⟨t, _, n, _, A, _, hin, rfl⟩ := he
  have hpos := orbForPair_pos t.1 n.1 A.name
  unfold inOrb at hin
  show 0 ≤ 1 - |angleSepDeg t.2 n.2 - A.angle| / orbForPair t.1 n.1 A.name ∧
    1 - |angleSepDeg t.2 n.2 - A.angle| / orbForPair t.1 n.1 A.name ≤ 1 ∧
    (1 - |angleSepDeg t.2 n.2 - A.angle| / orbForPair t.1 n.1 A.name = 0 ↔
      |angleSepDeg t.2 n.2 - A.angle| = orbForPair t.1 n.1 A.name)
  have h1 : |angleSepDeg t.2 n.2 - A.angle| / orbForPair t.1 n.1 A.name ≤ 1 :=
    (div_le_one hpos).mpr hin
  have h0 : 0 ≤ |angleSepDeg t.2 n.2 - A.angle| / orbForPair t.1 n.1 A.name :=
    div_nonneg (abs_nonneg _) hpos.le
  refine ⟨by linarith, by linarith, ?_⟩
  rw [sub_eq_zero, eq_comm, div_eq_one_iff_eq hpos.ne']

/-- C3, amended, at a concrete input: the record of transit Sun at 8 against natal Sun at 0. -/
theorem strength_mem_Icc_witness :
    mkAspect "Sun" 8 "Sun" 0 ⟨"Conjunction", 0, 10, 0⟩ ∈
        computeTransitNatalAspects [("Sun", 8)] [("Sun", 0)] ∧
      (0 : ℚ) ≤ (mkAspect "Sun" 8 "Sun" 0 ⟨"Conjunction", 0, 10, 0⟩).strength ∧
      (mkAspect "Sun" 8 "Sun" 0 ⟨"Conjunction", 0, 10, 0⟩).strength ≤ 1 :=
  ⟨by decide!,
    (strength_mem_Icc [("Sun", 8)] [("Sun", 0)] _ (by decide!)).1,
    (strength_mem_Icc [("Sun", 8)] [("Sun", 0)] _ (by decide!)).2.1⟩

/-- Every record of the detector is the record of some pair and table row. -/
theorem exists_mkAspect_of_mem {transit natal : LongitudeMap} {e : DetectedAspect}
    (he : e ∈ computeTransitNatalAspects transit natal) :
    ∃ (t : String) (lt : ℚ) (n : String) (ln : ℚ) (A : AspectDef),
      A ∈ ASPECTS ∧ inOrb t lt n ln A ∧ e = mkAspect t lt n ln A := by
  rw [mem_computeTransitNatalAspects, mem_foundAspects] at he
  obtain ⟨t, _, n, _, A, hA, hin, rfl⟩ := he
  exact ⟨t.1, t.2, n.1, n.2, A, hA, hin, rfl⟩

/-- C4: the list returned by the detector is non-increasing in the key `strength + 0.05` for a
record that involves the Moon and `strength` otherwise, for adjacent entries and hence for any
two entries in list order; the stored strength of every record, Moon or not, is
`1 - distance / orb` with no bonus added. -/
theorem computeTransitNatalAspects_sorted (transit natal : LongitudeMap) :
    List.Chain'
        (fun a b : DetectedAspect =>
          a.strength + (if a.transitBody = "Moon" ∨ a.natalBody = "Moon" then 5 / 100 else 0) ≥
            b.strength + (if b.transitBody = "Moon" ∨ b.natalBody = "Moon" then 5 / 100 else 0))
        (computeTransitNatalAspects transit natal) ∧
    List.Pairwise
        (fun a b : DetectedAspect =>
          a.strength + (if a.transitBody = "Moon" ∨ a.natalBody = "Moon" then 5 / 100 else 0) ≥
            b.strength + (if b.transitBody = "Moon" ∨ b.natalBody = "Moon" then 5 / 100 else 0))
        (computeTransitNatalAspects transit natal) ∧
    (∀ e ∈ computeTransitNatalAspects transit natal,
        (e.isMoonAspect = true ↔ (e.transitBody = "Moon" ∨ e.natalBody = "Moon")) ∧
        e.strength = 1 - e.distance_from_exact_deg / e.orb_deg ∧
        e.distance_from_exact_deg = |e.separation_deg - e.angle| ∧
        e.orb_deg = orbForPair e.transitBody e.natalBody e.aspect) := by
  have hkey : ∀ e ∈ computeTransitNatalAspects transit natal,
      rankKey e =
        e.strength + (if e.transitBody = "Moon" ∨ e.natalBody = "Moon" then 5 / 100 else 0) := by
    intro e he
    obtain ⟨t, lt, n, ln, A, _, _, rfl⟩ := exists_mkAspect_of_mem he
    simp [rankKey, mkAspect]
  have hpw : List.Pairwise
      (fun a b : DetectedAspect =>
        a.strength + (if a.transitBody = "Moon" ∨ a.natalBody = "Moon" then 5 / 100 else 0) ≥
          b.strength + (if b.transitBody = "Moon" ∨ b.natalBody = "Moon" then 5 / 100 else 0))
      (computeTransitNatalAspects transit natal) := by
    refine List.Pairwise.imp_of_mem ?_ (sorted_computeTransitNatalAspects transit natal)
    intro a b ha hb hab
    rw [rankBefore_iff, hkey a ha, hkey b hb] at hab
    exact hab
  refine ⟨List.Pairwise.chain' hpw, hpw, ?_⟩
  intro e he
  obtain ⟨t, lt, n, ln, A, _, _, rfl⟩ := exists_mkAspect_of_mem he
  simp [mkAspect]

/-- C5: in every record of the detector a Conjunction has polarity +1 when Venus or Jupiter is
one of the two bodies, otherwise -1 when Saturn is one of them, otherwise 0; every other aspect
has the polarity of its table row (Sextile +1, Square -0.55, Trine +1, Opposition -0.65)
whatever the bodies. -/
theorem polarity_computeTransitNatalAspects (transit natal : LongitudeMap) (e : DetectedAspect)
    (he : e ∈ computeTransitNatalAspects transit natal) :
    (e.aspect = "Conjunction" →
      e.polarity =
        if e.transitBody = "Venus" ∨ e.natalBody = "Venus" ∨ e.transitBody = "Jupiter" ∨
            e.natalBody = "Jupiter" then 1
        else if e.transitBody = "Saturn" ∨ e.natalBody = "Saturn" then -1
        else 0) ∧
    (e.aspect ≠ "Conjunction" →
      (e.aspect = "Sextile" ∧ e.polarity = 1) ∨ (e.aspect = "Square" ∧ e.polarity = -55 / 100) ∨
        (e.aspect = "Trine" ∧ e.polarity = 1) ∨
        (e.aspect = "Opposition" ∧ e.polarity = -65 / 100)) := by
  obtain ⟨t, lt, n, ln, A, hA, _, rfl⟩ := exists_mkAspect_of_mem he
  simp only [ASPECTS, List.mem_cons, List.mem_singleton, List.not_mem_nil, or_false] at hA
  rcases hA with rfl | rfl | rfl | rfl | rfl <;>
    simp [mkAspect, conjunctionPolarity]

/-- C5, at a concrete input: the Moon-Venus conjunction of transit Moon at 123 against natal
Venus at 122.5 has polarity +1. -/
theorem polarity_computeTransitNatalAspects_witness :
    mkAspect "Moon" 123 "Venus" (245 / 2) ⟨"Conjunction", 0, 10, 0⟩ ∈
        computeTransitNatalAspects [("Sun", 8), ("Moon", 123)] [("Sun", 0), ("Venus", 245 / 2)] ∧
      (mkAspect "Moon" 123 "Venus" (245 / 2) ⟨"Conjunction", 0, 10, 0⟩).polarity = 1 :=
  ⟨by decide!,
    ((polarity_computeTransitNatalAspects [("Sun", 8), ("Moon", 123)]
      [("Sun", 0), ("Venus", 245 / 2)] _ (by decide!)).1 (by decide)).trans (by decide!)⟩

/-! ## Properties of the scoring engine -/

theorem addContribution_apply (ruler : String) (asp : DetectedAspect)
    (accum : Domain → Option ℚ) (d' d : Domain) :
    addContribution ruler asp accum d' d =
      if d = d' then stepDomain ruler asp d (accum d) else accum d := by
  unfold addContribution stepDomain
  by_cases h : d = d'
  · subst h
    rw [if_pos rfl]
    cases hrel : pairDomainRelevance d asp.transitBody asp.natalBody with
    | none => simp
    | some rel =>
      by_cases hle : rel ≤ 0
      · simp [hle]
      · simp [hle]
  · rw [if_neg h]
    cases hrel : pairDomainRelevance d' asp.transitBody asp.natalBody with
    | none => simp [Function.update_noteq h]
    | some rel =>
      by_cases hle : rel ≤ 0
      · simp [hle]
      · simp [hle, Function.update_noteq h]

theorem foldl_DOMAINS_apply (ruler : String) (asp : DetectedAspect)
    (accum : Domain → Option ℚ) (d : Domain) :
    DOMAINS.foldl (addContribution ruler asp) accum d = stepDomain ruler asp d (accum d) := by
  cases d <;> simp [DOMAINS, List.foldl, addContribution_apply]

theorem foldl_aspects_apply (ruler : String) (d : Domain) :
    ∀ (top : List DetectedAspect) (accum : Domain → Option ℚ),
      top.foldl (fun accum asp => DOMAINS.foldl (addContribution ruler asp) accum) accum d =
        top.foldl (fun x asp => stepDomain ruler asp d x) (accum d) := by
  intro top
  induction top with
  | nil => intro accum; rfl
  | cons a top ih =>
    intro accum
    rw [List.foldl_cons, List.foldl_cons, ih, foldl_DOMAINS_apply]

theorem accumulate_apply (ruler : String) (top : List DetectedAspect) (d : Domain) :
    accumulate ruler top d = top.foldl (fun x asp => stepDomain ruler asp d x) (some 0) :=
  foldl_aspects_apply ruler d top _

theorem clamp_mem {lo hi : ℚ} (h : lo ≤ hi) (n : ℚ) : lo ≤ clamp n lo hi ∧ clamp n lo hi ≤ hi :=
  ⟨le_max_left _ _, max_le h (min_le_left _ _)⟩

theorem clamp_eq_self {n lo hi : ℚ} (h1 : lo ≤ n) (h2 : n ≤ hi) : clamp n lo hi = n := by
  unfold clamp
  rw [min_eq_right h2, max_eq_right h1]

theorem jsRound_intCast_add (z : ℤ) (x : ℚ) : jsRound ((z : ℚ) + x) = z + jsRound x := by
  unfold jsRound
  rw [add_assoc, Int.floor_int_add]
  push_cast
  rfl

theorem jsRound_intCast (z : ℤ) : jsRound (z : ℚ) = z := by
  have h := jsRound_intCast_add z 0
  have h0 : jsRound 0 = 0 := by
    unfold jsRound
    have : ⌊(0 : ℚ) + 1 / 2⌋ = 0 := by
      rw [Int.floor_eq_iff]
      norm_num
    rw [this]
    rfl
  rw [add_zero, h0, add_zero] at h
  exact h

theorem jsRound_mem {a b : ℤ} {x : ℚ} (h1 : (a : ℚ) ≤ x) (h2 : x ≤ (b : ℚ)) :
    (a : ℚ) ≤ jsRound x ∧ jsRound x ≤ (b : ℚ) := by
  unfold jsRound
  constructor
  · have : a ≤ ⌊x + 1 / 2⌋ := by
      rw [Int.le_floor]
      linarith
    exact_mod_cast this
  · have : ⌊x + 1 / 2⌋ < b + 1 := by
      rw [Int.floor_lt]
      push_cast
      linarith
    have : ⌊x + 1 / 2⌋ ≤ b := by omega
    exact_mod_cast this

theorem normalizeSign_cases (sign : String) :
    normalizeSign sign = "" ∨ normalizeSign sign ∈ WESTERN_SIGNS := by
  unfold normalizeSign
  simp only
  split_ifs with h
  · exact Or.inl rfl
  · cases hf : List.find? (fun x => decide (jsToLowerCase x = jsToLowerCase (jsTrim sign)))
        WESTERN_SIGNS with
    | none => exact Or.inl rfl
    | some x => exact Or.inr (List.mem_of_find?_eq_some hf)

/-- The sign flavour of a normalised sign is an integer between -1 and 2. -/
theorem signBase_normalizeSign (sign : String) (d : Domain) :
    ∃ z : ℤ, signBase (normalizeSign sign) d = z ∧ -1 ≤ z ∧ z ≤ 2 := by
  rcases normalizeSign_cases sign with h | h
  · rw [h]
    cases d <;> exact ⟨0, by decide!, by decide, by decide⟩
  · simp only [WESTERN_SIGNS, List.mem_cons, List.mem_singleton, List.not_mem_nil,
      or_false] at h
    rcases h with h | h | h | h | h | h | h | h | h | h | h | h <;> rw [h] <;> cases d <;>
      first
      | exact ⟨-1, by decide!, by decide, by decide⟩
      | exact ⟨0, by decide!, by decide, by decide⟩
      | exact ⟨1, by decide!, by decide, by decide⟩
      | exact ⟨2, by decide!, by decide, by decide⟩

theorem scores_ofDomain (sunSign : String) (aspects : List DetectedAspect) (d : Domain) :
    (scorePersonalDay sunSign aspects).scores.ofDomain d =
      domainScore (signBase (normalizeSign sunSign))
        (accumulate (getRulerPlanet (normalizeSign sunSign)) (aspects.take 25)) d := by
  cases d <;> rfl

theorem caps_intCast (d : Domain) :
    negCaps d = ((if d = Domain.Social then -18 else -20 : ℤ) : ℚ) ∧
      posCaps d = ((if d = Domain.Social then 22 else 24 : ℤ) : ℚ) := by
  cases d <;> simp [negCaps, posCaps]

/-- The value of a domain score for a numeric `accum[domain]`: an integer within the band
around the base, between 39 and 86, which the final clamp leaves as it is. -/
theorem domainScore_band (sunSign : String) (accum : Domain → Option ℚ) (d : Domain) (x : ℚ)
    (hx : accum d = some x) :
    ∃ k : ℤ,
      domainScore (signBase (normalizeSign sunSign)) accum d = some (k : ℚ) ∧
      (k : ℚ) = jsRound (50 + signBase (normalizeSign sunSign) d + 10 +
        clamp x (negCaps d) (posCaps d)) ∧
      60 + signBase (normalizeSign sunSign) d - (if d = Domain.Social then 18 else 20) ≤ (k : ℚ) ∧
      (k : ℚ) ≤ 60 + signBase (normalizeSign sunSign) d + (if d = Domain.Social then 22 else 24) ∧
      39 ≤ k ∧ k ≤ 86 := by
  obtain ⟨z, hz, hz1, hz2⟩ := signBase_normalizeSign sunSign d
  obtain ⟨hneg, hpos⟩ := caps_intCast d
  have hcaps : negCaps d ≤ posCaps d := by cases d <;> norm_num [negCaps, posCaps]
  obtain ⟨hc1, hc2⟩ := clamp_mem hcaps x
  have hsum : 50 + signBase (normalizeSign sunSign) d + 10 + clamp x (negCaps d) (posCaps d) =
      ((60 + z : ℤ) : ℚ) + clamp x (negCaps d) (posCaps d) := by
    rw [hz]
    push_cast
    ring
  have hr1 := le_of_eq_of_le hneg.symm hc1
  have hr2 := le_of_le_of_eq hc2 hpos
  obtain ⟨hj1, hj2⟩ := jsRound_mem hr1 hr2
  have hround : jsRound (50 + signBase (normalizeSign sunSign) d + 10 +
      clamp x (negCaps d) (posCaps d)) =
      ((60 + z + ⌊clamp x (negCaps d) (posCaps d) + 1 / 2⌋ : ℤ) : ℚ) := by
    rw [hsum, jsRound_intCast_add]
    unfold jsRound
    push_cast
    rfl
  have hk1 : (if d = Domain.Social then -18 else -20 : ℤ) ≤
      ⌊clamp x (negCaps d) (posCaps d) + 1 / 2⌋ := by
    unfold jsRound at hj1
    exact_mod_cast hj1
  have hk2 : ⌊clamp x (negCaps d) (posCaps d) + 1 / 2⌋ ≤
      (if d = Domain.Social then 22 else 24 : ℤ) := by
    unfold jsRound at hj2
    exact_mod_cast hj2
  have hlo : (39 : ℤ) ≤ 60 + z + ⌊clamp x (negCaps d) (posCaps d) + 1 / 2⌋ := by
    split_ifs at hk1 <;> omega
  have hhi : 60 + z + ⌊clamp x (negCaps d) (posCaps d) + 1 / 2⌋ ≤ (86 : ℤ) := by
    split_ifs at hk2 <;> omega
  refine ⟨60 + z + ⌊clamp x (negCaps d) (posCaps d) + 1 / 2⌋, ?_, hround.symm, ?_, ?_, hlo, hhi⟩
  · unfold domainScore
    rw [hx, Option.map_some', hround, clamp_eq_self]
    · exact_mod_cast (by omega : (0 : ℤ) ≤ 60 + z + ⌊clamp x (negCaps d) (posCaps d) + 1 / 2⌋)
    · exact_mod_cast (by omega : 60 + z + ⌊clamp x (negCaps d) (posCaps d) + 1 / 2⌋ ≤ (100 : ℤ))
  · rw [hz]
    by_cases hd : d = Domain.Social
    · rw [if_pos hd] at hk1 ⊢
      have : (60 + z - 18 : ℤ) ≤ 60 + z + ⌊clamp x (negCaps d) (posCaps d) + 1 / 2⌋ := by omega
      exact_mod_cast this
    · rw [if_neg hd] at hk1 ⊢
      have : (60 + z - 20 : ℤ) ≤ 60 + z + ⌊clamp x (negCaps d) (posCaps d) + 1 / 2⌋ := by omega
      exact_mod_cast this
  · rw [hz]
    by_cases hd : d = Domain.Social
    · rw [if_pos hd] at hk2 ⊢
      have : 60 + z + ⌊clamp x (negCaps d) (posCaps d) + 1 / 2⌋ ≤ (60 + z + 22 : ℤ) := by omega
      exact_mod_cast this
    · rw [if_neg hd] at hk2 ⊢
      have : 60 + z + ⌊clamp x (negCaps d) (posCaps d) + 1 / 2⌋ ≤ (60 + z + 24 : ℤ) := by omega
      exact_mod_cast this

theorem relevanceOrZero_isSome (d : Domain) {p : String} (hp : p ∉ objectPrototypeKeys) :
    ∃ r : ℚ, relevanceOrZero d p = some r := by
  unfold relevanceOrZero
  cases (DOMAIN_RELEVANCE d).lookup p with
  | some r => exact ⟨r, rfl⟩
  | none => exact ⟨0, by simp [hp]⟩

theorem stepDomain_isSome (ruler : String) (asp : DetectedAspect) (d : Domain)
    (ht : asp.transitBody ∉ objectPrototypeKeys) (hn : asp.natalBody ∉ objectPrototypeKeys)
    (x : ℚ) : ∃ y : ℚ, stepDomain ruler asp d (some x) = some y := by
  obtain ⟨ra, hra⟩ := relevanceOrZero_isSome d ht
  obtain ⟨rb, hrb⟩ := relevanceOrZero_isSome d hn
  unfold stepDomain pairDomainRelevance
  rw [hra, hrb]
  simp only
  split_ifs
  · exact ⟨x, rfl⟩
  · exact ⟨_, rfl⟩

theorem foldl_stepDomain_isSome (ruler : String) (d : Domain) :
    ∀ (top : List DetectedAspect),
      (∀ a ∈ top, a.transitBody ∉ objectPrototypeKeys ∧ a.natalBody ∉ objectPrototypeKeys) →
      ∀ x : ℚ, ∃ y : ℚ, top.foldl (fun x asp => stepDomain ruler asp d x) (some x) = some y := by
  intro top
  induction top with
  | nil => intro _ x; exact ⟨x, rfl⟩
  | cons a top ih =>
    intro h x
    obtain ⟨y, hy⟩ := stepDomain_isSome ruler a d (h a (List.mem_cons_self _ _)).1
      (h a (List.mem_cons_self _ _)).2 x
    rw [List.foldl_cons, hy]
    exact ih (fun b hb => h b (List.mem_cons_of_mem _ hb)) y

/-- With no inherited property name among the bodies, every domain score is a number: an
integer within the band around its base, between 39 and 86. -/
theorem ofDomain_band (sunSign : String) (aspects : List DetectedAspect)
    (h : ∀ a ∈ aspects.take 25,
      a.transitBody ∉ objectPrototypeKeys ∧ a.natalBody ∉ objectPrototypeKeys) (d : Domain) :
    ∃ k : ℤ,
      (scorePersonalDay sunSign aspects).scores.ofDomain d = some (k : ℚ) ∧
      60 + signBase (normalizeSign sunSign) d - (if d = Domain.Social then 18 else 20) ≤ (k : ℚ) ∧
      (k : ℚ) ≤ 60 + signBase (normalizeSign sunSign) d + (if d = Domain.Social then 22 else 24) ∧
      39 ≤ k ∧ k ≤ 86 := by
  obtain ⟨x, hx⟩ := foldl_stepDomain_isSome (getRulerPlanet (normalizeSign sunSign)) d
    (aspects.take 25) h 0
  rw [← accumulate_apply] at hx
  obtain ⟨k, hk, _, h1, h2, h3, h4⟩ := domainScore_band sunSign _ d x hx
  exact ⟨k, by rw [scores_ofDomain, hk], h1, h2, h3, h4⟩

theorem clamp_jsRound_intCast (x : ℚ) :
    ∃ k : ℤ, clamp (jsRound x) 0 100 = (k : ℚ) ∧ 0 ≤ k ∧ k ≤ 100 := by
  refine ⟨max 0 (min 100 ⌊x + 1 / 2⌋), ?_, le_max_left _ _, max_le (by decide) (min_le_left _ _)⟩
  unfold clamp jsRound
  push_cast
  rfl

theorem domainScore_intCast {base : Domain → ℚ} {accum : Domain → Option ℚ} {d : Domain} {s : ℚ}
    (h : domainScore base accum d = some s) : ∃ k : ℤ, s = (k : ℚ) ∧ 0 ≤ k ∧ k ≤ 100 := by
  unfold domainScore at h
  cases hx : accum d with
  | none => rw [hx] at h; simp at h
  | some x =>
    rw [hx, Option.map_some', Option.some.injEq] at h
    obtain ⟨k, hk, h0, h1⟩ := clamp_jsRound_intCast
      (50 + base d + 10 + clamp x (negCaps d) (posCaps d))
    exact ⟨k, h ▸ hk, h0, h1⟩

/-- C1: the claim fails for a body named like a property of `Object.prototype`: for the
detector's output on transit `constructor` at 120 and natal Sun at 0 all six scores are `NaN`.
On every aspect list whose first 25 entries have no such body name, and for every sun sign,
the six scores are integers between 0 and 100. -/
theorem scorePersonalDay_scores_range :
    (scorePersonalDay "Leo"
        (computeTransitNatalAspects [("constructor", 120)] [("Sun", 0)])).scores =
      ⟨none, none, none, none, none, none⟩ ∧
    ∀ (sunSign : String) (aspects : List DetectedAspect),
      (∀ a ∈ aspects.take 25,
        a.transitBody ∉ objectPrototypeKeys ∧ a.natalBody ∉ objectPrototypeKeys) →
      ∀ v ∈ [(scorePersonalDay sunSign aspects).scores.overall,
          (scorePersonalDay sunSign aspects).scores.career,
          (scorePersonalDay sunSign aspects).scores.fortune,
          (scorePersonalDay sunSign aspects).scores.love,
          (scorePersonalDay sunSign aspects).scores.social,
          (scorePersonalDay sunSign aspects).scores.study],
        ∃ k : ℤ, v = some (k : ℚ) ∧ 0 ≤ k ∧ k ≤ 100 := by
  refine ⟨by decide!, ?_⟩
  intro sunSign aspects h v hv
  have hd : ∀ d, ∃ k : ℤ, (scorePersonalDay sunSign aspects).scores.ofDomain d = some (k : ℚ) ∧
      0 ≤ k ∧ k ≤ 100 := by
    intro d
    obtain ⟨k, hk, _, _, h3, h4⟩ := ofDomain_band sunSign aspects h d
    exact ⟨k, hk, by omega, by omega⟩
  obtain ⟨kc, hc, hc0, hc1⟩ := hd Domain.Career
  obtain ⟨kf, hf, hf0, hf1⟩ := hd Domain.Fortune
  obtain ⟨kl, hl, hl0, hl1⟩ := hd Domain.Love
  obtain ⟨ks, hs, hs0, hs1⟩ := hd Domain.Social
  obtain ⟨kt, ht, ht0, ht1⟩ := hd Domain.Study
  simp only [Scores.ofDomain] at hc hf hl hs ht
  simp only [List.mem_cons, List.mem_singleton, List.not_mem_nil, or_false] at hv
  rcases hv with rfl | rfl | rfl | rfl | rfl | rfl
  · have ho : (scorePersonalDay sunSign aspects).scores.overall =
        overallOf (scorePersonalDay sunSign aspects).scores.career
          (scorePersonalDay sunSign aspects).scores.fortune
          (scorePersonalDay sunSign aspects).scores.love
          (scorePersonalDay sunSign aspects).scores.social
          (scorePersonalDay sunSign aspects).scores.study := rfl
    rw [ho, hc, hf, hl, hs, ht]
    obtain ⟨k, hk, h0, h1⟩ := clamp_jsRound_intCast (weightedSum kc kf kl ks kt)
    exact ⟨k, by simp only [overallOf]; rw [hk], h0, h1⟩
  · exact ⟨kc, hc, hc0, hc1⟩
  · exact ⟨kf, hf, hf0, hf1⟩
  · exact ⟨kl, hl, hl0, hl1⟩
  · exact ⟨ks, hs, hs0, hs1⟩
  · exact ⟨kt, ht, ht0, ht1⟩

theorem jsToLowerCase_ne_empty {c : String} (hc : c ∈ WESTERN_SIGNS) : jsToLowerCase c ≠ "" := by
  simp only [WESTERN_SIGNS, List.mem_cons, List.mem_singleton, List.not_mem_nil, or_false] at hc
  rcases hc with h | h | h | h | h | h | h | h | h | h | h | h <;> rw [h] <;> decide!

/-- A sign that matches a canonical name, whatever its case and surrounding white space, is
normalised to that name. -/
theorem normalizeSign_eq_of_match {sign c : String} (hc : c ∈ WESTERN_SIGNS)
    (h : jsToLowerCase c = jsToLowerCase (jsTrim sign)) : normalizeSign sign = c := by
  unfold normalizeSign
  simp only
  rw [← h]
  simp only [WESTERN_SIGNS, List.mem_cons, List.mem_singleton, List.not_mem_nil, or_false] at hc
  rcases hc with h | h | h | h | h | h | h | h | h | h | h | h <;> rw [h] <;> decide!

/-- A sign that matches no canonical name is normalised to the empty string. -/
theorem normalizeSign_eq_empty {sign : String}
    (h : ∀ c ∈ WESTERN_SIGNS, jsToLowerCase c ≠ jsToLowerCase (jsTrim sign)) :
    normalizeSign sign = "" := by
  unfold normalizeSign
  simp only
  split_ifs
  · rfl
  · have : List.find? (fun x => decide (jsToLowerCase x = jsToLowerCase (jsTrim sign)))
        WESTERN_SIGNS = none := by
      rw [List.find?_eq_none]
      intro x hx
      simpa using h x hx
    rw [this]
    rfl

theorem accumulate_nil (ruler : String) (d : Domain) : accumulate ruler [] d = some 0 := rfl

theorem ofDomain_nil (sunSign : String) (d : Domain) :
    (scorePersonalDay sunSign []).scores.ofDomain d =
      some (50 + signBase (normalizeSign sunSign) d + 10) := by
  obtain ⟨k, hk, hround, _⟩ := domainScore_band sunSign
    (accumulate (getRulerPlanet (normalizeSign sunSign)) []) d 0 (accumulate_nil _ d)
  obtain ⟨z, hz, _, _⟩ := signBase_normalizeSign sunSign d
  have hcl : clamp 0 (negCaps d) (posCaps d) = 0 := by
    apply clamp_eq_self <;> cases d <;> norm_num [negCaps, posCaps]
  rw [scores_ofDomain, List.take_nil, hk, hround, hcl, add_zero, hz]
  have : (50 : ℚ) + (z : ℚ) + 10 = ((50 + z + 10 : ℤ) : ℚ) := by push_cast; ring
  rw [this, jsRound_intCast]

/-- C6: for the empty aspect list and every sun sign each domain score is
`50 + flavor + 10`, where the flavour is the `SIGN_BASE` entry of the canonical name the sign
matches (whatever its case and surrounding white space) and 0 when it matches none; for `Leo`
the scores are Career 62, Fortune 60, Love 61, Social 61, Study 59 and overall 61. -/
theorem scorePersonalDay_nil (sunSign : String) :
    (∀ c ∈ WESTERN_SIGNS, jsToLowerCase c = jsToLowerCase (jsTrim sunSign) →
      ∀ row, SIGN_BASE.lookup c = some row →
        ∀ d, (scorePersonalDay sunSign []).scores.ofDomain d = some (50 + row d + 10)) ∧
    ((∀ c ∈ WESTERN_SIGNS, jsToLowerCase c ≠ jsToLowerCase (jsTrim sunSign)) →
      ∀ d, (scorePersonalDay sunSign []).scores.ofDomain d = some (50 + 0 + 10)) ∧
    (scorePersonalDay "Leo" []).scores =
      ⟨some 61, some 62, some 60, some 61, some 61, some 59⟩ ∧
    jsRound (22 / 100 * 62 + 18 / 100 * 60 + 22 / 100 * 61 + 18 / 100 * 61 + 20 / 100 * 59) = 61 := by
  refine ⟨?_, ?_, by decide!, by decide!⟩
  · intro c hc hmatch row hrow d
    rw [ofDomain_nil, normalizeSign_eq_of_match hc hmatch]
    unfold signBase
    rw [hrow]
    rfl
  · intro hno d
    rw [ofDomain_nil, normalizeSign_eq_empty hno]
    rfl

/-- C6, at a concrete input: the sign ` lEo ` matches `Leo`, whose Career flavour is 2. -/
theorem scorePersonalDay_nil_witness :
    (scorePersonalDay " lEo " []).scores.ofDomain Domain.Career = some (50 + 2 + 10) :=
  (scorePersonalDay_nil " lEo ").1 "Leo" (by decide) (by decide!)
    (fun d => match d with
      | Domain.Career => 2
      | Domain.Fortune => 0
      | Domain.Love => 1
      | Domain.Social => 1
      | Domain.Study => -1) rfl Domain.Career

/-- C7: the claim fails for a body named like a property of `Object.prototype`: for the
detector's output on transit `constructor` at 120 and natal Sun at 0 every domain score is
`NaN`, which lies in no band.  On every aspect list whose first 25 entries have no such body
name, and for every sun sign, each domain score is an integer that differs from its base
`60 + flavor` by at most the band (-20 to +24, and -18 to +22 for Social), lies between 39 and
86, and is the rounded sum itself, so the final clamp to 0..100 changes nothing. -/
theorem scorePersonalDay_band :
    (∀ d, (scorePersonalDay "Leo"
        (computeTransitNatalAspects [("constructor", 120)] [("Sun", 0)])).scores.ofDomain d =
      none) ∧
    ∀ (sunSign : String) (aspects : List DetectedAspect),
      (∀ a ∈ aspects.take 25,
        a.transitBody ∉ objectPrototypeKeys ∧ a.natalBody ∉ objectPrototypeKeys) →
      ∀ d, ∃ (k : ℤ) (x : ℚ),
        (scorePersonalDay sunSign aspects).scores.ofDomain d = some (k : ℚ) ∧
        accumulate (getRulerPlanet (normalizeSign sunSign)) (aspects.take 25) d = some x ∧
        (k : ℚ) = jsRound (50 + signBase (normalizeSign sunSign) d + 10 +
          clamp x (negCaps d) (posCaps d)) ∧
        60 + signBase (normalizeSign sunSign) d - (if d = Domain.Social then 18 else 20) ≤
          (k : ℚ) ∧
        (k : ℚ) ≤
          60 + signBase (normalizeSign sunSign) d + (if d = Domain.Social then 22 else 24) ∧
        39 ≤ k ∧ k ≤ 86 := by
  refine ⟨fun d => by cases d <;> decide!, ?_⟩
  intro sunSign aspects h d
  obtain ⟨x, hx⟩ := foldl_stepDomain_isSome (getRulerPlanet (normalizeSign sunSign)) d
    (aspects.take 25) h 0
  rw [← accumulate_apply] at hx
  obtain ⟨k, hk, hround, h1, h2, h3, h4⟩ := domainScore_band sunSign _ d x hx
  exact ⟨k, x, by rw [scores_ofDomain, hk], hx, hround, h1, h2, h3, h4⟩

theorem pow2_eq (e : ℤ) : pow2 e = (2 : ℚ) ^ e := by
  unfold pow2
  split_ifs with h
  · obtain ⟨n, rfl⟩ := Int.eq_ofNat_of_zero_le h
    rw [Int.toNat_natCast, zpow_natCast]
    push_cast
    rfl
  · have hn : 0 ≤ -e := by omega
    obtain ⟨n, hn⟩ := Int.eq_ofNat_of_zero_le hn
    have he : e = -(n : ℤ) := by omega
    rw [hn, Int.toNat_natCast, he, zpow_neg, zpow_natCast]
    push_cast
    rw [one_div]

theorem log2Fuel_spec : ∀ fuel n : ℕ, n ≤ fuel → 0 < n →
    2 ^ log2Fuel fuel n ≤ n ∧ n < 2 ^ (log2Fuel fuel n + 1) := by
  intro fuel
  induction fuel with
  | zero => intro n h1 h2; omega
  | succ fuel ih =>
    intro n h1 h2
    unfold log2Fuel
    split_ifs with h
    · obtain ⟨i1, i2⟩ := ih (n / 2) (by omega) (by omega)
      constructor
      · rw [pow_succ]
        omega
      · rw [pow_succ]
        omega
    · simp only [pow_zero, zero_add, pow_one]
      omega

theorem natLog2_spec {n : ℕ} (h : 0 < n) : 2 ^ natLog2 n ≤ n ∧ n < 2 ^ (natLog2 n + 1) :=
  log2Fuel_spec n n le_rfl h

/-- The binary exponent of a non-zero number `x` is the `e` with `2 ^ e ≤ |x| < 2 ^ (e + 1)`. -/
theorem binade_spec {x : ℚ} (hx : x ≠ 0) :
    (2 : ℚ) ^ binade x ≤ |x| ∧ |x| < (2 : ℚ) ^ (binade x + 1) := by
  have hp : 0 < x.num.natAbs := Int.natAbs_pos.mpr (Rat.num_ne_zero.mpr hx)
  have hq : 0 < x.den := x.den_pos
  obtain ⟨a1, a2⟩ := natLog2_spec hp
  obtain ⟨b1, b2⟩ := natLog2_spec hq
  have habs : |x| = (x.num.natAbs : ℚ) / (x.den : ℚ) := by
    conv_lhs => rw [← Rat.num_div_den x]
    rw [abs_div, Nat.abs_cast, Nat.cast_natAbs, Int.cast_abs]
  have a1q : (2 : ℚ) ^ natLog2 x.num.natAbs ≤ (x.num.natAbs : ℚ) := by exact_mod_cast a1
  have a2q : (x.num.natAbs : ℚ) < (2 : ℚ) ^ (natLog2 x.num.natAbs + 1) := by exact_mod_cast a2
  have b1q : (2 : ℚ) ^ natLog2 x.den ≤ (x.den : ℚ) := by exact_mod_cast b1
  have b2q : (x.den : ℚ) < (2 : ℚ) ^ (natLog2 x.den + 1) := by exact_mod_cast b2
  have hqq : (0 : ℚ) < (x.den : ℚ) := by exact_mod_cast hq
  have h2 : (2 : ℚ) ≠ 0 := two_ne_zero
  have hpa : (0 : ℚ) < (2 : ℚ) ^ natLog2 x.num.natAbs := by positivity
  have hpb : (0 : ℚ) < (2 : ℚ) ^ natLog2 x.den := by positivity
  have he : (2 : ℚ) ^ ((natLog2 x.num.natAbs : ℤ) - (natLog2 x.den : ℤ)) =
      (2 : ℚ) ^ natLog2 x.num.natAbs / (2 : ℚ) ^ natLog2 x.den := by
    rw [zpow_sub₀ h2, zpow_natCast, zpow_natCast]
  unfold binade
  simp only
  rw [pow2_eq]
  split_ifs with h
  · refine ⟨h, ?_⟩
    rw [zpow_add_one₀ h2, he, habs, div_lt_iff₀ hqq]
    calc (x.num.natAbs : ℚ) < (2 : ℚ) ^ (natLog2 x.num.natAbs + 1) := a2q
      _ = (2 : ℚ) ^ natLog2 x.num.natAbs / (2 : ℚ) ^ natLog2 x.den * 2 *
            (2 : ℚ) ^ natLog2 x.den := by
          rw [pow_succ]
          field_simp
      _ ≤ (2 : ℚ) ^ natLog2 x.num.natAbs / (2 : ℚ) ^ natLog2 x.den * 2 * (x.den : ℚ) := by
          apply mul_le_mul_of_nonneg_left b1q
          positivity
  · rw [sub_add_cancel]
    refine ⟨?_, lt_of_not_le h⟩
    rw [zpow_sub_one₀ h2, he, habs, le_div_iff₀ hqq]
    calc (2 : ℚ) ^ natLog2 x.num.natAbs / (2 : ℚ) ^ natLog2 x.den * 2⁻¹ * (x.den : ℚ)
        ≤ (2 : ℚ) ^ natLog2 x.num.natAbs / (2 : ℚ) ^ natLog2 x.den * 2⁻¹ *
            (2 : ℚ) ^ (natLog2 x.den + 1) := by
          apply mul_le_mul_of_nonneg_left b2q.le
          positivity
      _ = (2 : ℚ) ^ natLog2 x.num.natAbs := by
          rw [pow_succ]
          field_simp
      _ ≤ (x.num.natAbs : ℚ) := a1q

theorem roundHalfEven_error (y : ℚ) : |(roundHalfEven y : ℚ) - y| ≤ 1 / 2 := by
  have h1 := Int.floor_le y
  have h2 := Int.lt_floor_add_one y
  unfold roundHalfEven
  rw [abs_le]
  split_ifs with a b c
  · constructor <;> linarith
  · push_cast
    constructor <;> linarith
  · constructor <;> linarith
  · push_cast
    constructor <;> linarith

theorem ulp_pos (x : ℚ) : 0 < ulp x := by
  unfold ulp
  rw [pow2_eq]
  positivity

/-- The rounding error is at most half the spacing: below `2 ^ k` it is at most
`2 ^ (k - 54)`. -/
theorem roundDouble_error (x : ℚ) (k : ℤ) (hk : -1022 < k) (hx : |x| < (2 : ℚ) ^ k) :
    |roundDouble x - x| ≤ (2 : ℚ) ^ (k - 54) := by
  unfold roundDouble
  split_ifs with h0
  · rw [h0, sub_zero, abs_zero]
    positivity
  · have hu := ulp_pos x
    have hb : binade x < k := by
      have := (binade_spec h0).1.trans_lt hx
      exact (zpow_lt_zpow_iff_right₀ (by norm_num : (1 : ℚ) < 2)).mp this
    have hule : ulp x ≤ (2 : ℚ) ^ (k - 53) := by
      unfold ulp
      rw [pow2_eq]
      apply zpow_le_zpow_right₀ (by norm_num)
      have : max (binade x) (-1022) ≤ k - 1 := max_le (by omega) (by omega)
      omega
    have herr := roundHalfEven_error (x / ulp x)
    have hrw : (roundHalfEven (x / ulp x) : ℚ) * ulp x - x =
        ((roundHalfEven (x / ulp x) : ℚ) - x / ulp x) * ulp x := by
      field_simp
    rw [hrw, abs_mul, abs_of_pos hu]
    calc |(roundHalfEven (x / ulp x) : ℚ) - x / ulp x| * ulp x ≤ 1 / 2 * (2 : ℚ) ^ (k - 53) :=
          mul_le_mul herr hule hu.le (by norm_num)
      _ = (2 : ℚ) ^ (k - 54) := by
          rw [show k - 53 = k - 54 + 1 by ring, zpow_add_one₀ (two_ne_zero)]
          ring

/-- Below 128 the rounding error is at most `2 ^ (-47)`. -/
theorem roundDouble_error_128 (x : ℚ) (hx : |x| < 128) : |roundDouble x - x| ≤ 1 / 2 ^ 47 := by
  have := roundDouble_error x 7 (by norm_num) (by norm_num; exact hx)
  norm_num at this ⊢
  exact this

/-- Over integer scores between 0 and 100 the sum computed in binary64 differs from the exact
weighted sum by at most `2 ^ (-40)`. -/
theorem weightedSum_error {c f l so st : ℚ} (hc : 0 ≤ c ∧ c ≤ 100) (hf : 0 ≤ f ∧ f ≤ 100)
    (hl : 0 ≤ l ∧ l ≤ 100) (hs : 0 ≤ so ∧ so ≤ 100) (ht : 0 ≤ st ∧ st ≤ 100) :
    |weightedSum c f l so st - exactSum c f l so st| ≤ 1 / 2 ^ 40 := by
  have hw22 : roundDouble (22 / 100) = 7926335344172073 / 36028797018963968 := by decide!
  have hw18 : roundDouble (18 / 100) = 3242591731706757 / 18014398509481984 := by decide!
  have hw20 : roundDouble (20 / 100) = 3602879701896397 / 18014398509481984 := by decide!
  obtain ⟨c0, c1⟩ := hc
  obtain ⟨f0, f1⟩ := hf
  obtain ⟨l0, l1⟩ := hl
  obtain ⟨s0, s1⟩ := hs
  obtain ⟨t0, t1⟩ := ht
  unfold weightedSum exactSum
  rw [hw22, hw18, hw20]
  have e1 := abs_le.mp (roundDouble_error_128 (7926335344172073 / 36028797018963968 * c)
    (by rw [abs_lt]; constructor <;> linarith))
  generalize roundDouble (7926335344172073 / 36028797018963968 * c) = p1 at e1 ⊢
  have e2 := abs_le.mp (roundDouble_error_128 (3242591731706757 / 18014398509481984 * f)
    (by rw [abs_lt]; constructor <;> linarith))
  generalize roundDouble (3242591731706757 / 18014398509481984 * f) = p2 at e2 ⊢
  have e3 := abs_le.mp (roundDouble_error_128 (7926335344172073 / 36028797018963968 * l)
    (by rw [abs_lt]; constructor <;> linarith))
  generalize roundDouble (7926335344172073 / 36028797018963968 * l) = p3 at e3 ⊢
  have e4 := abs_le.mp (roundDouble_error_128 (3242591731706757 / 18014398509481984 * so)
    (by rw [abs_lt]; constructor <;> linarith))
  generalize roundDouble (3242591731706757 / 18014398509481984 * so) = p4 at e4 ⊢
  have e5 := abs_le.mp (roundDouble_error_128 (3602879701896397 / 18014398509481984 * st)
    (by rw [abs_lt]; constructor <;> linarith))
  generalize roundDouble (3602879701896397 / 18014398509481984 * st) = p5 at e5 ⊢
  have e6 := abs_le.mp (roundDouble_error_128 (p1 + p2)
    (by rw [abs_lt]; constructor <;> linarith [e1.1, e1.2, e2.1, e2.2]))
  generalize roundDouble (p1 + p2) = a1 at e6 ⊢
  have e7 := abs_le.mp (roundDouble_error_128 (a1 + p3)
    (by rw [abs_lt]; constructor <;> linarith [e1.1, e1.2, e2.1, e2.2, e3.1, e3.2, e6.1, e6.2]))
  generalize roundDouble (a1 + p3) = a2 at e7 ⊢
  have e8 := abs_le.mp (roundDouble_error_128 (a2 + p4)
    (by
      rw [abs_lt]
      constructor <;>
        linarith [e1.1, e1.2, e2.1, e2.2, e3.1, e3.2, e4.1, e4.2, e6.1, e6.2, e7.1, e7.2]))
  generalize roundDouble (a2 + p4) = a3 at e8 ⊢
  have e9 := abs_le.mp (roundDouble_error_128 (a3 + p5)
    (by
      rw [abs_lt]
      constructor <;>
        linarith [e1.1, e1.2, e2.1, e2.2, e3.1, e3.2, e4.1, e4.2, e5.1, e5.2, e6.1, e6.2,
          e7.1, e7.2, e8.1, e8.2]))
  generalize roundDouble (a3 + p5) = a4 at e9 ⊢
  rw [abs_le]
  constructor <;>
    linarith [e1.1, e1.2, e2.1, e2.2, e3.1, e3.2, e4.1, e4.2, e5.1, e5.2, e6.1, e6.2,
      e7.1, e7.2, e8.1, e8.2, e9.1, e9.2]

/-- The exact weighted sum of integer scores lies between the smallest and the largest. -/
theorem exactSum_mem (kc kf kl ks kt : ℤ) :
    ((min kc (min kf (min kl (min ks kt))) : ℤ) : ℚ) ≤ exactSum kc kf kl ks kt ∧
      exactSum kc kf kl ks kt ≤ ((max kc (max kf (max kl (max ks kt))) : ℤ) : ℚ) := by
  have hmin : min (kc : ℚ) (min (kf : ℚ) (min (kl : ℚ) (min (ks : ℚ) (kt : ℚ)))) =
      ((min kc (min kf (min kl (min ks kt))) : ℤ) : ℚ) := by push_cast; rfl
  have hmax : max (kc : ℚ) (max (kf : ℚ) (max (kl : ℚ) (max (ks : ℚ) (kt : ℚ)))) =
      ((max kc (max kf (max kl (max ks kt))) : ℤ) : ℚ) := by push_cast; rfl
  rw [← hmin, ← hmax]
  unfold exactSum
  have h1 : min (kc : ℚ) (min (kf : ℚ) (min (kl : ℚ) (min (ks : ℚ) (kt : ℚ)))) ≤ kc :=
    min_le_left _ _
  have h2 : min (kc : ℚ) (min (kf : ℚ) (min (kl : ℚ) (min (ks : ℚ) (kt : ℚ)))) ≤ kf :=
    (min_le_right _ _).trans (min_le_left _ _)
  have h3 : min (kc : ℚ) (min (kf : ℚ) (min (kl : ℚ) (min (ks : ℚ) (kt : ℚ)))) ≤ kl :=
    (min_le_right _ _).trans ((min_le_right _ _).trans (min_le_left _ _))
  have h4 : min (kc : ℚ) (min (kf : ℚ) (min (kl : ℚ) (min (ks : ℚ) (kt : ℚ)))) ≤ ks :=
    (min_le_right _ _).trans ((min_le_right _ _).trans
      ((min_le_right _ _).trans (min_le_left _ _)))
  have h5 : min (kc : ℚ) (min (kf : ℚ) (min (kl : ℚ) (min (ks : ℚ) (kt : ℚ)))) ≤ kt :=
    (min_le_right _ _).trans ((min_le_right _ _).trans
      ((min_le_right _ _).trans (min_le_right _ _)))
  have g1 : (kc : ℚ) ≤ max (kc : ℚ) (max (kf : ℚ) (max (kl : ℚ) (max (ks : ℚ) (kt : ℚ)))) :=
    le_max_left _ _
  have g2 : (kf : ℚ) ≤ max (kc : ℚ) (max (kf : ℚ) (max (kl : ℚ) (max (ks : ℚ) (kt : ℚ)))) :=
    (le_max_left _ _).trans (le_max_right _ _)
  have g3 : (kl : ℚ) ≤ max (kc : ℚ) (max (kf : ℚ) (max (kl : ℚ) (max (ks : ℚ) (kt : ℚ)))) :=
    ((le_max_left _ _).trans (le_max_right _ _)).trans (le_max_right _ _)
  have g4 : (ks : ℚ) ≤ max (kc : ℚ) (max (kf : ℚ) (max (kl : ℚ) (max (ks : ℚ) (kt : ℚ)))) :=
    (((le_max_left _ _).trans (le_max_right _ _)).trans (le_max_right _ _)).trans
      (le_max_right _ _)
  have g5 : (kt : ℚ) ≤ max (kc : ℚ) (max (kf : ℚ) (max (kl : ℚ) (max (ks : ℚ) (kt : ℚ)))) :=
    (((le_max_right _ _).trans (le_max_right _ _)).trans (le_max_right _ _)).trans
      (le_max_right _ _)
  constructor <;> linarith

/-- C8, as stated, fails at a tie of the exact sum: for `Leo` and the detector's output on
transit Moon at 61 against natal Saturn at 0 the domain scores are 66, 62, 64, 63, 62; their
exact weighted sum is 63.5, which rounds up to 64, but the sum computed in binary64 is
`63.5 - 2 ^ (-47)` and the overall score is 63. -/
theorem overall_exact_counterexample :
    (scorePersonalDay "Leo"
        (computeTransitNatalAspects [("Moon", 61)] [("Saturn", 0)])).scores =
      ⟨some 63, some 66, some 62, some 64, some 63, some 62⟩ ∧
    overallExact (some 66) (some 62) (some 64) (some 63) (some 62) = some 64 ∧
    exactSum 66 62 64 63 62 = 63 + 1 / 2 ∧
    weightedSum 66 62 64 63 62 = 63 + 1 / 2 - 1 / 2 ^ 47 := by
  decide!

/-- C8, amended: for every input the overall score is the source formula applied to the five
returned domain scores; when they are numbers it is the integer `z` nearest, a tie going up,
to the sum `0.22 career + 0.18 fortune + 0.22 love + 0.18 social + 0.20 study` evaluated in
binary64 arithmetic, and the clamp to 0..100 leaves `z` unchanged; that sum differs from the
exact weighted sum by at most `2 ^ (-40)`, so `z` is the exact sum rounded half up, or one less,
and it is the exact sum rounded half up whenever the exact sum is not half-way between two
integers; `z` is neither below the smallest nor above the largest of the five domain scores. -/
theorem overall_weighted (sunSign : String) (aspects : List DetectedAspect) :
    (scorePersonalDay sunSign aspects).scores.overall =
      overallOf (scorePersonalDay sunSign aspects).scores.career
        (scorePersonalDay sunSign aspects).scores.fortune
        (scorePersonalDay sunSign aspects).scores.love
        (scorePersonalDay sunSign aspects).scores.social
        (scorePersonalDay sunSign aspects).scores.study ∧
    ∀ c f l so st : ℚ,
      (scorePersonalDay sunSign aspects).scores.career = some c →
      (scorePersonalDay sunSign aspects).scores.fortune = some f →
      (scorePersonalDay sunSign aspects).scores.love = some l →
      (scorePersonalDay sunSign aspects).scores.social = some so →
      (scorePersonalDay sunSign aspects).scores.study = some st →
      ∃ z : ℤ,
        (z : ℚ) = jsRound (weightedSum c f l so st) ∧
        (scorePersonalDay sunSign aspects).scores.overall = some (max 0 (min 100 (z : ℚ))) ∧
        (scorePersonalDay sunSign aspects).scores.overall = some (z : ℚ) ∧
        |weightedSum c f l so st - exactSum c f l so st| ≤ 1 / 2 ^ 40 ∧
        jsRound (exactSum c f l so st) - 1 ≤ (z : ℚ) ∧
        (z : ℚ) ≤ jsRound (exactSum c f l so st) ∧
        ((∀ k : ℤ, exactSum c f l so st ≠ (k : ℚ) + 1 / 2) →
          (scorePersonalDay sunSign aspects).scores.overall =
            overallExact (some c) (some f) (some l) (some so) (some st)) ∧
        min c (min f (min l (min so st))) ≤ (z : ℚ) ∧
        (z : ℚ) ≤ max c (max f (max l (max so st))) := by
  refine ⟨rfl, ?_⟩
  intro c f l so st hc hf hl hs ht
  have ho : (scorePersonalDay sunSign aspects).scores.overall =
      overallOf (scorePersonalDay sunSign aspects).scores.career
        (scorePersonalDay sunSign aspects).scores.fortune
        (scorePersonalDay sunSign aspects).scores.love
        (scorePersonalDay sunSign aspects).scores.social
        (scorePersonalDay sunSign aspects).scores.study := rfl
  rw [ho, hc, hf, hl, hs, ht]
  obtain ⟨kc, rfl, hc0, hc1⟩ := domainScore_intCast hc
  obtain ⟨kf, rfl, hf0, hf1⟩ := domainScore_intCast hf
  obtain ⟨kl, rfl, hl0, hl1⟩ := domainScore_intCast hl
  obtain ⟨ks, rfl, hs0, hs1⟩ := domainScore_intCast hs
  obtain ⟨kt, rfl, ht0, ht1⟩ := domainScore_intCast ht
  have hmin : min (kc : ℚ) (min (kf : ℚ) (min (kl : ℚ) (min (ks : ℚ) (kt : ℚ)))) =
      ((min kc (min kf (min kl (min ks kt))) : ℤ) : ℚ) := by push_cast; rfl
  have hmax : max (kc : ℚ) (max (kf : ℚ) (max (kl : ℚ) (max (ks : ℚ) (kt : ℚ)))) =
      ((max kc (max kf (max kl (max ks kt))) : ℤ) : ℚ) := by push_cast; rfl
  obtain ⟨hlow, hupp⟩ := exactSum_mem kc kf kl ks kt
  have herr : |weightedSum kc kf kl ks kt - exactSum kc kf kl ks kt| ≤ 1 / 2 ^ 40 :=
    weightedSum_error ⟨by exact_mod_cast hc0, by exact_mod_cast hc1⟩
      ⟨by exact_mod_cast hf0, by exact_mod_cast hf1⟩
      ⟨by exact_mod_cast hl0, by exact_mod_cast hl1⟩
      ⟨by exact_mod_cast hs0, by exact_mod_cast hs1⟩
      ⟨by exact_mod_cast ht0, by exact_mod_cast ht1⟩
  obtain ⟨he1, he2⟩ := abs_le.mp herr
  have hsmall : (1 : ℚ) / 2 ^ 40 ≤ 1 / 100 := by norm_num
  have hz0 : (0 : ℤ) ≤ min kc (min kf (min kl (min ks kt))) := by
    simp only [le_min_iff]
    exact ⟨hc0, hf0, hl0, hs0, ht0⟩
  have hz1 : max kc (max kf (max kl (max ks kt))) ≤ (100 : ℤ) := by
    simp only [max_le_iff]
    exact ⟨hc1, hf1, hl1, hs1, ht1⟩
  have hzm : min kc (min kf (min kl (min ks kt))) ≤ ⌊weightedSum kc kf kl ks kt + 1 / 2⌋ :=
    Int.le_floor.mpr (by linarith)
  have hzM : ⌊weightedSum kc kf kl ks kt + 1 / 2⌋ ≤ max kc (max kf (max kl (max ks kt))) := by
    have h : ⌊weightedSum kc kf kl ks kt + 1 / 2⌋ < max kc (max kf (max kl (max ks kt))) + 1 :=
      Int.floor_lt.mpr (by push_cast; linarith)
    omega
  have hM : exactSum kc kf kl ks kt + 1 / 2 =
      ((11 * kc + 9 * kf + 11 * kl + 9 * ks + 10 * kt + 25 : ℤ) : ℚ) / 50 := by
    unfold exactSum
    push_cast
    ring
  have hk1 : ⌊exactSum kc kf kl ks kt + 1 / 2⌋ * 50 ≤
      11 * kc + 9 * kf + 11 * kl + 9 * ks + 10 * kt + 25 := by
    have h := Int.floor_le (exactSum kc kf kl ks kt + 1 / 2)
    rw [hM] at h ⊢
    rw [le_div_iff₀ (by norm_num)] at h
    exact_mod_cast h
  have hk2 : 11 * kc + 9 * kf + 11 * kl + 9 * ks + 10 * kt + 25 <
      (⌊exactSum kc kf kl ks kt + 1 / 2⌋ + 1) * 50 := by
    have h := Int.lt_floor_add_one (exactSum kc kf kl ks kt + 1 / 2)
    rw [hM] at h ⊢
    rw [div_lt_iff₀ (by norm_num)] at h
    exact_mod_cast h
  have hk2q : ((11 * kc + 9 * kf + 11 * kl + 9 * ks + 10 * kt + 25 : ℤ) : ℚ) ≤
      (⌊exactSum kc kf kl ks kt + 1 / 2⌋ : ℚ) * 50 + 49 := by
    have h : 11 * kc + 9 * kf + 11 * kl + 9 * ks + 10 * kt + 25 ≤
        ⌊exactSum kc kf kl ks kt + 1 / 2⌋ * 50 + 49 := by omega
    exact_mod_cast h
  have hzk : ⌊weightedSum kc kf kl ks kt + 1 / 2⌋ ≤ ⌊exactSum kc kf kl ks kt + 1 / 2⌋ := by
    have h : ⌊weightedSum kc kf kl ks kt + 1 / 2⌋ < ⌊exactSum kc kf kl ks kt + 1 / 2⌋ + 1 :=
      Int.floor_lt.mpr (by push_cast; linarith)
    omega
  have hkz : ⌊exactSum kc kf kl ks kt + 1 / 2⌋ - 1 ≤ ⌊weightedSum kc kf kl ks kt + 1 / 2⌋ := by
    have h := Int.floor_le (exactSum kc kf kl ks kt + 1 / 2)
    exact Int.le_floor.mpr (by push_cast; linarith)
  have hcl : clamp (jsRound (weightedSum kc kf kl ks kt)) 0 100 =
      jsRound (weightedSum kc kf kl ks kt) := by
    apply clamp_eq_self
    · unfold jsRound
      exact_mod_cast hz0.trans hzm
    · unfold jsRound
      exact_mod_cast hzM.trans hz1
  refine ⟨⌊weightedSum kc kf kl ks kt + 1 / 2⌋, rfl, rfl, ?_, herr, ?_, ?_, ?_, ?_, ?_⟩
  · simp only [overallOf]
    rw [hcl]
    rfl
  · unfold jsRound
    exact_mod_cast hkz
  · unfold jsRound
    exact_mod_cast hzk
  · intro hnt
    have hne : 11 * kc + 9 * kf + 11 * kl + 9 * ks + 10 * kt + 25 ≠
        ⌊exactSum kc kf kl ks kt + 1 / 2⌋ * 50 := by
      intro h
      apply hnt (⌊exactSum kc kf kl ks kt + 1 / 2⌋ - 1)
      rw [h] at hM
      push_cast at hM ⊢
      linarith
    have hk1q : (⌊exactSum kc kf kl ks kt + 1 / 2⌋ : ℚ) * 50 + 1 ≤
        ((11 * kc + 9 * kf + 11 * kl + 9 * ks + 10 * kt + 25 : ℤ) : ℚ) := by
      have h : ⌊exactSum kc kf kl ks kt + 1 / 2⌋ * 50 + 1 ≤
          11 * kc + 9 * kf + 11 * kl + 9 * ks + 10 * kt + 25 := by omega
      exact_mod_cast h
    have hge : ⌊exactSum kc kf kl ks kt + 1 / 2⌋ ≤ ⌊weightedSum kc kf kl ks kt + 1 / 2⌋ :=
      Int.le_floor.mpr (by linarith)
    simp only [overallOf, overallExact, jsRound]
    rw [le_antisymm hzk hge]
  · rw [hmin]
    exact_mod_cast hzm
  · rw [hmax]
    exact_mod_cast hzM

/-- C8, amended, at a concrete input: the empty list for `Leo`, with domain scores 62, 60, 61,
61, 59. -/
theorem overall_weighted_witness :
    ∃ z : ℤ,
      (z : ℚ) = jsRound (weightedSum 62 60 61 61 59) ∧
      (scorePersonalDay "Leo" []).scores.overall = some (max 0 (min 100 (z : ℚ))) ∧
      (scorePersonalDay "Leo" []).scores.overall = some (z : ℚ) ∧
      |weightedSum 62 60 61 61 59 - exactSum 62 60 61 61 59| ≤ 1 / 2 ^ 40 ∧
      jsRound (exactSum 62 60 61 61 59) - 1 ≤ (z : ℚ) ∧
      (z : ℚ) ≤ jsRound (exactSum 62 60 61 61 59) ∧
      ((∀ k : ℤ, exactSum 62 60 61 61 59 ≠ (k : ℚ) + 1 / 2) →
        (scorePersonalDay "Leo" []).scores.overall =
          overallExact (some 62) (some 60) (some 61) (some 61) (some 59)) ∧
      min 62 (min 60 (min 61 (min 61 59))) ≤ (z : ℚ) ∧
      (z : ℚ) ≤ max 62 (max 60 (max 61 (max 61 59))) :=
  (overall_weighted "Leo" []).2 62 60 61 61 59 (by decide!) (by decide!) (by decide!)
    (by decide!) (by decide!)

theorem normalizeSign_idem (sign : String) :
    normalizeSign (normalizeSign sign) = normalizeSign sign := by
  rcases normalizeSign_cases sign with h | h
  · rw [h]
    decide!
  · simp only [WESTERN_SIGNS, List.mem_cons, List.mem_singleton, List.not_mem_nil,
      or_false] at h
    rcases h with h | h | h | h | h | h | h | h | h | h | h | h <;> rw [h] <;> decide!

theorem getRulerPlanet_normalizeSign (sign : String) :
    getRulerPlanet (normalizeSign sign) = getRulerPlanet sign := by
  unfold getRulerPlanet
  simp only
  rw [normalizeSign_idem]

theorem relevanceOrZero_of_mem (d : Domain) {p : String} (hp : p ∈ BODIES) :
    relevanceOrZero d p = some (relevance d p) := by
  simp only [BODIES, List.mem_cons, List.mem_singleton, List.not_mem_nil, or_false] at hp
  rcases hp with h | h | h | h | h | h | h | h | h | h <;> rw [h] <;> cases d <;> decide!

/-- C9: for a one-element aspect list whose two bodies are among the ten bodies, every sun
sign and every domain, the score is
`clamp(round(60 + flavor + clamp(c, negCap, posCap)), 0, 100)` with
`c = strength * baseWeight * pol * rel * moonBoost * rulerBonus`, where `rel` is the clamped
sum of the two table relevances divided by 1.5, `moonBoost` and `rulerBonus` are 1.12 or 1, and
`pol` is the stored polarity except for a Conjunction of polarity 0, which takes the fallback
value of its pair. -/
theorem scorePersonalDay_single (sunSign : String) (a : DetectedAspect) (D : Domain)
    (ht : a.transitBody ∈ BODIES) (hn : a.natalBody ∈ BODIES) :
    (scorePersonalDay sunSign [a]).scores.ofDomain D =
      some (clamp (jsRound (60 + signBase (normalizeSign sunSign) D +
        clamp
          (a.strength * a.baseWeight *
            (if a.aspect = "Conjunction" ∧ a.polarity = 0 then
              (if a.transitBody = "Venus" ∨ a.natalBody = "Venus" ∨ a.transitBody = "Moon" ∨
                  a.natalBody = "Moon" then 6 / 10
                else if a.transitBody = "Mercury" ∨ a.natalBody = "Mercury" then 5 / 10
                else if a.transitBody = "Jupiter" ∨ a.natalBody = "Jupiter" then 5 / 10
                else if a.transitBody = "Mars" ∨ a.natalBody = "Mars" ∨ a.transitBody = "Sun" ∨
                  a.natalBody = "Sun" then 3 / 10
                else if a.transitBody = "Saturn" ∨ a.natalBody = "Saturn" then -4 / 10
                else 0)
              else a.polarity) *
            clamp ((relevance D a.transitBody + relevance D a.natalBody) / (3 / 2)) 0 1 *
            (if a.isMoonAspect = true then 112 / 100 else 1) *
            (if a.transitBody = getRulerPlanet sunSign ∨ a.natalBody = getRulerPlanet sunSign
              then 112 / 100 else 1))
          (negCaps D) (posCaps D))) 0 100) := by
  rw [scores_ofDomain]
  have htake : List.take 25 [a] = [a] := rfl
  rw [htake]
  unfold domainScore
  rw [accumulate_apply, List.foldl_cons, List.foldl_nil]
  have hrel : pairDomainRelevance D a.transitBody a.natalBody =
      some (clamp ((relevance D a.transitBody + relevance D a.natalBody) / (3 / 2)) 0 1) := by
    unfold pairDomainRelevance
    rw [relevanceOrZero_of_mem D ht, relevanceOrZero_of_mem D hn]
  have hnonneg := (clamp_mem (by norm_num : (0 : ℚ) ≤ 1)
    ((relevance D a.transitBody + relevance D a.natalBody) / (3 / 2))).1
  have hstep : stepDomain (getRulerPlanet (normalizeSign sunSign)) a D (some 0) =
      some (a.strength * a.baseWeight * effectivePolarity a *
        clamp ((relevance D a.transitBody + relevance D a.natalBody) / (3 / 2)) 0 1 *
        moonBoost a * rulerBonus (getRulerPlanet sunSign) a) := by
    unfold stepDomain
    rw [hrel, getRulerPlanet_normalizeSign]
    simp only
    split_ifs with hle
    · have h0 : clamp ((relevance D a.transitBody + relevance D a.natalBody) / (3 / 2)) 0 1 =
          0 := le_antisymm hle hnonneg
      rw [h0]
      simp
    · simp
  rw [hstep, Option.map_some']
  have hsum : ∀ v : ℚ, 50 + signBase (normalizeSign sunSign) D + 10 + v =
      60 + signBase (normalizeSign sunSign) D + v := fun v => by ring
  rw [hsum]
  rfl

/-- C9, at a concrete input: the exact Sun-Trine-Sun aspect for `Leo` scores Career 69. -/
theorem scorePersonalDay_single_witness :
    (scorePersonalDay "Leo"
        [mkAspect "Sun" 120 "Sun" 0 ⟨"Trine", 120, 8, 1⟩]).scores.ofDomain Domain.Career =
      some 69 :=
  (scorePersonalDay_single "Leo" (mkAspect "Sun" 120 "Sun" 0 ⟨"Trine", 120, 8, 1⟩)
    Domain.Career (by decide) (by decide)).trans (by decide!)

/-- C10: the six scores are determined by the sun sign and the first 25 entries of the aspect
list: two lists with the same first 25 entries give the same six scores, and a list gives the
same scores as its first 25 entries alone; in the detector's output every one of the first 25
entries has a ranking key at least as high as every later entry. -/
theorem scorePersonalDay_first25 (sunSign : String) (l₁ l₂ : List DetectedAspect)
    (transit natal : LongitudeMap) (h : l₁.take 25 = l₂.take 25) :
    (scorePersonalDay sunSign l₁).scores = (scorePersonalDay sunSign l₂).scores ∧
    (scorePersonalDay sunSign l₁).scores = (scorePersonalDay sunSign (l₁.take 25)).scores ∧
    (∀ a ∈ (computeTransitNatalAspects transit natal).take 25,
      ∀ b ∈ (computeTransitNatalAspects transit natal).drop 25,
        a.strength + (if a.isMoonAspect = true then 5 / 100 else 0) ≥
          b.strength + (if b.isMoonAspect = true then 5 / 100 else 0)) := by
  refine ⟨?_, ?_, ?_⟩
  · unfold scorePersonalDay
    simp only [h]
  · unfold scorePersonalDay
    simp only [List.take_take, min_self]
  · intro a ha b hb
    have hs := sorted_computeTransitNatalAspects transit natal
    unfold List.Sorted at hs
    rw [← List.take_append_drop 25 (computeTransitNatalAspects transit natal),
      List.pairwise_append] at hs
    exact (rankBefore_iff a b).mp (hs.2.2 a ha b hb)

/-- C10, at a concrete input: 26 copies of a Venus-Trine-Venus aspect against the same list
followed by a Saturn-Square-Saturn aspect in 27th place. -/
theorem scorePersonalDay_first25_witness :
    (scorePersonalDay "Leo"
        (List.replicate 26 (mkAspect "Venus" 120 "Venus" 0 ⟨"Trine", 120, 8, 1⟩))).scores =
      (scorePersonalDay "Leo"
        (List.replicate 26 (mkAspect "Venus" 120 "Venus" 0 ⟨"Trine", 120, 8, 1⟩) ++
          [mkAspect "Saturn" 90 "Saturn" 0 ⟨"Square", 90, 8, -55 / 100⟩])).scores :=
  (scorePersonalDay_first25 "Leo" _ _ [] [] (by decide!)).1

/-! ## Properties of the angle and sign utilities -/

theorem fmod_mem (x : ℚ) : 0 ≤ fmod x 360 ∧ fmod x 360 < 360 := by
  unfold fmod
  have h1 := Int.floor_le (x / 360)
  have h2 := Int.lt_floor_add_one (x / 360)
  rw [le_div_iff₀ (by norm_num : (0 : ℚ) < 360)] at h1
  rw [div_lt_iff₀ (by norm_num : (0 : ℚ) < 360)] at h2
  constructor <;> linarith

/-- C18: `angleSepDeg` is symmetric and lies between 0 and 180; it is `|a - b|` reduced
modulo 360 and folded to `360 - d` when the reduced value `d` exceeds 180. -/
theorem angleSepDeg_comm_range (a b : ℚ) :
    angleSepDeg a b = angleSepDeg b a ∧ 0 ≤ angleSepDeg a b ∧ angleSepDeg a b ≤ 180 ∧
      angleSepDeg a b =
        (if |a - b| - 360 * (⌊|a - b| / 360⌋ : ℤ) > 180
          then 360 - (|a - b| - 360 * (⌊|a - b| / 360⌋ : ℤ))
          else |a - b| - 360 * (⌊|a - b| / 360⌋ : ℤ)) := by
  refine ⟨?_, ?_, ?_, rfl⟩
  · unfold angleSepDeg
    rw [abs_sub_comm a b]
  · unfold angleSepDeg
    obtain ⟨h0, h1⟩ := fmod_mem |a - b|
    simp only
    split_ifs <;> linarith
  · unfold angleSepDeg
    obtain ⟨h0, h1⟩ := fmod_mem |a - b|
    simp only
    split_ifs with h
    · linarith
    · exact not_lt.mp h

/-- The remainder differs from `x` by a multiple of `m`, is smaller than `m` in absolute
value and has the sign of `x`. -/
theorem jsRem_spec (x : ℚ) {m : ℚ} (hm : 0 < m) :
    ∃ t : ℤ, jsRem x m = x - m * t ∧ -m < jsRem x m ∧ jsRem x m < m ∧
      (0 ≤ x → 0 ≤ jsRem x m) ∧ (x < 0 → jsRem x m ≤ 0) := by
  unfold jsRem
  by_cases h : 0 ≤ x / m
  · rw [if_pos h]
    have h1 := Int.floor_le (x / m)
    have h2 := Int.lt_floor_add_one (x / m)
    rw [le_div_iff₀ hm] at h1
    rw [div_lt_iff₀ hm] at h2
    have hx : 0 ≤ x := by
      have := mul_nonneg h hm.le
      rwa [div_mul_cancel₀ x hm.ne'] at this
    refine ⟨⌊x / m⌋, rfl, by linarith, by linarith, fun _ => by linarith,
      fun hneg => absurd hx (not_le.mpr hneg)⟩
  · rw [if_neg h]
    have h1 := Int.le_ceil (x / m)
    have h2 : (⌈x / m⌉ : ℚ) - 1 < x / m := by linarith [Int.ceil_lt_add_one (x / m)]
    rw [div_le_iff₀ hm] at h1
    rw [lt_div_iff₀ hm] at h2
    have hx : x < 0 := by
      by_contra hc
      exact h (div_nonneg (not_lt.mp hc) hm.le)
    refine ⟨⌈x / m⌉, rfl, by linarith, by linarith, fun hpos => absurd hx (not_lt.mpr hpos),
      fun _ => by linarith⟩

theorem jsRem_eq_self {x m : ℚ} (h0 : 0 ≤ x) (h1 : x < m) : jsRem x m = x := by
  have hm : 0 < m := lt_of_le_of_lt h0 h1
  unfold jsRem
  have hq : 0 ≤ x / m := div_nonneg h0 hm.le
  have hfl : ⌊x / m⌋ = 0 := by
    rw [Int.floor_eq_iff]
    refine ⟨by simpa using hq, ?_⟩
    rw [div_lt_iff₀ hm]
    simpa using h1
  rw [if_pos hq, hfl]
  simp

theorem norm360_mem (L : ℚ) : 0 ≤ norm360 L ∧ norm360 L < 360 := by
  obtain ⟨t, _, h1, h2, _, _⟩ := jsRem_spec L (by norm_num : (0 : ℚ) < 360)
  unfold norm360
  simp only
  split_ifs with h
  · constructor <;> linarith
  · exact ⟨not_lt.mp h, h2⟩

/-- C20: `norm360(L)` lies in `[0, 360)`, differs from `L` by an integer multiple of 360,
and applying `norm360` again changes nothing. -/
theorem norm360_spec (L : ℚ) :
    0 ≤ norm360 L ∧ norm360 L < 360 ∧ (∃ k : ℤ, norm360 L = L + 360 * k) ∧
      norm360 (norm360 L) = norm360 L := by
  obtain ⟨h0, h1⟩ := norm360_mem L
  refine ⟨h0, h1, ?_, ?_⟩
  · obtain ⟨t, ht, _⟩ := jsRem_spec L (by norm_num : (0 : ℚ) < 360)
    unfold norm360
    simp only
    split_ifs
    · exact ⟨1 - t, by rw [ht]; push_cast; ring⟩
    · exact ⟨-t, by rw [ht]; push_cast; ring⟩
  · have hr : jsRem (norm360 L) 360 = norm360 L := jsRem_eq_self h0 h1
    have : norm360 (norm360 L) = if jsRem (norm360 L) 360 < 0 then jsRem (norm360 L) 360 + 360
        else jsRem (norm360 L) 360 := rfl
    rw [this, hr, if_neg (not_lt.mpr h0)]

/-- The value `norm` computed by `signFromLongitude` is the longitude reduced into
`[0, 360)`. -/
theorem signFromLongitude_norm (L : ℚ) :
    jsRem (jsRem L 360 + 360) 360 = L - 360 * (⌊L / 360⌋ : ℤ) := by
  obtain ⟨t, ht, h1, h2, _, _⟩ := jsRem_spec L (by norm_num : (0 : ℚ) < 360)
  obtain ⟨u, hu, _, h3, h4, _⟩ := jsRem_spec (jsRem L 360 + 360) (by norm_num : (0 : ℚ) < 360)
  have h5 := h4 (by linarith)
  have hfl : ⌊L / 360⌋ = t - 1 + u := by
    rw [Int.floor_eq_iff]
    push_cast
    rw [le_div_iff₀ (by norm_num : (0 : ℚ) < 360), div_lt_iff₀ (by norm_num : (0 : ℚ) < 360)]
    rw [hu, ht] at h5 h3
    constructor <;> linarith
  rw [hfl, hu, ht]
  push_cast
  ring

theorem signFromLongitude_eq (L : ℚ) (k : ℕ)
    (h1 : 30 * (k : ℚ) ≤ L - 360 * (⌊L / 360⌋ : ℤ))
    (h2 : L - 360 * (⌊L / 360⌋ : ℤ) < 30 * ((k : ℚ) + 1)) :
    signFromLongitude L = WESTERN_SIGNS[k]? := by
  unfold signFromLongitude
  simp only
  rw [signFromLongitude_norm]
  have hfl : ⌊(L - 360 * (⌊L / 360⌋ : ℤ)) / 30⌋ = (k : ℤ) := by
    rw [Int.floor_eq_iff]
    push_cast
    rw [le_div_iff₀ (by norm_num : (0 : ℚ) < 30), div_lt_iff₀ (by norm_num : (0 : ℚ) < 30)]
    constructor <;> linarith
  rw [hfl]
  unfold jsIndex
  simp

/-- C19: `signFromLongitude` returns one of the 12 signs for every longitude; when the
longitude reduced into `[0, 360)` lies in `[30k, 30(k+1))` the result is the `k`-th sign of the
order Aries, Taurus, ..., Pisces; and a shift by 360 does not change the result. -/
theorem signFromLongitude_spec (L : ℚ) :
    (∃ s ∈ WESTERN_SIGNS, signFromLongitude L = some s) ∧
    (∀ k : ℕ, k < 12 → 30 * (k : ℚ) ≤ L - 360 * (⌊L / 360⌋ : ℤ) →
      L - 360 * (⌊L / 360⌋ : ℤ) < 30 * ((k : ℚ) + 1) →
      signFromLongitude L = WESTERN_SIGNS[k]? ∧
        WESTERN_SIGNS[k]? = ["Aries", "Taurus", "Gemini", "Cancer", "Leo", "Virgo", "Libra",
          "Scorpio", "Sagittarius", "Capricorn", "Aquarius", "Pisces"][k]?) ∧
    signFromLongitude (L + 360) = signFromLongitude L := by
  have hbucket : ∀ M : ℚ, ∃ k : ℕ, k < 12 ∧ 30 * (k : ℚ) ≤ M - 360 * (⌊M / 360⌋ : ℤ) ∧
      M - 360 * (⌊M / 360⌋ : ℤ) < 30 * ((k : ℚ) + 1) := by
    intro M
    have h1 := Int.floor_le (M / 360)
    have h2 := Int.lt_floor_add_one (M / 360)
    rw [le_div_iff₀ (by norm_num : (0 : ℚ) < 360)] at h1
    rw [div_lt_iff₀ (by norm_num : (0 : ℚ) < 360)] at h2
    have h3 := Int.floor_le ((M - 360 * (⌊M / 360⌋ : ℤ)) / 30)
    have h4 := Int.lt_floor_add_one ((M - 360 * (⌊M / 360⌋ : ℤ)) / 30)
    rw [le_div_iff₀ (by norm_num : (0 : ℚ) < 30)] at h3
    rw [div_lt_iff₀ (by norm_num : (0 : ℚ) < 30)] at h4
    have h5 : (0 : ℤ) ≤ ⌊(M - 360 * (⌊M / 360⌋ : ℤ)) / 30⌋ := by
      rw [Int.le_floor]
      push_cast
      rw [le_div_iff₀ (by norm_num : (0 : ℚ) < 30)]
      linarith
    have h6 : ⌊(M - 360 * (⌊M / 360⌋ : ℤ)) / 30⌋ < 12 := by
      rw [Int.floor_lt]
      push_cast
      rw [div_lt_iff₀ (by norm_num : (0 : ℚ) < 30)]
      linarith
    obtain ⟨k, hk⟩ := Int.eq_ofNat_of_zero_le h5
    rw [hk] at h3 h4 h6
    refine ⟨k, by omega, ?_, ?_⟩
    · push_cast at h3
      linarith
    · push_cast at h4
      linarith
  refine ⟨?_, ?_, ?_⟩
  · obtain ⟨k, hk, h1, h2⟩ := hbucket L
    rw [signFromLongitude_eq L k h1 h2]
    have hlen : k < WESTERN_SIGNS.length := hk
    exact ⟨WESTERN_SIGNS[k], List.getElem_mem _, List.getElem?_eq_getElem hlen⟩
  · intro k _ h1 h2
    exact ⟨signFromLongitude_eq L k h1 h2, rfl⟩
  · obtain ⟨k, hk, h1, h2⟩ := hbucket L
    have hshift : ⌊(L + 360) / 360⌋ = ⌊L / 360⌋ + 1 := by
      rw [add_div, div_self (by norm_num : (360 : ℚ) ≠ 0)]
      exact Int.floor_add_one _
    rw [signFromLongitude_eq L k h1 h2, signFromLongitude_eq (L + 360) k]
    · rw [hshift]
      push_cast
      linarith
    · rw [hshift]
      push_cast
      linarith

/-- C19, at a concrete input: the longitude -725 reduces to 355, in the bucket of Pisces. -/
theorem signFromLongitude_spec_witness :
    signFromLongitude (-725) = WESTERN_SIGNS[11]? ∧
      WESTERN_SIGNS[11]? = ["Aries", "Taurus", "Gemini", "Cancer", "Leo", "Virgo", "Libra",
        "Scorpio", "Sagittarius", "Capricorn", "Aquarius", "Pisces"][11]? :=
  (signFromLongitude_spec (-725)).2.1 11 (by decide) (by decide!) (by decide!)

/-- C12: the text is `transitBody aspect natal natalBody (intensity, tone)`, where the
intensity is strong exactly for a strength of at least 0.75, moderate from 0.45 up to 0.75 and
mild below 0.45, and the tone is supportive, challenging or mixed as the stored polarity is
positive, negative or zero. -/
theorem aspectToHumanText_spec (a : DetectedAspect) :
    ∃ intensity tone : String,
      aspectToHumanText a =
        a.transitBody ++ " " ++ a.aspect ++ " natal " ++ a.natalBody ++ " (" ++ intensity ++ ", " ++
          tone ++ ")" ∧
      (intensity = "strong" ∨ intensity = "moderate" ∨ intensity = "mild") ∧
      (intensity = "strong" ↔ a.strength ≥ 75 / 100) ∧
      (intensity = "moderate" ↔ 45 / 100 ≤ a.strength ∧ a.strength < 75 / 100) ∧
      (intensity = "mild" ↔ a.strength < 45 / 100) ∧
      (tone = "supportive" ∨ tone = "challenging" ∨ tone = "mixed") ∧
      (tone = "supportive" ↔ a.polarity > 0) ∧
      (tone = "challenging" ↔ a.polarity < 0) ∧
      (tone = "mixed" ↔ a.polarity = 0) := by
  refine ⟨if a.strength ≥ 75 / 100 then "strong"
      else if a.strength ≥ 45 / 100 then "moderate" else "mild",
    if a.polarity > 0 then "supportive" else if a.polarity < 0 then "challenging" else "mixed",
    rfl, ?_, ?_, ?_, ?_, ?_, ?_, ?_, ?_⟩
  · split_ifs <;> simp
  · split_ifs with h1 h2 <;> simp [h1]
  · split_ifs with h1 h2
    · simp only [ge_iff_le] at h1
      simp [not_lt.mpr h1]
    · simp only [ge_iff_le, not_le] at h1 h2
      simp [h1, h2]
    · simp only [ge_iff_le, not_le] at h1 h2
      simp [not_le.mpr h2]
  · split_ifs with h1 h2
    · simp only [ge_iff_le] at h1
      have : ¬ a.strength < 45 / 100 := by
        intro h
        have : (45 : ℚ) / 100 < 75 / 100 := by norm_num
        linarith
      simp [this]
    · simp only [ge_iff_le] at h2
      simp [not_lt.mpr h2]
    · simp only [ge_iff_le, not_le] at h2
      simp [h2]
  · split_ifs <;> simp
  · split_ifs with h1 h2 <;> simp [h1]
  · split_ifs with h1 h2
    · simp [not_lt.mpr h1.le]
    · simp [h2]
    · simp [h2]
  · split_ifs with h1 h2
    · simp [h1.ne']
    · simp [h2.ne]
    · simp only [gt_iff_lt, not_lt] at h1 h2
      simp [le_antisymm h1 h2]

/-! ## Properties of the explanations -/

theorem explainBefore_iff (a b : DetectedAspect) :
    explainBefore a b ↔
      (a.isMoonAspect = true ∧ b.isMoonAspect = false) ∨
        (a.isMoonAspect = b.isMoonAspect ∧ b.strength ≤ a.strength) := by
  unfold explainBefore
  cases a.isMoonAspect <;> cases b.isMoonAspect <;> simp

theorem pickLoop_eq (n : ℕ) :
    ∀ (l : List DetectedAspect) (seen : List String) (out : List DetectedAspect),
      out.length < n →
        pickLoop n l seen out = out ++ (keepFirst seen l).take (n - out.length) := by
  intro l
  induction l with
  | nil => intro seen out _; simp [pickLoop, keepFirst]
  | cons a l ih =>
    intro seen out hlt
    unfold pickLoop keepFirst
    by_cases hmem : explanationKey a ∈ seen
    · rw [if_pos hmem, if_pos hmem]
      exact ih seen out hlt
    · rw [if_neg hmem, if_neg hmem]
      by_cases hfull : (out ++ [a]).length ≥ n
      · rw [if_pos hfull]
        have hone : n - out.length = 1 := by
          rw [List.length_append, List.length_singleton] at hfull
          omega
        rw [hone]
        simp
      · rw [if_neg hfull]
        have hlt' : (out ++ [a]).length < n := not_le.mp hfull
        rw [ih _ _ hlt']
        have hsucc : n - out.length = (n - (out ++ [a]).length) + 1 := by
          rw [List.length_append, List.length_singleton] at hlt' ⊢
          omega
        rw [hsucc, List.take_succ_cons, List.append_assoc]
        rfl

theorem pickTopExplanations_eq (aspects : List DetectedAspect) :
    pickTopExplanations aspects 8 =
      (keepFirst [] (List.insertionSort explainBefore aspects)).take 8 := by
  unfold pickTopExplanations
  rw [pickLoop_eq 8 _ [] [] (by decide)]
  rfl

theorem keepFirst_sublist : ∀ (l : List DetectedAspect) (seen : List String),
    List.Sublist (keepFirst seen l) l := by
  intro l
  induction l with
  | nil => intro seen; exact List.Sublist.slnil
  | cons a l ih =>
    intro seen
    unfold keepFirst
    split_ifs
    · exact (ih seen).cons a
    · exact (ih _).cons₂ a

theorem mem_keepFirst_keys : ∀ (l : List DetectedAspect) (seen : List String) (k : String),
    k ∈ (keepFirst seen l).map explanationKey ↔ k ∈ l.map explanationKey ∧ k ∉ seen := by
  intro l
  induction l with
  | nil => intro seen k; simp [keepFirst]
  | cons a l ih =>
    intro seen k
    unfold keepFirst
    by_cases hmem : explanationKey a ∈ seen
    · rw [if_pos hmem, ih, List.map_cons, List.mem_cons]
      constructor
      · rintro ⟨h1, h2⟩
        exact ⟨Or.inr h1, h2⟩
      · rintro ⟨h1 | h1, h2⟩
        · exact absurd (h1 ▸ hmem) h2
        · exact ⟨h1, h2⟩
    · rw [if_neg hmem, List.map_cons, List.mem_cons, ih, List.map_cons, List.mem_cons,
        List.mem_cons]
      constructor
      · rintro (h | ⟨h1, h2⟩)
        · exact ⟨Or.inl h, fun hk => hmem (h ▸ hk)⟩
        · exact ⟨Or.inr h1, fun hk => h2 (Or.inr hk)⟩
      · rintro ⟨h1 | h1, h2⟩
        · exact Or.inl h1
        · by_cases hk : k = explanationKey a
          · exact Or.inl hk
          · exact Or.inr ⟨h1, fun h => h.elim hk h2⟩

theorem nodup_keepFirst_keys : ∀ (l : List DetectedAspect) (seen : List String),
    ((keepFirst seen l).map explanationKey).Nodup := by
  intro l
  induction l with
  | nil => intro seen; simp [keepFirst]
  | cons a l ih =>
    intro seen
    unfold keepFirst
    split_ifs with hmem
    · exact ih seen
    · rw [List.map_cons, List.nodup_cons]
      refine ⟨?_, ih _⟩
      rw [mem_keepFirst_keys]
      rintro ⟨_, h2⟩
      exact h2 (List.mem_cons_self _ _)

theorem length_keepFirst (l : List DetectedAspect) :
    (keepFirst [] l).length = (l.map explanationKey).dedup.length := by
  have hperm : List.Perm ((keepFirst [] l).map explanationKey) (l.map explanationKey).dedup := by
    rw [List.perm_ext_iff_of_nodup (nodup_keepFirst_keys l []) (List.nodup_dedup _)]
    intro k
    rw [mem_keepFirst_keys, List.mem_dedup]
    simp
  rw [← hperm.length_eq, List.length_map]

theorem hyphen_split : ∀ (l₁ l₂ r₁ r₂ : List Char), '-' ∉ l₁ → '-' ∉ l₂ →
    l₁ ++ '-' :: r₁ = l₂ ++ '-' :: r₂ → l₁ = l₂ ∧ r₁ = r₂ := by
  intro l₁
  induction l₁ with
  | nil =>
    intro l₂ r₁ r₂ _ h2 h
    cases l₂ with
    | nil => exact ⟨rfl, by simpa using h⟩
    | cons c l₂ =>
      simp only [List.nil_append, List.cons_append, List.cons.injEq] at h
      exact absurd (h.1 ▸ List.mem_cons_self _ _) h2
  | cons c l₁ ih =>
    intro l₂ r₁ r₂ h1 h2 h
    cases l₂ with
    | nil =>
      simp only [List.nil_append, List.cons_append, List.cons.injEq] at h
      exact absurd (h.1 ▸ List.mem_cons_self _ _) h1
    | cons d l₂ =>
      simp only [List.cons_append, List.cons.injEq] at h
      obtain ⟨hl, hr⟩ := ih l₂ r₁ r₂ (fun hm => h1 (List.mem_cons_of_mem _ hm))
        (fun hm => h2 (List.mem_cons_of_mem _ hm)) h.2
      exact ⟨by rw [h.1, hl], hr⟩

/-- Two aspects whose transit body and aspect name have no hyphen and whose keys are equal
have the same triple. -/
theorem tripleOf_eq_of_key_eq {a b : DetectedAspect}
    (ha : '-' ∉ a.transitBody.data ∧ '-' ∉ a.aspect.data)
    (hb : '-' ∉ b.transitBody.data ∧ '-' ∉ b.aspect.data)
    (h : explanationKey a = explanationKey b) : tripleOf a = tripleOf b := by
  have hd := congrArg String.data h
  unfold explanationKey at hd
  simp only [String.data_append, List.append_assoc] at hd
  simp only [List.singleton_append] at hd
  obtain ⟨h1, h2⟩ := hyphen_split _ _ _ _ ha.1 hb.1 hd
  obtain ⟨h3, h4⟩ := hyphen_split _ _ _ _ ha.2 hb.2 h2
  unfold tripleOf
  rw [String.ext h1, String.ext h3, String.ext h4]

theorem explanationKey_eq_of_tripleOf_eq {a b : DetectedAspect} (h : tripleOf a = tripleOf b) :
    explanationKey a = explanationKey b := by
  unfold tripleOf at h
  simp only [Prod.mk.injEq] at h
  unfold explanationKey
  rw [h.1, h.2.1, h.2.2]

/-- When the key tells the triples of a list apart, the list has as many distinct keys as
distinct triples. -/
theorem length_dedup_keys (l : List DetectedAspect)
    (hinj : ∀ a ∈ l, ∀ b ∈ l, explanationKey a = explanationKey b → tripleOf a = tripleOf b) :
    (l.map explanationKey).dedup.length = (l.map tripleOf).dedup.length := by
  rw [← List.card_toFinset, ← List.card_toFinset]
  have himg : (l.map explanationKey).toFinset =
      (l.map tripleOf).toFinset.image (fun t => t.1 ++ "-" ++ t.2.1 ++ "-" ++ t.2.2) := by
    ext k
    simp only [List.mem_toFinset, List.mem_map, Finset.mem_image]
    constructor
    · rintro ⟨a, ha, rfl⟩
      exact ⟨tripleOf a, ⟨a, ha, rfl⟩, rfl⟩
    · rintro ⟨t, ⟨a, ha, rfl⟩, rfl⟩
      exact ⟨a, ha, rfl⟩
  rw [himg, Finset.card_image_of_injOn]
  intro t ht u hu htu
  simp only [Finset.mem_coe, List.mem_toFinset, List.mem_map] at ht hu
  obtain ⟨a, ha, rfl⟩ := ht
  obtain ⟨b, hb, rfl⟩ := hu
  exact hinj a ha b hb htu

theorem topAspects_eq (sunSign : String) (aspects : List DetectedAspect) :
    (scorePersonalDay sunSign aspects).topAspects =
      (keepFirst [] (List.insertionSort explainBefore aspects)).take 8 :=
  pickTopExplanations_eq aspects

/-- C11: the claim fails when the key `transitBody-aspect-natalBody` of two different triples
is the same string: the detector's output for transit bodies `Sun` and `Sun-Trine-Moon` against
natal bodies `Moon-Trine-Mars` and `Mars` has four triples, two of them with the key
`Sun-Trine-Moon-Trine-Mars`, and gives three explanations.  For every aspect list the explanations are entries of the whole list (a Moon
aspect in 26th place comes first), their number is the smaller of 8 and the number of distinct
keys, which is the number of distinct triples when no transit body or aspect name contains a
hyphen; no two explanations share a triple; Moon entries precede the others; and within the
Moon entries and within the others the strength does not increase. -/
theorem topAspects_spec :
    ((scorePersonalDay "Leo"
        (computeTransitNatalAspects [("Sun", 120), ("Sun-Trine-Moon", 120)]
          [("Moon-Trine-Mars", 0), ("Mars", 0)])).topAspects.length = 3 ∧
      ((computeTransitNatalAspects [("Sun", 120), ("Sun-Trine-Moon", 120)]
          [("Moon-Trine-Mars", 0), ("Mars", 0)]).map tripleOf).dedup.length = 4) ∧
    (scorePersonalDay "Leo"
        (List.replicate 25 (mkAspect "Sun" 120 "Sun" 0 ⟨"Trine", 120, 8, 1⟩) ++
          [mkAspect "Moon" 0 "Venus" 0 ⟨"Conjunction", 0, 10, 0⟩])).topAspects =
      [mkAspect "Moon" 0 "Venus" 0 ⟨"Conjunction", 0, 10, 0⟩,
        mkAspect "Sun" 120 "Sun" 0 ⟨"Trine", 120, 8, 1⟩] ∧
    ∀ (sunSign : String) (aspects : List DetectedAspect),
      (scorePersonalDay sunSign aspects).topAspects.length =
        min 8 (aspects.map explanationKey).dedup.length ∧
      ((∀ a ∈ aspects, '-' ∉ a.transitBody.data ∧ '-' ∉ a.aspect.data) →
        (scorePersonalDay sunSign aspects).topAspects.length =
          min 8 (aspects.map tripleOf).dedup.length) ∧
      (∀ e ∈ (scorePersonalDay sunSign aspects).topAspects, e ∈ aspects) ∧
      ((scorePersonalDay sunSign aspects).topAspects.map tripleOf).Nodup ∧
      (scorePersonalDay sunSign aspects).topAspects.Pairwise
        (fun a b => (b.isMoonAspect = true → a.isMoonAspect = true) ∧
          (a.isMoonAspect = b.isMoonAspect → b.strength ≤ a.strength)) := by
  refine ⟨by decide!, by decide!, ?_⟩
  intro sunSign aspects
  rw [topAspects_eq]
  have hperm := List.perm_insertionSort explainBefore aspects
  have hsub : List.Sublist ((keepFirst [] (List.insertionSort explainBefore aspects)).take 8)
      (List.insertionSort explainBefore aspects) :=
    (List.take_sublist _ _).trans (keepFirst_sublist _ _)
  have hlen : ((keepFirst [] (List.insertionSort explainBefore aspects)).take 8).length =
      min 8 (aspects.map explanationKey).dedup.length := by
    rw [List.length_take, length_keepFirst, ((hperm.map explanationKey).dedup).length_eq]
  refine ⟨hlen, ?_, ?_, ?_, ?_⟩
  · intro hfree
    rw [hlen, length_dedup_keys]
    intro a ha b hb hkey
    exact tripleOf_eq_of_key_eq (hfree a ha) (hfree b hb) hkey
  · intro e he
    exact hperm.mem_iff.mp (hsub.subset he)
  · have hk : (((keepFirst [] (List.insertionSort explainBefore aspects)).take 8).map
        explanationKey).Nodup :=
      List.Nodup.sublist ((List.take_sublist _ _).map explanationKey)
        (nodup_keepFirst_keys _ _)
    have hcomp : ((keepFirst [] (List.insertionSort explainBefore aspects)).take 8).map
        explanationKey =
        (((keepFirst [] (List.insertionSort explainBefore aspects)).take 8).map tripleOf).map
          (fun t => t.1 ++ "-" ++ t.2.1 ++ "-" ++ t.2.2) := by
      rw [List.map_map]
      rfl
    rw [hcomp] at hk
    exact List.Nodup.of_map _ hk
  · have hsorted : List.Pairwise explainBefore (List.insertionSort explainBefore aspects) :=
      List.sorted_insertionSort explainBefore aspects
    refine (hsorted.sublist hsub).imp ?_
    intro a b hab
    rw [explainBefore_iff] at hab
    rcases hab with ⟨h1, h2⟩ | ⟨h1, h2⟩
    · exact ⟨fun _ => h1, fun h => by rw [h1, h2] at h; exact absurd h (by decide)⟩
    · exact ⟨fun h => by rw [h1]; exact h, fun _ => h2⟩

/-! ## Properties of the daily content picker -/

theorem mulberry32Next_unit (a : ℕ) :
    0 ≤ (mulberry32Next a).1 ∧ (mulberry32Next a).1 < 1 := by
  unfold mulberry32Next
  simp only
  constructor
  · exact div_nonneg (Nat.cast_nonneg _) (by norm_num)
  · rw [div_lt_one (by norm_num : (0 : ℚ) < 4294967296)]
    exact_mod_cast Nat.mod_lt _ (by norm_num : 0 < 4294967296)

theorem mulberry32_inUnit (seed : ℕ) : (mulberry32 seed).InUnit :=
  fun s => mulberry32Next_unit s

theorem Rng.InUnit.call {σ : Type} {rng : Rng σ} (h : rng.InUnit) :
    0 ≤ rng.call.1 ∧ rng.call.1 < 1 ∧ rng.call.2.InUnit :=
  ⟨(h rng.state).1, (h rng.state).2, fun s => h s⟩

/-- A value in `[0, 1)` scaled by a positive length and floored is an index of the list. -/
theorem floor_scale_mem {r : ℚ} (h0 : 0 ≤ r) (h1 : r < 1) {len : ℕ} (hlen : 0 < len) :
    ∃ i : ℕ, ⌊r * (len : ℚ)⌋ = (i : ℤ) ∧ i < len := by
  have hpos : (0 : ℚ) < len := by exact_mod_cast hlen
  have hnn : (0 : ℤ) ≤ ⌊r * (len : ℚ)⌋ := by
    rw [Int.le_floor]
    simpa using mul_nonneg h0 hpos.le
  have hlt : ⌊r * (len : ℚ)⌋ < (len : ℤ) := by
    rw [Int.floor_lt]
    push_cast
    nlinarith
  obtain ⟨i, hi⟩ := Int.eq_ofNat_of_zero_le hnn
  exact ⟨i, hi, by omega⟩

theorem jsIndex_natCast {α : Type} (arr : List α) (i : ℕ) : jsIndex arr (i : ℤ) = arr[i]? := by
  unfold jsIndex
  simp

theorem jsSplice1_natCast {α : Type} (copy : List α) {i : ℕ} (hi : i < copy.length) :
    jsSplice1 copy (i : ℤ) = copy.eraseIdx i := by
  unfold jsSplice1
  have h1 : ¬ ((i : ℤ) < 0) := by omega
  have h2 : min (i : ℤ) (copy.length : ℤ) = (i : ℤ) := min_eq_left (by omega)
  simp only [h1, if_false, h2, Int.toNat_ofNat]

theorem pickOne_ok {σ α : Type} {rng : Rng σ} (hrng : rng.InUnit) {arr : List α}
    (harr : 0 < arr.length) :
    ∃ i : ℕ, ∃ hi : i < arr.length, pickOne rng arr = Except.ok (some (arr.get ⟨i, hi⟩)) := by
  obtain ⟨h0, h1, _⟩ := hrng.call
  obtain ⟨i, hfl, hi⟩ := floor_scale_mem h0 h1 harr
  refine ⟨i, hi, ?_⟩
  unfold pickOne
  rw [if_neg (by omega)]
  simp only [hfl, jsIndex_natCast, List.getElem?_eq_getElem hi]
  rfl

theorem length_pickNLoop {σ α : Type} :
    ∀ (k : ℕ) (rng : Rng σ) (copy : List α) (out : List (Option α)),
      (pickNLoop k rng copy out).length = out.length + k := by
  intro k
  induction k with
  | zero => intro rng copy out; rfl
  | succ k ih =>
    intro rng copy out
    unfold pickNLoop
    simp only
    rw [ih, List.length_append, List.length_singleton]
    omega

theorem length_pickNUnique {σ α : Type} (rng : Rng σ) (arr : List α) (n : ℕ) :
    (pickNUnique rng arr n).length = min n arr.length := by
  unfold pickNUnique
  rw [length_pickNLoop]
  simp

theorem eraseIdx_map_eq {α β : Type} (f : β → α) :
    ∀ (l : List β) (i : ℕ), (l.map f).eraseIdx i = (l.eraseIdx i).map f := by
  intro l
  induction l with
  | nil => intro i; rfl
  | cons b l ih =>
    intro i
    cases i with
    | zero => rfl
    | succ i => simp [List.eraseIdx, ih]

theorem perm_cons_eraseIdx {β : Type} (l : List β) {i : ℕ} (hi : i < l.length) :
    List.Perm (l.get ⟨i, hi⟩ :: l.eraseIdx i) l := by
  induction l generalizing i with
  | nil => simp at hi
  | cons b l ih =>
    cases i with
    | zero => exact List.Perm.refl _
    | succ i =>
      have hi' : i < l.length := by simpa using hi
      have := ih hi'
      exact (List.Perm.swap _ _ _).trans (this.cons b)

/-- The loop of `pickNUnique` on a list of tagged entries: with a generator in `[0, 1)` and
at most as many rounds as entries, the picks are the images of `k` of the tags, and these tags
together with those left over are the tags of the list. -/
theorem pickNLoop_tagged {σ α β : Type} (f : β → α) :
    ∀ (k : ℕ) (rng : Rng σ) (pos : List β) (out : List (Option α)),
      rng.InUnit → k ≤ pos.length →
        ∃ chosen rest : List β,
          pickNLoop k rng (pos.map f) out = out ++ chosen.map (fun p => some (f p)) ∧
            chosen.length = k ∧ List.Perm (chosen ++ rest) pos := by
  intro k
  induction k with
  | zero =>
    intro rng pos out _ _
    exact ⟨[], pos, by simp [pickNLoop], rfl, List.Perm.refl _⟩
  | succ k ih =>
    intro rng pos out hrng hk
    obtain ⟨h0, h1, hnext⟩ := hrng.call
    have hlen : 0 < (pos.map f).length := by
      rw [List.length_map]
      omega
    obtain ⟨i, hfl, hi⟩ := floor_scale_mem h0 h1 hlen
    have hi' : i < pos.length := by simpa using hi
    unfold pickNLoop
    simp only [hfl, jsIndex_natCast, jsSplice1_natCast _ hi, eraseIdx_map_eq]
    have hk' : k ≤ (pos.eraseIdx i).length := by
      rw [List.length_eraseIdx]
      simp only [hi', if_true]
      omega
    obtain ⟨chosen, rest, heq, hclen, hperm⟩ :=
      ih rng.call.2 (pos.eraseIdx i) (out ++ [(pos.map f)[i]?]) hnext hk'
    refine ⟨pos.get ⟨i, hi'⟩ :: chosen, rest, ?_, by simp [hclen], ?_⟩
    · rw [heq, List.append_assoc]
      simp [List.getElem?_eq_getElem hi']
    · exact (hperm.cons _).trans (perm_cons_eraseIdx pos hi')

theorem pickOne_eq {σ α : Type} (rng : Rng σ) {arr : List α} (harr : 0 < arr.length) :
    pickOne rng arr = Except.ok (pickOneValue rng arr) := by
  unfold pickOne pickOneValue
  rw [if_neg (by omega)]

/-- With all five lists non-empty the bundle is returned, and each of its fields is computed
from the generator of its own category seed and, for the five list fields, its own list. -/
theorem getDailyContent_eq (hashToUint32 : String → ℕ) (lists : ContentLists)
    (userId localDate tz : String) (hv : lists.Valid) :
    getDailyContent hashToUint32 lists userId localDate tz =
      Except.ok
        { life_advice :=
            pickOneValue (mulberry32 (hashToUint32 (categorySeed userId localDate tz "|advice")))
              lists.lifeAdvices
          suggest_to_do :=
            pickNUnique (mulberry32 (hashToUint32 (categorySeed userId localDate tz "|suggest")))
              lists.suggestToDo 2
          avoid_to_do :=
            pickNUnique (mulberry32 (hashToUint32 (categorySeed userId localDate tz "|avoid")))
              lists.avoidToDo 2
          lucky_food :=
            pickOneValue (mulberry32 (hashToUint32 (categorySeed userId localDate tz "|food")))
              lists.foods
          daily_tasks :=
            pickNUnique (mulberry32 (hashToUint32 (categorySeed userId localDate tz "|tasks")))
              lists.dailyTasks 3
          lucky_color :=
            pickOneValue (mulberry32 (hashToUint32 (categorySeed userId localDate tz "|color")))
              LUCK_COLORS
          lucky_numbers :=
            pickNUnique (mulberry32 (hashToUint32 (categorySeed userId localDate tz "|numbers")))
              (List.range' 1 99) 2
          lucky_time :=
            formatHourRange
              (startHourOf (mulberry32 (hashToUint32 (categorySeed userId localDate tz "|time")))) } := by
  obtain ⟨h1, h2, h3, h4, h5⟩ := hv
  unfold getDailyContent
  simp only
  rw [if_neg (by omega), if_neg (by omega), if_neg (by omega), if_neg (by omega),
    if_neg (by omega), pickOne_eq _ (by decide : 0 < LUCK_COLORS.length), pickOne_eq _ h1,
    pickOne_eq _ h4]
  rfl

theorem getDailyContent_error (hashToUint32 : String → ℕ) (lists : ContentLists)
    (userId localDate tz : String) (hv : ¬ lists.Valid) :
    ∃ e, getDailyContent hashToUint32 lists userId localDate tz = Except.error e := by
  unfold ContentLists.Valid at hv
  unfold getDailyContent
  simp only
  by_cases h1 : lists.lifeAdvices.length = 0
  · exact ⟨_, if_pos h1⟩
  · rw [if_neg h1]
    by_cases h2 : lists.suggestToDo.length = 0
    · exact ⟨_, if_pos h2⟩
    · rw [if_neg h2]
      by_cases h3 : lists.avoidToDo.length = 0
      · exact ⟨_, if_pos h3⟩
      · rw [if_neg h3]
        by_cases h4 : lists.foods.length = 0
        · exact ⟨_, if_pos h4⟩
        · rw [if_neg h4]
          by_cases h5 : lists.dailyTasks.length = 0
          · exact ⟨_, if_pos h5⟩
          · exact absurd ⟨by omega, by omega, by omega, by omega, by omega⟩ hv

/-- C13: with the digest and the five lists fixed, the bundle is a function of
`(userId, localDate, tz)`; each field is computed from its own category seed and its own list
only: for two sets of non-empty lists a list field is the same whenever its own list is the
same, so replacing one list leaves the other seven fields unchanged, and `lucky_color`,
`lucky_numbers` and `lucky_time` are the same for all lists. -/
theorem getDailyContent_independent (hashToUint32 : String → ℕ) (lists lists' : ContentLists)
    (userId localDate tz : String) (hv : lists.Valid) (hv' : lists'.Valid) :
    (∀ userId' localDate' tz' : String, userId' = userId → localDate' = localDate → tz' = tz →
      getDailyContent hashToUint32 lists userId' localDate' tz' =
        getDailyContent hashToUint32 lists userId localDate tz) ∧
    ∃ b b' : DailyContent,
      getDailyContent hashToUint32 lists userId localDate tz = Except.ok b ∧
      getDailyContent hashToUint32 lists' userId localDate tz = Except.ok b' ∧
      b.life_advice =
        pickOneValue (mulberry32 (hashToUint32 (userId ++ "|" ++ localDate ++ "|" ++ tz ++
          "|advice"))) lists.lifeAdvices ∧
      b.suggest_to_do =
        pickNUnique (mulberry32 (hashToUint32 (userId ++ "|" ++ localDate ++ "|" ++ tz ++
          "|suggest"))) lists.suggestToDo 2 ∧
      b.avoid_to_do =
        pickNUnique (mulberry32 (hashToUint32 (userId ++ "|" ++ localDate ++ "|" ++ tz ++
          "|avoid"))) lists.avoidToDo 2 ∧
      b.lucky_food =
        pickOneValue (mulberry32 (hashToUint32 (userId ++ "|" ++ localDate ++ "|" ++ tz ++
          "|food"))) lists.foods ∧
      b.daily_tasks =
        pickNUnique (mulberry32 (hashToUint32 (userId ++ "|" ++ localDate ++ "|" ++ tz ++
          "|tasks"))) lists.dailyTasks 3 ∧
      b.lucky_color =
        pickOneValue (mulberry32 (hashToUint32 (userId ++ "|" ++ localDate ++ "|" ++ tz ++
          "|color"))) LUCK_COLORS ∧
      b.lucky_numbers =
        pickNUnique (mulberry32 (hashToUint32 (userId ++ "|" ++ localDate ++ "|" ++ tz ++
          "|numbers"))) (List.range' 1 99) 2 ∧
      b.lucky_time =
        formatHourRange (startHourOf (mulberry32 (hashToUint32 (userId ++ "|" ++ localDate ++
          "|" ++ tz ++ "|time")))) ∧
      (lists.lifeAdvices = lists'.lifeAdvices → b.life_advice = b'.life_advice) ∧
      (lists.suggestToDo = lists'.suggestToDo → b.suggest_to_do = b'.suggest_to_do) ∧
      (lists.avoidToDo = lists'.avoidToDo → b.avoid_to_do = b'.avoid_to_do) ∧
      (lists.foods = lists'.foods → b.lucky_food = b'.lucky_food) ∧
      (lists.dailyTasks = lists'.dailyTasks → b.daily_tasks = b'.daily_tasks) ∧
      b.lucky_color = b'.lucky_color ∧ b.lucky_numbers = b'.lucky_numbers ∧
      b.lucky_time = b'.lucky_time := by
  refine ⟨fun _ _ _ h1 h2 h3 => by rw [h1, h2, h3], _, _,
    getDailyContent_eq hashToUint32 lists userId localDate tz hv,
    getDailyContent_eq hashToUint32 lists' userId localDate tz hv',
    rfl, rfl, rfl, rfl, rfl, rfl, rfl, rfl, ?_, ?_, ?_, ?_, ?_, rfl, rfl, rfl⟩
  · intro h; simp only [h]
  · intro h; simp only [h]
  · intro h; simp only [h]
  · intro h; simp only [h]
  · intro h; simp only [h]

/-- C13, at a concrete input: replacing a one-entry suggestion list by another one leaves the
advice unchanged. -/
theorem getDailyContent_independent_witness :
    ∃ b b' : DailyContent,
      getDailyContent (fun _ => 7) ⟨["a1", "a2"], ["s1"], ["v1"], ["t1"], ["f1"]⟩ "u"
        "2026-01-06" "Asia/Tokyo" = Except.ok b ∧
      getDailyContent (fun _ => 7) ⟨["a1", "a2"], ["s2", "s3"], ["v1"], ["t1"], ["f1"]⟩ "u"
        "2026-01-06" "Asia/Tokyo" = Except.ok b' ∧
      b.life_advice = b'.life_advice ∧ b.lucky_time = b'.lucky_time := by
  obtain ⟨b, b', h1, h2, _, _, _, _, _, _, _, _, h3, _, _, _, _, _, _, h4⟩ :=
    (getDailyContent_independent (fun _ => 7) ⟨["a1", "a2"], ["s1"], ["v1"], ["t1"], ["f1"]⟩
      ⟨["a1", "a2"], ["s2", "s3"], ["v1"], ["t1"], ["f1"]⟩ "u" "2026-01-06" "Asia/Tokyo"
      (by decide) (by decide)).2
  exact ⟨b, b', h1, h2, h3 rfl, h4⟩

theorem pickNUnique_mem {σ α : Type} {rng : Rng σ} (hrng : rng.InUnit) (arr : List α) (n : ℕ) :
    ∃ chosen rest : List α,
      pickNUnique rng arr n = chosen.map some ∧ chosen.length = min n arr.length ∧
        List.Perm (chosen ++ rest) arr := by
  obtain ⟨chosen, rest, heq, hlen, hperm⟩ :=
    pickNLoop_tagged (fun x : α => x) (min n arr.length) rng arr [] hrng (min_le_right _ _)
  refine ⟨chosen, rest, ?_, hlen, hperm⟩
  unfold pickNUnique
  rw [List.map_id'] at heq
  rw [heq, List.nil_append]

/-- The two lucky numbers of a generator in `[0, 1)`: different integers between 1 and 99. -/
theorem luckyNumbers_spec {σ : Type} {rng : Rng σ} (hrng : rng.InUnit) :
    ∃ x y : ℕ, pickNUnique rng (List.range' 1 99) 2 = [some x, some y] ∧ x ≠ y ∧
      1 ≤ x ∧ x ≤ 99 ∧ 1 ≤ y ∧ y ≤ 99 := by
  obtain ⟨chosen, rest, heq, hlen, hperm⟩ := pickNUnique_mem hrng (List.range' 1 99) 2
  have hnd : (chosen ++ rest).Nodup := hperm.nodup_iff.mpr (List.nodup_range' 1 99)
  have hmem : ∀ z ∈ chosen, 1 ≤ z ∧ z ≤ 99 := by
    intro z hz
    have := hperm.mem_iff.mp (List.mem_append_left rest hz)
    rw [List.mem_range'_1] at this
    omega
  have hlen2 : chosen.length = 2 := by rw [hlen]; decide
  match chosen, hlen2, heq, hnd, hmem with
  | [x, y], _, heq, hnd, hmem =>
    have hxy : x ≠ y := by
      intro h
      rw [h] at hnd
      simp at hnd
    exact ⟨x, y, heq, hxy, (hmem x (by simp)).1, (hmem x (by simp)).2, (hmem y (by simp)).1,
      (hmem y (by simp)).2⟩

/-- C14: for a generator with values in `[0, 1)`, `pickNUnique(rng, arr, n)` returns the
elements at `min(n, |arr|)` pairwise distinct positions of `arr`, each position inside the
array, and a rearrangement of the whole array when `|arr| <= n`; the array itself is only
read; and the `lucky_numbers` of every returned bundle are two different integers between 1
and 99. -/
theorem pickNUnique_spec {σ α : Type} (rng : Rng σ) (hrng : rng.InUnit) (arr : List α) (n : ℕ) :
    (∃ positions : List (Fin arr.length),
      positions.Nodup ∧ positions.length = min n arr.length ∧
        pickNUnique rng arr n = positions.map (fun p => some (arr.get p))) ∧
    (arr.length ≤ n → List.Perm (pickNUnique rng arr n) (arr.map some)) ∧
    (∀ (hashToUint32 : String → ℕ) (lists : ContentLists) (userId localDate tz : String)
      (b : DailyContent),
      getDailyContent hashToUint32 lists userId localDate tz = Except.ok b →
        ∃ x y : ℕ, b.lucky_numbers = [some x, some y] ∧ x ≠ y ∧ 1 ≤ x ∧ x ≤ 99 ∧
          1 ≤ y ∧ y ≤ 99) := by
  have htag : ∃ chosen rest : List (Fin arr.length),
      pickNUnique rng arr n = chosen.map (fun p => some (arr.get p)) ∧
        chosen.length = min n arr.length ∧
        List.Perm (chosen ++ rest) (List.finRange arr.length) := by
    obtain ⟨chosen, rest, heq, hlen, hperm⟩ :=
      pickNLoop_tagged arr.get (min n arr.length) rng (List.finRange arr.length) [] hrng
        (by rw [List.length_finRange]; exact min_le_right _ _)
    refine ⟨chosen, rest, ?_, hlen, hperm⟩
    unfold pickNUnique
    rw [List.finRange_map_get] at heq
    rw [heq, List.nil_append]
  obtain ⟨chosen, rest, heq, hlen, hperm⟩ := htag
  have hnd : (chosen ++ rest).Nodup := hperm.nodup_iff.mpr (List.nodup_finRange _)
  refine ⟨⟨chosen, (List.nodup_append.mp hnd).1, hlen, heq⟩, ?_, ?_⟩
  · intro hle
    have hclen : chosen.length = arr.length := by rw [hlen]; exact min_eq_right hle
    have hrest : rest = [] := by
      have h := hperm.length_eq
      rw [List.length_append, List.length_finRange, hclen] at h
      exact List.length_eq_zero.mp (by omega)
    rw [hrest, List.append_nil] at hperm
    have hmap := hperm.map (fun p => some (arr.get p))
    have hfin : (List.finRange arr.length).map (fun p => some (arr.get p)) = arr.map some := by
      conv_rhs => rw [← List.finRange_map_get arr]
      rw [List.map_map]
      rfl
    rw [heq]
    rw [hfin] at hmap
    exact hmap
  · intro hashToUint32 lists userId localDate tz b hb
    by_cases hv : lists.Valid
    · rw [getDailyContent_eq hashToUint32 lists userId localDate tz hv] at hb
      injection hb with hb
      subst hb
      exact luckyNumbers_spec (mulberry32_inUnit _)
    · obtain ⟨e, he⟩ := getDailyContent_error hashToUint32 lists userId localDate tz hv
      rw [he] at hb
      exact absurd hb (by simp)

/-- C14, at a concrete input: two picks out of three strings with the generator of seed 0. -/
theorem pickNUnique_spec_witness :
    ∃ positions : List (Fin ["a", "b", "c"].length),
      positions.Nodup ∧ positions.length = min 2 ["a", "b", "c"].length ∧
        pickNUnique (mulberry32 0) ["a", "b", "c"] 2 =
          positions.map (fun p => some (["a", "b", "c"].get p)) :=
  (pickNUnique_spec (mulberry32 0) (mulberry32_inUnit 0) ["a", "b", "c"] 2).1

theorem startHourOf_mem {σ : Type} {rng : Rng σ} (hrng : rng.InUnit) :
    8 ≤ startHourOf rng ∧ startHourOf rng ≤ 21 := by
  obtain ⟨h0, h1, _⟩ := hrng.call
  unfold startHourOf
  have hfl0 : (0 : ℤ) ≤ ⌊rng.call.1 * (21 - 8 + 1)⌋ := by
    rw [Int.le_floor]
    push_cast
    nlinarith
  have hfl1 : ⌊rng.call.1 * (21 - 8 + 1)⌋ < 14 := by
    rw [Int.floor_lt]
    push_cast
    nlinarith
  constructor <;> omega

/-- C15: the start hour drawn for `(userId, localDate, tz)` is an integer from 8 to 21 and the
`lucky_time` of a returned bundle is `formatHourRange` of it; for every start hour from 8 to 21
the end hour `(start + 2) % 24` is `start + 2`, at most 23, and the text is `fmt(start)`, a
hyphen and `fmt(start + 2)`, where `fmt(h)` shows `h mod 12` (12 for 0) followed by PM from 12
on and by AM before; start 10 gives `10AM-12PM` and start 21 gives `9PM-11PM`. -/
theorem lucky_time_spec (hashToUint32 : String → ℕ) (lists : ContentLists)
    (userId localDate tz : String) :
    8 ≤ startHourOf (mulberry32 (hashToUint32 (userId ++ "|" ++ localDate ++ "|" ++ tz ++
      "|time"))) ∧
    startHourOf (mulberry32 (hashToUint32 (userId ++ "|" ++ localDate ++ "|" ++ tz ++
      "|time"))) ≤ 21 ∧
    (∀ b : DailyContent,
      getDailyContent hashToUint32 lists userId localDate tz = Except.ok b →
        b.lucky_time =
          formatHourRange (startHourOf (mulberry32 (hashToUint32 (userId ++ "|" ++ localDate ++
            "|" ++ tz ++ "|time"))))) ∧
    (∀ start : ℤ, 8 ≤ start → start ≤ 21 →
      Int.tmod (start + 2) 24 = start + 2 ∧ start + 2 ≤ 23 ∧
      formatHourRange start =
        toString (if start % 12 = 0 then 12 else start % 12) ++
          (if start ≥ 12 then "PM" else "AM") ++ "-" ++
          (toString (if (start + 2) % 12 = 0 then 12 else (start + 2) % 12) ++
            (if start + 2 ≥ 12 then "PM" else "AM"))) ∧
    formatHourRange 10 = "10AM-12PM" ∧ formatHourRange 21 = "9PM-11PM" := by
  obtain ⟨h8, h21⟩ := startHourOf_mem (mulberry32_inUnit (hashToUint32
    (userId ++ "|" ++ localDate ++ "|" ++ tz ++ "|time")))
  refine ⟨h8, h21, ?_, ?_, by decide!, by decide!⟩
  · intro b hb
    by_cases hv : lists.Valid
    · rw [getDailyContent_eq hashToUint32 lists userId localDate tz hv] at hb
      injection hb with hb
      subst hb
      rfl
    · obtain ⟨e, he⟩ := getDailyContent_error hashToUint32 lists userId localDate tz hv
      rw [he] at hb
      exact absurd hb (by simp)
  · intro start h1 h2
    interval_cases start <;> exact ⟨by decide, by decide, by decide!⟩

/-- C15, at a concrete input: start hour 21. -/
theorem lucky_time_spec_witness :
    Int.tmod (21 + 2) 24 = 21 + 2 ∧ (21 : ℤ) + 2 ≤ 23 ∧
      formatHourRange 21 =
        toString (if (21 : ℤ) % 12 = 0 then 12 else (21 : ℤ) % 12) ++
          (if (21 : ℤ) ≥ 12 then "PM" else "AM") ++ "-" ++
          (toString (if ((21 : ℤ) + 2) % 12 = 0 then 12 else ((21 : ℤ) + 2) % 12) ++
            (if (21 : ℤ) + 2 ≥ 12 then "PM" else "AM")) :=
  (lucky_time_spec (fun _ => 0) ⟨[], [], [], [], []⟩ "u" "2026-01-06" "Asia/Tokyo").2.2.2.1 21
    (by decide) (by decide)

theorem pickOneValue_mem {σ α : Type} {rng : Rng σ} (hrng : rng.InUnit) {arr : List α}
    (harr : 0 < arr.length) : ∃ x ∈ arr, pickOneValue rng arr = some x := by
  obtain ⟨i, hi, h⟩ := pickOne_ok hrng harr
  rw [pickOne_eq rng harr] at h
  injection h with h
  exact ⟨arr.get ⟨i, hi⟩, List.get_mem _ _ _, h⟩

theorem pickNUnique_forall_mem {σ α : Type} {rng : Rng σ} (hrng : rng.InUnit) (arr : List α)
    (n : ℕ) : ∀ o ∈ pickNUnique rng arr n, ∃ x ∈ arr, o = some x := by
  obtain ⟨chosen, rest, heq, _, hperm⟩ := pickNUnique_mem hrng arr n
  intro o ho
  rw [heq, List.mem_map] at ho
  obtain ⟨x, hx, rfl⟩ := ho
  exact ⟨x, hperm.mem_iff.mp (List.mem_append_left rest hx), rfl⟩

/-- C16, as stated, fails: with one entry in each of the five lists a bundle is returned,
and whatever the digest it has one suggestion, not two. -/
theorem bundle_counts_counterexample :
    ¬ ∃ hashToUint32 : String → ℕ, ∀ b : DailyContent,
      getDailyContent hashToUint32 ⟨["a"], ["s"], ["v"], ["t"], ["f"]⟩ "u" "2026-01-06"
          "Asia/Tokyo" = Except.ok b →
        b.suggest_to_do.length = 2 ∧ b.avoid_to_do.length = 2 ∧ b.daily_tasks.length = 3 := by
  rintro ⟨hashToUint32, h⟩
  have h2 := (h _ (getDailyContent_eq hashToUint32 ⟨["a"], ["s"], ["v"], ["t"], ["f"]⟩ "u"
    "2026-01-06" "Asia/Tokyo" (by decide))).1
  rw [length_pickNUnique] at h2
  exact absurd h2 (by decide)

/-- C16, amended: a returned bundle has `min(2, |suggestions|)` suggestions,
`min(2, |avoidances|)` avoidances and `min(3, |tasks|)` tasks, so exactly 2, 2 and 3 when the
lists have at least that many entries, together with one advice, one food, one colour, 2 lucky
numbers and the time-window text. -/
theorem bundle_counts (hashToUint32 : String → ℕ) (lists : ContentLists)
    (userId localDate tz : String) (b : DailyContent)
    (hb : getDailyContent hashToUint32 lists userId localDate tz = Except.ok b) :
    b.suggest_to_do.length = min 2 lists.suggestToDo.length ∧
    b.avoid_to_do.length = min 2 lists.avoidToDo.length ∧
    b.daily_tasks.length = min 3 lists.dailyTasks.length ∧
    (2 ≤ lists.suggestToDo.length → b.suggest_to_do.length = 2) ∧
    (2 ≤ lists.avoidToDo.length → b.avoid_to_do.length = 2) ∧
    (3 ≤ lists.dailyTasks.length → b.daily_tasks.length = 3) ∧
    1 ≤ b.suggest_to_do.length ∧ 1 ≤ b.avoid_to_do.length ∧ 1 ≤ b.daily_tasks.length ∧
    (∃ x ∈ lists.lifeAdvices, b.life_advice = some x) ∧
    (∃ x ∈ lists.foods, b.lucky_food = some x) ∧
    (∃ x ∈ LUCK_COLORS, b.lucky_color = some x) ∧
    b.lucky_numbers.length = 2 ∧
    (∃ start : ℤ, 8 ≤ start ∧ start ≤ 21 ∧ b.lucky_time = formatHourRange start) := by
  by_cases hv : lists.Valid
  · rw [getDailyContent_eq hashToUint32 lists userId localDate tz hv] at hb
    injection hb with hb
    subst hb
    obtain ⟨h1, h2, h3, h4, h5⟩ := hv
    simp only [length_pickNUnique]
    refine ⟨trivial, trivial, trivial, fun h => min_eq_left h, fun h => min_eq_left h,
      fun h => min_eq_left h, ?_, ?_, ?_, pickOneValue_mem (mulberry32_inUnit _) h1,
      pickOneValue_mem (mulberry32_inUnit _) h4,
      pickOneValue_mem (mulberry32_inUnit _) (by decide), by decide,
      ⟨_, (startHourOf_mem (mulberry32_inUnit _)).1, (startHourOf_mem (mulberry32_inUnit _)).2,
        rfl⟩⟩
    · exact le_min (by decide) h2
    · exact le_min (by decide) h3
    · exact le_min (by decide) h5
  · obtain ⟨e, he⟩ := getDailyContent_error hashToUint32 lists userId localDate tz hv
    rw [he] at hb
    exact absurd hb (by simp)

/-- C16, amended, at a concrete input: one suggestion in the list gives one suggestion in
the bundle. -/
theorem bundle_counts_witness :
    ∃ b : DailyContent,
      getDailyContent (fun _ => 7) ⟨["a"], ["s"], ["v"], ["t"], ["f"]⟩ "u" "2026-01-06"
        "Asia/Tokyo" = Except.ok b ∧
      b.suggest_to_do.length = min 2 (["s"] : List String).length :=
  ⟨_, getDailyContent_eq (fun _ => 7) ⟨["a"], ["s"], ["v"], ["t"], ["f"]⟩ "u" "2026-01-06"
      "Asia/Tokyo" (by decide),
    (bundle_counts (fun _ => 7) ⟨["a"], ["s"], ["v"], ["t"], ["f"]⟩ "u" "2026-01-06"
      "Asia/Tokyo" _ (getDailyContent_eq (fun _ => 7) ⟨["a"], ["s"], ["v"], ["t"], ["f"]⟩ "u"
        "2026-01-06" "Asia/Tokyo" (by decide))).1⟩

/-- C17: `getDailyContent` throws exactly when one of the five source lists is empty, and
then returns no bundle; when all five have an entry it returns a bundle in which every pick is
an element of its own list (of the palette for the colour, of 1..99 for the numbers), so no
pick reads outside its list. -/
theorem getDailyContent_error_iff (hashToUint32 : String → ℕ) (lists : ContentLists)
    (userId localDate tz : String) :
    ((∃ e, getDailyContent hashToUint32 lists userId localDate tz = Except.error e) ↔
      (lists.lifeAdvices = [] ∨ lists.suggestToDo = [] ∨ lists.avoidToDo = [] ∨
        lists.foods = [] ∨ lists.dailyTasks = [])) ∧
    ((lists.lifeAdvices = [] ∨ lists.suggestToDo = [] ∨ lists.avoidToDo = [] ∨
        lists.foods = [] ∨ lists.dailyTasks = []) →
      ∀ b, getDailyContent hashToUint32 lists userId localDate tz ≠ Except.ok b) ∧
    ((lists.lifeAdvices ≠ [] ∧ lists.suggestToDo ≠ [] ∧ lists.avoidToDo ≠ [] ∧
        lists.foods ≠ [] ∧ lists.dailyTasks ≠ []) →
      ∃ b, getDailyContent hashToUint32 lists userId localDate tz = Except.ok b ∧
        (∃ x ∈ lists.lifeAdvices, b.life_advice = some x) ∧
        (∀ o ∈ b.suggest_to_do, ∃ x ∈ lists.suggestToDo, o = some x) ∧
        (∀ o ∈ b.avoid_to_do, ∃ x ∈ lists.avoidToDo, o = some x) ∧
        (∃ x ∈ lists.foods, b.lucky_food = some x) ∧
        (∀ o ∈ b.daily_tasks, ∃ x ∈ lists.dailyTasks, o = some x) ∧
        (∃ x ∈ LUCK_COLORS, b.lucky_color = some x) ∧
        (∀ o ∈ b.lucky_numbers, ∃ x ∈ List.range' 1 99, o = some x)) := by
  have hvalid : lists.Valid ↔ (lists.lifeAdvices ≠ [] ∧ lists.suggestToDo ≠ [] ∧
      lists.avoidToDo ≠ [] ∧ lists.foods ≠ [] ∧ lists.dailyTasks ≠ []) := by
    unfold ContentLists.Valid
    simp only [List.length_pos]
  have hempty : ¬ lists.Valid ↔ (lists.lifeAdvices = [] ∨ lists.suggestToDo = [] ∨
      lists.avoidToDo = [] ∨ lists.foods = [] ∨ lists.dailyTasks = []) := by
    rw [hvalid]
    tauto
  refine ⟨?_, ?_, ?_⟩
  · rw [← hempty]
    constructor
    · rintro ⟨e, he⟩ hv
      rw [getDailyContent_eq hashToUint32 lists userId localDate tz hv] at he
      exact absurd he (by simp)
    · exact getDailyContent_error hashToUint32 lists userId localDate tz
  · intro h b hb
    obtain ⟨e, he⟩ := getDailyContent_error hashToUint32 lists userId localDate tz
      (hempty.mpr h)
    rw [he] at hb
    exact absurd hb (by simp)
  · intro h
    have hv := hvalid.mpr h
    obtain ⟨h1, _, _, h4, _⟩ := id hv
    exact ⟨_, getDailyContent_eq hashToUint32 lists userId localDate tz hv,
      pickOneValue_mem (mulberry32_inUnit _) h1,
      pickNUnique_forall_mem (mulberry32_inUnit _) _ _,
      pickNUnique_forall_mem (mulberry32_inUnit _) _ _,
      pickOneValue_mem (mulberry32_inUnit _) h4,
      pickNUnique_forall_mem (mulberry32_inUnit _) _ _,
      pickOneValue_mem (mulberry32_inUnit _) (by decide),
      pickNUnique_forall_mem (mulberry32_inUnit _) _ _⟩

/-- C17, at a concrete input: an empty food list makes the call throw. -/
theorem getDailyContent_error_iff_witness :
    ∃ e, getDailyContent (fun _ => 7) ⟨["a"], ["s"], ["v"], ["t"], []⟩ "u" "2026-01-06"
      "Asia/Tokyo" = Except.error e :=
  (getDailyContent_error_iff (fun _ => 7) ⟨["a"], ["s"], ["v"], ["t"], []⟩ "u" "2026-01-06"
    "Asia/Tokyo").1.mpr (by decide)

/-! ## Further properties of the sign resolver, the detector and the scoring engine -/

/-- C21: a sign that matches one of the 12 canonical names, whatever its letter case and
surrounding white space, gets the ruling body of the table, found in the table and not by the
fallback; a normalised canonical name is always found in the table; every sign that matches no
canonical name, the empty string included, gets `Sun`, by the fallback. -/
theorem getRulerPlanet_spec (sign : String) :
    (∀ p ∈ [("Aries", "Mars"), ("Taurus", "Venus"), ("Gemini", "Mercury"), ("Cancer", "Moon"),
        ("Leo", "Sun"), ("Virgo", "Mercury"), ("Libra", "Venus"), ("Scorpio", "Mars"),
        ("Sagittarius", "Jupiter"), ("Capricorn", "Saturn"), ("Aquarius", "Uranus"),
        ("Pisces", "Neptune")],
      jsToLowerCase p.1 = jsToLowerCase (jsTrim sign) →
        getRulerPlanet sign = p.2 ∧ rulerMap.lookup (normalizeSign sign) = some p.2) ∧
    (∀ c ∈ WESTERN_SIGNS, normalizeSign sign = c →
      ∃ r, rulerMap.lookup (normalizeSign sign) = some r ∧ getRulerPlanet sign = r) ∧
    ((∀ c ∈ WESTERN_SIGNS, jsToLowerCase c ≠ jsToLowerCase (jsTrim sign)) →
      getRulerPlanet sign = "Sun" ∧ rulerMap.lookup (normalizeSign sign) = none) ∧
    getRulerPlanet "" = "Sun" := by
  refine ⟨?_, ?_, ?_, by decide!⟩
  · intro p hp hmatch
    simp only [List.mem_cons, List.mem_singleton, List.not_mem_nil, or_false] at hp
    have hget : getRulerPlanet sign = (rulerMap.lookup (normalizeSign sign)).getD "Sun" := rfl
    rcases hp with h | h | h | h | h | h | h | h | h | h | h | h <;> subst h <;>
      rw [hget, normalizeSign_eq_of_match (by decide) hmatch] <;> exact ⟨by decide!, by decide!⟩
  · intro c hc hnorm
    have hget : getRulerPlanet sign = (rulerMap.lookup (normalizeSign sign)).getD "Sun" := rfl
    rw [hget, hnorm]
    simp only [WESTERN_SIGNS, List.mem_cons, List.mem_singleton, List.not_mem_nil,
      or_false] at hc
    rcases hc with h | h | h | h | h | h | h | h | h | h | h | h <;> subst h <;>
      exact ⟨(rulerMap.lookup _).getD "Sun", by decide!, rfl⟩
  · intro hno
    have hget : getRulerPlanet sign = (rulerMap.lookup (normalizeSign sign)).getD "Sun" := rfl
    rw [hget, normalizeSign_eq_empty hno]
    exact ⟨by decide!, by decide!⟩

/-- C21, at a concrete input: `sCoRpIo` between white space is ruled by Mars. -/
theorem getRulerPlanet_spec_witness :
    getRulerPlanet "  sCoRpIo\t" = "Mars" ∧
      rulerMap.lookup (normalizeSign "  sCoRpIo\t") = some "Mars" :=
  (getRulerPlanet_spec "  sCoRpIo\t").1 ("Scorpio", "Mars") (by decide) (by decide!)

theorem orbForPair_le (a b name : String) : orbForPair a b name ≤ 8 := by
  rcases orbForPair_values a b name with h | h | h | h <;> rw [h] <;> norm_num

/-- Two table rows whose orb windows both hold the same separation are the same row. -/
theorem inOrb_unique {t n : String} {lt ln : ℚ} {A B : AspectDef} (hA : A ∈ ASPECTS)
    (hB : B ∈ ASPECTS) (h1 : inOrb t lt n ln A) (h2 : inOrb t lt n ln B) : A = B := by
  unfold inOrb at h1 h2
  have o1 := orbForPair_le t n A.name
  have o2 := orbForPair_le t n B.name
  have a1 := abs_le.mp (h1.trans o1)
  have a2 := abs_le.mp (h2.trans o2)
  simp only [ASPECTS, List.mem_cons, List.mem_singleton, List.not_mem_nil, or_false] at hA hB
  rcases hA with rfl | rfl | rfl | rfl | rfl <;> rcases hB with rfl | rfl | rfl | rfl | rfl <;>
    first
    | rfl
    | (exfalso; simp only at a1 a2; linarith [a1.1, a1.2, a2.1, a2.2])

theorem length_filter_le_one {α : Type} [DecidableEq α] (p : α → Bool) :
    ∀ l : List α, l.Nodup → (∀ a ∈ l, ∀ b ∈ l, p a = true → p b = true → a = b) →
      (l.filter p).length ≤ 1 := by
  intro l hnd huniq
  have hfnd : (l.filter p).Nodup := hnd.filter p
  match hf : l.filter p, hfnd with
  | [], _ => simp
  | [_], _ => simp
  | a :: b :: rest, hfnd =>
    have ha : a ∈ l.filter p := by rw [hf]; simp
    have hb : b ∈ l.filter p := by rw [hf]; simp
    rw [List.mem_filter] at ha hb
    have hab := huniq a ha.1 b hb.1 ha.2 hb.2
    rw [hab] at hfnd
    simp at hfnd

theorem ASPECTS_nodup : ASPECTS.Nodup := ASPECTS_names_nodup.of_map

theorem length_inOrb_le_one (t : String) (lt : ℚ) (n : String) (ln : ℚ) :
    ((ASPECTS.filter fun asp => decide (inOrb t lt n ln asp)).map
      fun asp => mkAspect t lt n ln asp).length ≤ 1 := by
  rw [List.length_map]
  apply length_filter_le_one _ _ ASPECTS_nodup
  intro A hA B hB h1 h2
  exact inOrb_unique hA hB (of_decide_eq_true h1) (of_decide_eq_true h2)

theorem length_flatMap_le {α β : Type} (f : α → List β) (k : ℕ) :
    ∀ l : List α, (∀ x ∈ l, (f x).length ≤ k) → (l.flatMap f).length ≤ l.length * k := by
  intro l
  induction l with
  | nil => intro _; simp
  | cons a l ih =>
    intro h
    rw [List.flatMap_cons, List.length_append, List.length_cons, Nat.succ_mul]
    have h1 := h a (List.mem_cons_self _ _)
    have h2 := ih fun x hx => h x (List.mem_cons_of_mem _ hx)
    omega

theorem length_foundAspects_le (transit natal : LongitudeMap) :
    (foundAspects transit natal).length ≤ transit.length * natal.length := by
  unfold foundAspects
  apply length_flatMap_le
  intro t _
  have := length_flatMap_le
    (fun n : String × ℚ => (ASPECTS.filter fun asp => decide (inOrb t.1 t.2 n.1 n.2 asp)).map
      fun asp => mkAspect t.1 t.2 n.1 n.2 asp) 1 natal
    (fun n _ => length_inOrb_le_one t.1 t.2 n.1 n.2)
  simpa using this

theorem length_filter_flatMap_le_one {α β : Type} (key : α → String) (tag : β → String)
    (k : String) (p : β → Bool) (g : α → List β) :
    ∀ l : List α, (l.map key).Nodup → (∀ x ∈ l, ∀ b ∈ g x, tag b = key x) →
      (∀ b, p b = true → tag b = k) → (∀ x ∈ l, ((g x).filter p).length ≤ 1) →
      ((l.flatMap g).filter p).length ≤ 1 := by
  intro l
  induction l with
  | nil => intro _ _ _ _; simp
  | cons a l ih =>
    intro hnd htag hp hone
    rw [List.map_cons, List.nodup_cons] at hnd
    rw [List.flatMap_cons, List.filter_append, List.length_append]
    have hrest := ih hnd.2 (fun x hx => htag x (List.mem_cons_of_mem _ hx)) hp
      (fun x hx => hone x (List.mem_cons_of_mem _ hx))
    by_cases hk : key a = k
    · have hempty : (l.flatMap g).filter p = [] := by
        rw [List.filter_eq_nil_iff]
        intro b hb hpb
        rw [List.mem_flatMap] at hb
        obtain ⟨x, hx, hbx⟩ := hb
        have h1 := htag x (List.mem_cons_of_mem _ hx) b hbx
        have h2 := hp b hpb
        exact hnd.1 (List.mem_map.mpr ⟨x, hx, by rw [← h1, h2, hk]⟩)
      rw [hempty, List.length_nil, Nat.add_zero]
      exact hone a (List.mem_cons_self _ _)
    · have hempty : (g a).filter p = [] := by
        rw [List.filter_eq_nil_iff]
        intro b hb hpb
        exact hk ((htag a (List.mem_cons_self _ _) b hb).symm.trans (hp b hpb))
      rw [hempty, List.length_nil, Nat.zero_add]
      exact hrest

theorem length_filter_pair_le_one (transit natal : LongitudeMap)
    (ht : (transit.map Prod.fst).Nodup) (hn : (natal.map Prod.fst).Nodup) (t n : String) :
    ((computeTransitNatalAspects transit natal).filter
      (fun e => decide (e.transitBody = t ∧ e.natalBody = n))).length ≤ 1 := by
  have hperm := (List.perm_insertionSort rankBefore (foundAspects transit natal)).filter
    (fun e => decide (e.transitBody = t ∧ e.natalBody = n))
  unfold computeTransitNatalAspects
  rw [hperm.length_eq]
  unfold foundAspects
  apply length_filter_flatMap_le_one Prod.fst DetectedAspect.transitBody t _ _ transit ht
  · intro x _ b hb
    simp only [List.mem_flatMap, List.mem_map, List.mem_filter] at hb
    obtain ⟨y, _, A, _, rfl⟩ := hb
    rfl
  · intro b hb
    exact (of_decide_eq_true hb).1
  · intro x _
    apply length_filter_flatMap_le_one Prod.fst DetectedAspect.natalBody n _ _ natal hn
    · intro y _ b hb
      simp only [List.mem_map, List.mem_filter] at hb
      obtain ⟨A, _, rfl⟩ := hb
      rfl
    · intro b hb
      exact (of_decide_eq_true hb).2
    · intro y _
      exact (List.length_filter_le _ _).trans (length_inOrb_le_one x.1 x.2 y.1 y.2)

theorem nodup_map_of_filter_le_one {α β : Type} [DecidableEq β] (f : α → β) :
    ∀ l : List α, (∀ τ : β, (l.filter (fun e => decide (f e = τ))).length ≤ 1) →
      (l.map f).Nodup := by
  intro l
  induction l with
  | nil => intro _; exact List.nodup_nil
  | cons a l ih =>
    intro h
    rw [List.map_cons, List.nodup_cons]
    constructor
    · intro hmem
      rw [List.mem_map] at hmem
      obtain ⟨x, hx, hfx⟩ := hmem
      have h1 := h (f a)
      rw [List.filter_cons_of_pos (by simp), List.length_cons] at h1
      have hxf : x ∈ l.filter (fun e => decide (f e = f a)) :=
        List.mem_filter.mpr ⟨hx, decide_eq_true hfx⟩
      have := List.length_pos_of_mem hxf
      omega
    · apply ih
      intro τ
      have h1 := h τ
      by_cases hτ : f a = τ
      · rw [List.filter_cons_of_pos (by simpa using hτ), List.length_cons] at h1
        omega
      · rw [List.filter_cons_of_neg (by simpa using hτ)] at h1
        exact h1

/-- C24: for longitude objects (distinct keys) the detector emits at most one aspect for
every pair of a transit body and a natal body, because a separation lies in the orb window of
at most one of the five table rows: every orb is at most 8 and two different canonical angles
are at least 30 apart; hence the output has at most as many entries as there are pairs (100
for two sets of 10 bodies) and no two entries with the same triple. -/
theorem computeTransitNatalAspects_one_per_pair (transit natal : LongitudeMap)
    (ht : (transit.map Prod.fst).Nodup) (hn : (natal.map Prod.fst).Nodup) :
    (∀ t n : String,
      ((computeTransitNatalAspects transit natal).filter
        (fun e => decide (e.transitBody = t ∧ e.natalBody = n))).length ≤ 1) ∧
    (∀ (t n : String) (sep : ℚ) (A B : AspectDef), A ∈ ASPECTS → B ∈ ASPECTS →
      |sep - A.angle| ≤ orbForPair t n A.name → |sep - B.angle| ≤ orbForPair t n B.name →
        A = B) ∧
    (∀ t n name : String, orbForPair t n name ≤ 8) ∧
    (∀ A ∈ ASPECTS, ∀ B ∈ ASPECTS, A ≠ B → 30 ≤ |A.angle - B.angle|) ∧
    (computeTransitNatalAspects transit natal).length ≤ transit.length * natal.length ∧
    (transit.length = 10 → natal.length = 10 →
      (computeTransitNatalAspects transit natal).length ≤ 100) ∧
    ((computeTransitNatalAspects transit natal).map tripleOf).Nodup := by
  have hlen : (computeTransitNatalAspects transit natal).length ≤
      transit.length * natal.length := by
    unfold computeTransitNatalAspects
    rw [(List.perm_insertionSort rankBefore _).length_eq]
    exact length_foundAspects_le transit natal
  refine ⟨length_filter_pair_le_one transit natal ht hn, ?_, orbForPair_le, ?_, hlen, ?_, ?_⟩
  · intro t n sep A B hA hB h1 h2
    have o1 := orbForPair_le t n A.name
    have o2 := orbForPair_le t n B.name
    have a1 := abs_le.mp (h1.trans o1)
    have a2 := abs_le.mp (h2.trans o2)
    simp only [ASPECTS, List.mem_cons, List.mem_singleton, List.not_mem_nil, or_false] at hA hB
    rcases hA with rfl | rfl | rfl | rfl | rfl <;>
      rcases hB with rfl | rfl | rfl | rfl | rfl <;>
      first
      | rfl
      | (exfalso; simp only at a1 a2; linarith [a1.1, a1.2, a2.1, a2.2])
  · intro A hA B hB hne
    simp only [ASPECTS, List.mem_cons, List.mem_singleton, List.not_mem_nil, or_false] at hA hB
    rcases hA with rfl | rfl | rfl | rfl | rfl <;>
      rcases hB with rfl | rfl | rfl | rfl | rfl <;>
      first
      | exact absurd rfl hne
      | (simp only; norm_num [abs_le, le_abs])
  · intro h1 h2
    rw [h1, h2] at hlen
    exact hlen
  · apply nodup_map_of_filter_le_one
    intro τ
    refine le_trans ?_ (length_filter_pair_le_one transit natal ht hn τ.1 τ.2.2)
    rw [← List.countP_eq_length_filter, ← List.countP_eq_length_filter]
    apply List.countP_mono_left
    intro e _ he
    have he' : tripleOf e = τ := of_decide_eq_true he
    subst he'
    exact decide_eq_true ⟨rfl, rfl⟩

/-- C24, at a concrete input: transit Sun at 8 and Moon at 123 against natal Sun at 0 and Venus
at 122.5 gives at most four aspects. -/
theorem computeTransitNatalAspects_one_per_pair_witness :
    (computeTransitNatalAspects [("Sun", 8), ("Moon", 123)]
        [("Sun", 0), ("Venus", 245 / 2)]).length ≤
      [("Sun", (8 : ℚ)), ("Moon", 123)].length * [("Sun", (0 : ℚ)), ("Venus", 245 / 2)].length :=
  (computeTransitNatalAspects_one_per_pair [("Sun", 8), ("Moon", 123)]
    [("Sun", 0), ("Venus", 245 / 2)] (by decide) (by decide)).2.2.2.2.1

/-- C25: a sun sign that matches none of the 12 canonical names is scored with `Sun` as the
ruling planet: each of its five domain scores is the score for `Leo` on the same aspect list
minus Leo's sign flavour of the domain (Career 2, Fortune 0, Love 1, Social 1, Study -1), both
being `NaN` together; and an aspect with the Sun as one of its bodies has the ruler multiplier
1.12. -/
theorem unrecognized_sign_as_leo (sunSign : String) (aspects : List DetectedAspect)
    (h : ∀ c ∈ WESTERN_SIGNS, jsToLowerCase c ≠ jsToLowerCase (jsTrim sunSign)) :
    getRulerPlanet (normalizeSign sunSign) = "Sun" ∧
    getRulerPlanet (normalizeSign "Leo") = "Sun" ∧
    (∀ d : Domain,
      (scorePersonalDay sunSign aspects).scores.ofDomain d =
        ((scorePersonalDay "Leo" aspects).scores.ofDomain d).map fun v =>
          v - (leoFlavor d : ℚ)) ∧
    (∀ d : Domain, signBase (normalizeSign "Leo") d = (leoFlavor d : ℚ)) ∧
    (leoFlavor Domain.Career = 2 ∧ leoFlavor Domain.Fortune = 0 ∧ leoFlavor Domain.Love = 1 ∧
      leoFlavor Domain.Social = 1 ∧ leoFlavor Domain.Study = -1) ∧
    (∀ a : DetectedAspect, a.transitBody = "Sun" ∨ a.natalBody = "Sun" →
      rulerBonus (getRulerPlanet (normalizeSign sunSign)) a = 112 / 100) := by
  have hn : normalizeSign sunSign = "" := normalizeSign_eq_empty h
  have hr : getRulerPlanet (normalizeSign sunSign) = "Sun" := by rw [hn]; decide!
  have hl : getRulerPlanet (normalizeSign "Leo") = "Sun" := by decide!
  have hleo : ∀ d : Domain, signBase (normalizeSign "Leo") d = (leoFlavor d : ℚ) := by
    intro d
    cases d <;> decide!
  have hzero : ∀ d : Domain, signBase "" d = 0 := by
    intro d
    cases d <;> decide!
  refine ⟨hr, hl, ?_, hleo, ⟨rfl, rfl, rfl, rfl, rfl⟩, ?_⟩
  · intro d
    rw [scores_ofDomain, scores_ofDomain, hr, hl]
    cases hx : accumulate "Sun" (List.take 25 aspects) d with
    | none => simp [domainScore, hx]
    | some x =>
      obtain ⟨k, hk, hround, _⟩ := domainScore_band sunSign _ d x hx
      obtain ⟨k', hk', hround', _⟩ := domainScore_band "Leo" _ d x hx
      rw [hk, hk', Option.map_some', hround, hround', hn, hleo, hzero]
      have hsum : (50 : ℚ) + (leoFlavor d : ℚ) + 10 + clamp x (negCaps d) (posCaps d) =
          (leoFlavor d : ℚ) + (50 + 0 + 10 + clamp x (negCaps d) (posCaps d)) := by
        ring
      rw [hsum, jsRound_intCast_add]
      congr 1
      ring
  · intro a ha
    rw [hr]
    unfold rulerBonus
    rw [if_pos ha]

/-- C25, at a concrete input: the sign `Ophiuchus` on the exact Sun-Trine-Sun aspect scores
Career 67, which is Leo's 69 minus 2. -/
theorem unrecognized_sign_as_leo_witness :
    (scorePersonalDay "Ophiuchus"
        [mkAspect "Sun" 120 "Sun" 0 ⟨"Trine", 120, 8, 1⟩]).scores.ofDomain Domain.Career =
      ((scorePersonalDay "Leo"
        [mkAspect "Sun" 120 "Sun" 0 ⟨"Trine", 120, 8, 1⟩]).scores.ofDomain Domain.Career).map
        fun v => v - (leoFlavor Domain.Career : ℚ) :=
  (unrecognized_sign_as_leo "Ophiuchus" [mkAspect "Sun" 120 "Sun" 0 ⟨"Trine", 120, 8, 1⟩]
    (by decide!)).2.2.1 Domain.Career

/-- C26, as stated, fails for a body outside the ten-body set: the conjunction of transit
`Chiron` with natal `Chiron` has effective polarity 0 and neither body is Uranus, Neptune or
Pluto. -/
theorem conjunction_zero_counterexample :
    ¬ ∀ e ∈ computeTransitNatalAspects [("Chiron", 0)] [("Chiron", 0)],
        e.aspect = "Conjunction" →
          (effectivePolarity e = 0 ↔
            e.transitBody ∈ ["Uranus", "Neptune", "Pluto"] ∧
              e.natalBody ∈ ["Uranus", "Neptune", "Pluto"]) := by
  decide!

/-- C26, amended: for every Conjunction of the detector the polarity that the scoring
multiplies by is +1 with Venus or Jupiter in the pair, else -1 with Saturn, else +0.6 with the
Moon, else +0.5 with Mercury, else +0.3 with Mars or the Sun, else 0, so it is one of +1, -1,
+0.6, +0.5, +0.3, 0; the fallback is entered exactly for pairs with none of Venus, Jupiter and
Saturn, so its Jupiter and Saturn branches are never taken; and the polarity is 0 exactly when
neither body is one of Sun, Moon, Mercury, Venus, Mars, Jupiter, Saturn, which for bodies among
the ten means both are among Uranus, Neptune and Pluto. -/
theorem conjunction_effective_polarity (transit natal : LongitudeMap) (e : DetectedAspect)
    (he : e ∈ computeTransitNatalAspects transit natal) (hc : e.aspect = "Conjunction") :
    effectivePolarity e =
      (if e.transitBody = "Venus" ∨ e.natalBody = "Venus" ∨ e.transitBody = "Jupiter" ∨
          e.natalBody = "Jupiter" then 1
        else if e.transitBody = "Saturn" ∨ e.natalBody = "Saturn" then -1
        else if e.transitBody = "Moon" ∨ e.natalBody = "Moon" then 6 / 10
        else if e.transitBody = "Mercury" ∨ e.natalBody = "Mercury" then 5 / 10
        else if e.transitBody = "Mars" ∨ e.natalBody = "Mars" ∨ e.transitBody = "Sun" ∨
          e.natalBody = "Sun" then 3 / 10
        else 0) ∧
    effectivePolarity e ∈ [1, -1, 6 / 10, 5 / 10, 3 / 10, 0] ∧
    (e.polarity = 0 ↔
      ¬ (e.transitBody = "Venus" ∨ e.natalBody = "Venus" ∨ e.transitBody = "Jupiter" ∨
        e.natalBody = "Jupiter" ∨ e.transitBody = "Saturn" ∨ e.natalBody = "Saturn")) ∧
    (effectivePolarity e = 0 ↔
      ∀ b ∈ ["Sun", "Moon", "Mercury", "Venus", "Mars", "Jupiter", "Saturn"],
        e.transitBody ≠ b ∧ e.natalBody ≠ b) ∧
    (e.transitBody ∈ BODIES → e.natalBody ∈ BODIES →
      (effectivePolarity e = 0 ↔
        e.transitBody ∈ ["Uranus", "Neptune", "Pluto"] ∧
          e.natalBody ∈ ["Uranus", "Neptune", "Pluto"])) := by
  obtain ⟨t, lt, n, ln, A, hA, _, rfl⟩ := exists_mkAspect_of_mem he
  have hname : A.name = "Conjunction" := hc
  have hpol : (mkAspect t lt n ln A).polarity = conjunctionPolarity t n := by
    simp [mkAspect, hname]
  have hbodies : (mkAspect t lt n ln A).transitBody = t ∧ (mkAspect t lt n ln A).natalBody = n :=
    ⟨rfl, rfl⟩
  have heff : effectivePolarity (mkAspect t lt n ln A) =
      (if t = "Venus" ∨ n = "Venus" ∨ t = "Jupiter" ∨ n = "Jupiter" then 1
        else if t = "Saturn" ∨ n = "Saturn" then -1
        else if t = "Moon" ∨ n = "Moon" then 6 / 10
        else if t = "Mercury" ∨ n = "Mercury" then 5 / 10
        else if t = "Mars" ∨ n = "Mars" ∨ t = "Sun" ∨ n = "Sun" then 3 / 10
        else 0) := by
    unfold effectivePolarity
    rw [hpol, hbodies.1, hbodies.2, hc]
    unfold conjunctionPolarity tuneConjunctionPolarityFallback
    by_cases h1 : t = "Venus" ∨ n = "Venus" ∨ t = "Jupiter" ∨ n = "Jupiter"
    · simp [h1]
    · by_cases h2 : t = "Saturn" ∨ n = "Saturn"
      · simp [h1, h2]
      · simp only [not_or] at h1 h2
        by_cases h3 : t = "Moon" ∨ n = "Moon"
        · simp [h1, h2, h3]
        · by_cases h4 : t = "Mercury" ∨ n = "Mercury"
          · simp [h1, h2, h3, h4]
          · by_cases h5 : t = "Mars" ∨ n = "Mars" ∨ t = "Sun" ∨ n = "Sun"
            · simp [h1, h2, h3, h4, h5]
            · simp [h1, h2, h3, h4, h5]
  rw [heff, hpol, hbodies.1, hbodies.2]
  refine ⟨rfl, ?_, ?_, ?_, ?_⟩
  · split_ifs <;> simp
  · unfold conjunctionPolarity
    split_ifs with h1 h2 <;> simp_all
    tauto
  · simp only [List.mem_cons, List.mem_singleton, List.not_mem_nil, or_false, forall_eq_or_imp,
      forall_eq]
    split_ifs with h1 h2 h3 h4 h5 <;> norm_num <;> tauto
  · intro ht hn
    simp only [BODIES, List.mem_cons, List.mem_singleton, List.not_mem_nil, or_false] at ht hn ⊢
    rcases ht with rfl | rfl | rfl | rfl | rfl | rfl | rfl | rfl | rfl | rfl <;>
      rcases hn with rfl | rfl | rfl | rfl | rfl | rfl | rfl | rfl | rfl | rfl <;>
      decide!

/-- C26, amended, at a concrete input: the Moon-Venus conjunction of transit Moon at 123
against natal Venus at 122.5 has effective polarity +1. -/
theorem conjunction_effective_polarity_witness :
    effectivePolarity (mkAspect "Moon" 123 "Venus" (245 / 2) ⟨"Conjunction", 0, 10, 0⟩) ∈
      [1, -1, 6 / 10, 5 / 10, 3 / 10, 0] :=
  (conjunction_effective_polarity [("Sun", 8), ("Moon", 123)] [("Sun", 0), ("Venus", 245 / 2)]
    (mkAspect "Moon" 123 "Venus" (245 / 2) ⟨"Conjunction", 0, 10, 0⟩) (by decide!) rfl).2.1

/-! ## Properties of the handler of GET /daily-personal -/

theorem computeDaily_meta {env : Env} {userId tz localDateKey : String} {natal : Natal}
    {anchor : NoonAnchor} {P : Payload}
    (h : computeDaily env userId tz localDateKey natal = Except.ok (anchor, P)) :
    P.meta =
      { userId := userId
        tz := tz
        local_date := localDateKey
        anchored_local_noon := anchor.localNoonText
        anchored_utc := anchor.utcText
        cached := false
        cache_key := none } := by
  unfold computeDaily at h
  cases h1 : env.getLocalNoonUTCDate tz localDateKey with
  | error e => rw [h1] at h; cases h
  | ok a =>
    rw [h1] at h
    cases h2 : getDailyContent env.hashToUint32 env.lists userId localDateKey tz with
    | error e =>
      simp only [bind, Except.bind, h2] at h
      cases h
    | ok c =>
      simp only [bind, Except.bind, h2, pure, Except.pure] at h
      injection h with h
      injection h with ha hP
      subst ha hP
      rfl

/-- A response with a payload that is not marked as cached comes from the computing branch:
the date key resolved, the user was found, the computation succeeded and its row was
upserted. -/
theorem dailyPersonal_computed {env : Env} {clock : RequestClock} {db db₁ : Db} {q : Query}
    {P : Payload} (h : dailyPersonal env clock db q = (Response.json P, db₁))
    (hP : P.meta.cached = false) :
    ∃ (localDateKey : String) (natal : Natal) (anchor : NoonAnchor),
      clock.getLocalDateKey (jsTrim (q.tz.getD "")) (jsTrim (q.date.getD "")) =
        Except.ok localDateKey ∧
      db.users.lookup (jsTrim (q.userId.getD "")) = some natal ∧
      computeDaily env (jsTrim (q.userId.getD "")) (jsTrim (q.tz.getD "")) localDateKey natal =
        Except.ok (anchor, P) ∧
      db₁ = { db with
        daily_scores := upsertDaily db.daily_scores
          (rowOf clock (jsTrim (q.userId.getD "")) (jsTrim (q.tz.getD "")) localDateKey anchor
            P) } ∧
      jsTrim (q.userId.getD "") ≠ "" ∧ jsTrim (q.tz.getD "") ≠ "" := by
  unfold dailyPersonal at h
  simp only at h
  by_cases hu : jsTrim (q.userId.getD "") = ""
  · rw [if_pos hu] at h
    cases h
  rw [if_neg hu] at h
  by_cases ht : jsTrim (q.tz.getD "") = ""
  · rw [if_pos ht] at h
    cases h
  rw [if_neg ht] at h
  cases h1 : clock.getLocalDateKey (jsTrim (q.tz.getD "")) (jsTrim (q.date.getD "")) with
  | error e => rw [h1] at h; cases h
  | ok localDateKey =>
    rw [h1] at h
    simp only at h
    cases h2 : (if decide (jsTrim (q.refresh.getD "") = "1") = true then none
        else selectDaily db.daily_scores (jsTrim (q.userId.getD "")) localDateKey
          (jsTrim (q.tz.getD ""))) with
    | some cached =>
      rw [h2] at h
      simp only [Prod.mk.injEq, Response.json.injEq] at h
      rw [← h.1] at hP
      simp [annotateCached] at hP
    | none =>
      rw [h2] at h
      simp only at h
      cases h3 : db.users.lookup (jsTrim (q.userId.getD "")) with
      | none => rw [h3] at h; cases h
      | some natal =>
        rw [h3] at h
        simp only at h
        cases h4 : computeDaily env (jsTrim (q.userId.getD "")) (jsTrim (q.tz.getD ""))
            localDateKey natal with
        | error e => rw [h4] at h; cases h
        | ok res =>
          obtain ⟨anchor, payload⟩ := res
          rw [h4] at h
          simp only [Prod.mk.injEq, Response.json.injEq] at h
          obtain ⟨hpay, hdb⟩ := h
          subst hpay
          exact ⟨localDateKey, natal, anchor, rfl, rfl, h4, hdb.symm, hu, ht⟩

theorem updateRow_eq {x r : DailyRow} (h : x.key = r.key) :
    ({ x with
        anchored_local_noon := r.anchored_local_noon
        anchored_utc := r.anchored_utc
        result_json := r.result_json
        created_at := r.created_at } : DailyRow) = r := by
  cases x
  cases r
  simp only [DailyRow.key, CacheKey.mk.injEq] at h
  obtain ⟨h1, h2, h3⟩ := h
  subst h1 h2 h3
  rfl

theorem upsertDaily_eq (rows : List DailyRow) (r : DailyRow) :
    upsertDaily rows r =
      if r.key ∈ rows.map DailyRow.key then rows.map (fun x => if x.key = r.key then r else x)
      else rows ++ [r] := by
  unfold upsertDaily
  have hany : (rows.any fun x => decide (x.key = r.key)) = true ↔
      r.key ∈ rows.map DailyRow.key := by
    rw [List.any_eq_true, List.mem_map]
    constructor
    · rintro ⟨x, hx, hk⟩
      exact ⟨x, hx, of_decide_eq_true hk⟩
    · rintro ⟨x, hx, hk⟩
      exact ⟨x, hx, decide_eq_true hk⟩
  by_cases hmem : r.key ∈ rows.map DailyRow.key
  · rw [if_pos (hany.mpr hmem), if_pos hmem]
    apply List.map_congr_left
    intro x _
    by_cases hk : x.key = r.key
    · rw [if_pos hk, if_pos hk]
      exact updateRow_eq hk
    · rw [if_neg hk, if_neg hk]
  · rw [if_neg (fun h => hmem (hany.mp h)), if_neg hmem]

theorem map_replace_of_not_mem (r : DailyRow) :
    ∀ rows : List DailyRow, r.key ∉ rows.map DailyRow.key →
      rows.map (fun x => if x.key = r.key then r else x) = rows ∧
        rows.filter (fun x => decide (x.key = r.key)) = [] := by
  intro rows
  induction rows with
  | nil => intro _; exact ⟨rfl, rfl⟩
  | cons x rows ih =>
    intro h
    rw [List.map_cons, List.mem_cons, not_or] at h
    obtain ⟨h1, h2⟩ := ih h.2
    have hx : ¬ x.key = r.key := fun hk => h.1 hk.symm
    constructor
    · rw [List.map_cons, if_neg hx, h1]
    · rw [List.filter_cons_of_neg (by simpa using hx), h2]

theorem keys_map_replace (r : DailyRow) (rows : List DailyRow) :
    (rows.map (fun x => if x.key = r.key then r else x)).map DailyRow.key =
      rows.map DailyRow.key := by
  rw [List.map_map]
  apply List.map_congr_left
  intro x _
  simp only [Function.comp_apply]
  split_ifs with hk
  · exact hk.symm
  · rfl

theorem filter_map_replace (r : DailyRow) :
    ∀ rows : List DailyRow, (rows.map DailyRow.key).Nodup → r.key ∈ rows.map DailyRow.key →
      (rows.map (fun x => if x.key = r.key then r else x)).filter
        (fun x => decide (x.key = r.key)) = [r] := by
  intro rows
  induction rows with
  | nil => intro _ h; simp at h
  | cons x rows ih =>
    intro hnd hmem
    rw [List.map_cons, List.nodup_cons] at hnd
    rw [List.map_cons]
    by_cases hk : x.key = r.key
    · have hnot : r.key ∉ rows.map DailyRow.key := hk ▸ hnd.1
      obtain ⟨h1, h2⟩ := map_replace_of_not_mem r rows hnot
      rw [if_pos hk, List.filter_cons_of_pos (by simp), h1, h2]
    · have hmem' : r.key ∈ rows.map DailyRow.key := by
        rw [List.map_cons, List.mem_cons] at hmem
        rcases hmem with h | h
        · exact absurd h.symm hk
        · exact h
      rw [if_neg hk, List.filter_cons_of_neg (by simpa using hk)]
      exact ih hnd.2 hmem'

theorem filter_ne_map_replace (r : DailyRow) :
    ∀ rows : List DailyRow,
      (rows.map (fun x => if x.key = r.key then r else x)).filter
          (fun x => decide (x.key ≠ r.key)) =
        rows.filter (fun x => decide (x.key ≠ r.key)) := by
  intro rows
  induction rows with
  | nil => rfl
  | cons x rows ih =>
    rw [List.map_cons]
    by_cases hk : x.key = r.key
    · rw [if_pos hk, List.filter_cons_of_neg (by simp), List.filter_cons_of_neg (by simpa using hk),
        ih]
    · rw [if_neg hk, List.filter_cons_of_pos (by simpa using hk),
        List.filter_cons_of_pos (by simpa using hk), ih]

/-- The upsert keeps the primary key, leaves exactly the new row under its key and leaves the
rows of the other keys as they were. -/
theorem upsertDaily_spec (rows : List DailyRow) (r : DailyRow)
    (hnd : (rows.map DailyRow.key).Nodup) :
    ((upsertDaily rows r).map DailyRow.key).Nodup ∧
    r.key ∈ (upsertDaily rows r).map DailyRow.key ∧
    (upsertDaily rows r).filter (fun x => decide (x.key = r.key)) = [r] ∧
    (upsertDaily rows r).filter (fun x => decide (x.key ≠ r.key)) =
      rows.filter (fun x => decide (x.key ≠ r.key)) ∧
    (r.key ∈ rows.map DailyRow.key → (upsertDaily rows r).length = rows.length) := by
  rw [upsertDaily_eq]
  by_cases hmem : r.key ∈ rows.map DailyRow.key
  · rw [if_pos hmem, keys_map_replace]
    exact ⟨hnd, hmem, filter_map_replace r rows hnd hmem, filter_ne_map_replace r rows,
      fun _ => List.length_map _ _⟩
  · rw [if_neg hmem]
    obtain ⟨_, h2⟩ := map_replace_of_not_mem r rows hmem
    refine ⟨?_, ?_, ?_, ?_, fun h => absurd h hmem⟩
    · rw [List.map_append, List.map_singleton]
      exact List.Nodup.append hnd (List.nodup_singleton _)
        (by simpa [List.disjoint_singleton] using hmem)
    · simp
    · rw [List.filter_append, h2]
      simp
    · rw [List.filter_append]
      simp

theorem find?_of_filter_singleton {α : Type} (p : α → Bool) (a : α) :
    ∀ l : List α, l.filter p = [a] → l.find? p = some a := by
  intro l
  induction l with
  | nil => intro h; simp at h
  | cons x l ih =>
    intro h
    by_cases hx : p x = true
    · rw [List.filter_cons_of_pos hx] at h
      injection h with h1 _
      rw [List.find?_cons_of_pos _ hx, h1]
    · rw [List.filter_cons_of_neg hx] at h
      rw [List.find?_cons_of_neg _ hx]
      exact ih h

theorem selectDaily_eq (rows : List DailyRow) (userId localDate tz : String) :
    selectDaily rows userId localDate tz =
      rows.find? fun x => decide (x.key = ⟨userId, localDate, tz⟩) := by
  unfold selectDaily
  congr 1
  funext x
  simp [DailyRow.key]

theorem mem_upsertDaily {rows : List DailyRow} {r x : DailyRow} (hx : x ∈ upsertDaily rows r) :
    x ∈ rows ∨ x = r := by
  rw [upsertDaily_eq] at hx
  split_ifs at hx
  · rw [List.mem_map] at hx
    obtain ⟨y, hy, hxy⟩ := hx
    split_ifs at hxy
    · exact Or.inr hxy.symm
    · exact Or.inl (hxy ▸ hy)
  · rw [List.mem_append, List.mem_singleton] at hx
    exact hx

/-- The handler answers every request with the database either unchanged or with one upsert
of a row of a known user, so it keeps the primary key and the foreign key of
`daily_scores` and never changes `users`. -/
theorem dailyPersonal_constraints (env : Env) (clock : RequestClock) (db : Db) (q : Query)
    (hpk : db.PrimaryKeyOk) (hfk : db.ForeignKeyOk) :
    (dailyPersonal env clock db q).2.PrimaryKeyOk ∧
      (dailyPersonal env clock db q).2.ForeignKeyOk ∧
      (dailyPersonal env clock db q).2.users = db.users := by
  unfold dailyPersonal
  simp only
  by_cases hu : jsTrim (q.userId.getD "") = ""
  · rw [if_pos hu]
    exact ⟨hpk, hfk, rfl⟩
  rw [if_neg hu]
  by_cases ht : jsTrim (q.tz.getD "") = ""
  · rw [if_pos ht]
    exact ⟨hpk, hfk, rfl⟩
  rw [if_neg ht]
  cases clock.getLocalDateKey (jsTrim (q.tz.getD "")) (jsTrim (q.date.getD "")) with
  | error e => exact ⟨hpk, hfk, rfl⟩
  | ok localDateKey =>
    simp only
    cases (if decide (jsTrim (q.refresh.getD "") = "1") = true then none
        else selectDaily db.daily_scores (jsTrim (q.userId.getD "")) localDateKey
          (jsTrim (q.tz.getD ""))) with
    | some cached => exact ⟨hpk, hfk, rfl⟩
    | none =>
      simp only
      cases h3 : db.users.lookup (jsTrim (q.userId.getD "")) with
      | none => exact ⟨hpk, hfk, rfl⟩
      | some natal =>
        simp only
        cases computeDaily env (jsTrim (q.userId.getD "")) (jsTrim (q.tz.getD ""))
            localDateKey natal with
        | error e => exact ⟨hpk, hfk, rfl⟩
        | ok res =>
          obtain ⟨anchor, payload⟩ := res
          refine ⟨(upsertDaily_spec _ _ hpk).1, ?_, rfl⟩
          intro x hx
          rcases mem_upsertDaily hx with h | h
          · exact hfk x h
          · subst h
            exact ⟨natal, h3⟩

/-- Every database that the routes can produce from the empty one satisfies the primary key
and the foreign key of `daily_scores`. -/
theorem reachable_constraints {db : Db} (h : db.Reachable) :
    db.PrimaryKeyOk ∧ db.ForeignKeyOk := by
  induction h with
  | empty => exact ⟨List.nodup_nil, fun _ hr => absurd hr (List.not_mem_nil _)⟩
  | @addUser db db₁ id natal _ hins ih =>
    unfold insertUser at hins
    cases hl : db.users.lookup id with
    | some n => rw [hl] at hins; cases hins
    | none =>
      rw [hl] at hins
      injection hins with hdb
      subst hdb
      refine ⟨ih.1, ?_⟩
      intro r hr
      obtain ⟨n, hn⟩ := ih.2 r hr
      exact ⟨n, by rw [List.lookup_append, hn]; rfl⟩
  | daily env clock q _ ih =>
    exact ⟨(dailyPersonal_constraints env clock _ q ih.1 ih.2).1,
      (dailyPersonal_constraints env clock _ q ih.1 ih.2).2.1⟩

/-- C23: for a request with non-empty `userId` and `tz` whose date key resolves, on a database
that satisfies the foreign key of `daily_scores`, a `userId` without a row in `users` is
answered with status 404 and error `NotFound`, nothing is thrown, and both tables are left
unchanged. -/
theorem dailyPersonal_unknown_user (env : Env) (clock : RequestClock) (db : Db) (q : Query)
    (localDateKey : String) (hu : jsTrim (q.userId.getD "") ≠ "")
    (ht : jsTrim (q.tz.getD "") ≠ "")
    (hd : clock.getLocalDateKey (jsTrim (q.tz.getD "")) (jsTrim (q.date.getD "")) =
      Except.ok localDateKey)
    (hfk : db.ForeignKeyOk)
    (hno : db.users.lookup (jsTrim (q.userId.getD "")) = none) :
    dailyPersonal env clock db q = (Response.status 404 "NotFound" "User not found.", db) := by
  have hsel : selectDaily db.daily_scores (jsTrim (q.userId.getD "")) localDateKey
      (jsTrim (q.tz.getD "")) = none := by
    unfold selectDaily
    rw [List.find?_eq_none]
    intro x hx hp
    obtain ⟨natal, hnatal⟩ := hfk x hx
    rw [(of_decide_eq_true hp).1, hno] at hnatal
    cases hnatal
  unfold dailyPersonal
  simp only
  rw [if_neg hu, if_neg ht, hd]
  simp only [hsel, ite_self, hno]

/-- C23, at a concrete input: an empty database and the user `u1`. -/
theorem dailyPersonal_unknown_user_witness :
    dailyPersonal
        ⟨fun _ d => Except.ok ⟨d ++ "T12:00", d ++ "T03:00Z", 0⟩, fun _ => [("Sun", 120)],
          fun _ => 7, ⟨["a"], ["s"], ["v"], ["t"], ["f"]⟩⟩
        ⟨fun _ d => Except.ok d, "now"⟩ ⟨[], []⟩
        ⟨some "u1", some "Asia/Tokyo", some "2026-01-06", none⟩ =
      (Response.status 404 "NotFound" "User not found.", ⟨[], []⟩) :=
  dailyPersonal_unknown_user _ ⟨fun _ d => Except.ok d, "now"⟩ ⟨[], []⟩
    ⟨some "u1", some "Asia/Tokyo", some "2026-01-06", none⟩ "2026-01-06" (by decide!)
    (by decide!) (congrArg Except.ok (by decide! : jsTrim "2026-01-06" = "2026-01-06"))
    (fun _ h => absurd h (List.not_mem_nil _)) rfl

/-- C22: after a request has computed the payload `P` and upserted it (the database
satisfying the primary key of `daily_scores`), `P` is the payload of the only row under its key
`(userId, localDate, tz)`; a following request for the same key without `refresh=1` returns `P`
with `meta.cached = true` and `meta.cache_key` set to the key, every other field as in `P`, and
leaves both tables unchanged; a following request for the same key with `refresh=1` returns a
payload equal to `P` and leaves `users`, the number of rows and the rows of all other keys
unchanged, the only row under the key being the newly written one with payload `P`. -/
theorem dailyPersonal_cache (env : Env) (clock₁ clock₂ : RequestClock) (db db₁ : Db)
    (q₁ q₂ : Query) (P : Payload) (hpk : db.PrimaryKeyOk)
    (h₁ : dailyPersonal env clock₁ db q₁ = (Response.json P, db₁))
    (hP : P.meta.cached = false)
    (hu : jsTrim (q₂.userId.getD "") = jsTrim (q₁.userId.getD ""))
    (ht : jsTrim (q₂.tz.getD "") = jsTrim (q₁.tz.getD ""))
    (hd : clock₂.getLocalDateKey (jsTrim (q₂.tz.getD "")) (jsTrim (q₂.date.getD "")) =
      clock₁.getLocalDateKey (jsTrim (q₁.tz.getD "")) (jsTrim (q₁.date.getD ""))) :
    (P.meta.userId = jsTrim (q₁.userId.getD "") ∧ P.meta.tz = jsTrim (q₁.tz.getD "") ∧
      clock₁.getLocalDateKey (jsTrim (q₁.tz.getD "")) (jsTrim (q₁.date.getD "")) =
        Except.ok P.meta.local_date) ∧
    db₁.users = db.users ∧ db₁.PrimaryKeyOk ∧
    (db₁.daily_scores.filter
      (fun r => decide (r.key = ⟨P.meta.userId, P.meta.local_date, P.meta.tz⟩))).map
        DailyRow.result_json = [P] ∧
    (jsTrim (q₂.refresh.getD "") ≠ "1" →
      dailyPersonal env clock₂ db₁ q₂ =
        (Response.json
          { P with
            meta :=
              { P.meta with
                cached := true
                cache_key := some ⟨P.meta.userId, P.meta.local_date, P.meta.tz⟩ } },
          db₁)) ∧
    (jsTrim (q₂.refresh.getD "") = "1" →
      ∃ (db₂ : Db) (row : DailyRow),
        dailyPersonal env clock₂ db₁ q₂ = (Response.json P, db₂) ∧
        db₂.users = db₁.users ∧
        db₂.daily_scores.filter
          (fun r => decide (r.key = ⟨P.meta.userId, P.meta.local_date, P.meta.tz⟩)) = [row] ∧
        row.result_json = P ∧ row.created_at = clock₂.now ∧
        db₂.daily_scores.length = db₁.daily_scores.length ∧
        db₂.daily_scores.filter
            (fun r => decide (r.key ≠ ⟨P.meta.userId, P.meta.local_date, P.meta.tz⟩)) =
          db₁.daily_scores.filter
            (fun r => decide (r.key ≠ ⟨P.meta.userId, P.meta.local_date, P.meta.tz⟩))) := by
  obtain ⟨ldk, natal, anchor, h1, h3, h4, hdb, hu1, ht1⟩ := dailyPersonal_computed h₁ hP
  have hmeta := computeDaily_meta h4
  have hmu : P.meta.userId = jsTrim (q₁.userId.getD "") := by rw [hmeta]
  have hmt : P.meta.tz = jsTrim (q₁.tz.getD "") := by rw [hmeta]
  have hml : P.meta.local_date = ldk := by rw [hmeta]
  have hK : ∀ clock : RequestClock,
      (⟨P.meta.userId, P.meta.local_date, P.meta.tz⟩ : CacheKey) =
        (rowOf clock (jsTrim (q₁.userId.getD "")) (jsTrim (q₁.tz.getD "")) ldk anchor P).key := by
    intro clock
    rw [hmu, hmt, hml]
    rfl
  have hann : annotateCached P (jsTrim (q₁.userId.getD "")) ldk (jsTrim (q₁.tz.getD "")) =
      { P with
        meta :=
          { P.meta with
            cached := true
            cache_key := some ⟨P.meta.userId, P.meta.local_date, P.meta.tz⟩ } } := by
    unfold annotateCached
    rw [hmu, hmt, hml]
  obtain ⟨s1, s2, s3, _, _⟩ := upsertDaily_spec db.daily_scores
    (rowOf clock₁ (jsTrim (q₁.userId.getD "")) (jsTrim (q₁.tz.getD "")) ldk anchor P) hpk
  have hdaily : db₁.daily_scores = upsertDaily db.daily_scores
      (rowOf clock₁ (jsTrim (q₁.userId.getD "")) (jsTrim (q₁.tz.getD "")) ldk anchor P) := by
    rw [hdb]
  have husers : db₁.users = db.users := by rw [hdb]
  have hpk₁ : db₁.PrimaryKeyOk := by
    unfold Db.PrimaryKeyOk
    rw [hdaily]
    exact s1
  refine ⟨⟨hmu, hmt, by rw [h1, hml]⟩, husers, hpk₁, ?_, ?_, ?_⟩
  · rw [hK clock₁, hdaily, s3]
    rfl
  · intro hr
    have hsel : selectDaily db₁.daily_scores (jsTrim (q₁.userId.getD "")) ldk
        (jsTrim (q₁.tz.getD "")) =
        some (rowOf clock₁ (jsTrim (q₁.userId.getD "")) (jsTrim (q₁.tz.getD "")) ldk anchor
          P) := by
      rw [selectDaily_eq]
      apply find?_of_filter_singleton
      rw [hdaily]
      exact s3
    rw [← hann]
    unfold dailyPersonal
    simp only
    rw [hd, hu, ht, h1, if_neg hu1, if_neg ht1]
    simp only [hr, decide_False, Bool.false_eq_true, if_false, hsel]
    rfl
  · intro hr
    obtain ⟨t1, _, t3, t4, t5⟩ := upsertDaily_spec db₁.daily_scores
      (rowOf clock₂ (jsTrim (q₁.userId.getD "")) (jsTrim (q₁.tz.getD "")) ldk anchor P) hpk₁
    have hlen := t5 (by rw [hdaily]; exact s2)
    refine ⟨{ db₁ with
        daily_scores := upsertDaily db₁.daily_scores
          (rowOf clock₂ (jsTrim (q₁.userId.getD "")) (jsTrim (q₁.tz.getD "")) ldk anchor P) },
      rowOf clock₂ (jsTrim (q₁.userId.getD "")) (jsTrim (q₁.tz.getD "")) ldk anchor P,
      ?_, rfl, by rw [hK clock₂]; exact t3, rfl, rfl, hlen, by rw [hK clock₂]; exact t4⟩
    unfold dailyPersonal
    simp only
    rw [hd, hu, ht, h1, if_neg hu1, if_neg ht1]
    simp only [hr, decide_True, if_true, husers, h3, h4]
    rfl

/-- C22, at a concrete input: the first request of user `u1` computes a payload, and the same
request repeated at a later instant returns it marked as cached and leaves the database as it
was. -/
theorem dailyPersonal_cache_witness :
    ∃ (P : Payload) (db₁ : Db),
      dailyPersonal exampleEnv (exampleClock "t1") exampleDb (exampleQuery none) =
        (Response.json P, db₁) ∧
      dailyPersonal exampleEnv (exampleClock "t2") db₁ (exampleQuery none) =
        (Response.json
          { P with
            meta :=
              { P.meta with
                cached := true
                cache_key := some ⟨P.meta.userId, P.meta.local_date, P.meta.tz⟩ } },
          db₁) := by
  have hc : (dailyPersonal exampleEnv (exampleClock "t1") exampleDb
      (exampleQuery none)).1.isComputed = true := by decide!
  generalize hres :
    dailyPersonal exampleEnv (exampleClock "t1") exampleDb (exampleQuery none) = res at hc
  obtain ⟨resp, db₁⟩ := res
  cases resp with
  | json P =>
    have hP : P.meta.cached = false := by simpa [Response.isComputed] using hc
    exact ⟨P, db₁, rfl,
      (dailyPersonal_cache exampleEnv (exampleClock "t1") (exampleClock "t2") exampleDb db₁
        (exampleQuery none) (exampleQuery none) P List.nodup_nil hres hP rfl rfl rfl).2.2.2.2.1
        (by decide!)⟩
  | status code error message => simp [Response.isComputed] at hc
  | next err => simp [Response.isComputed] at hc

end LuckApp
